import Mathlib

/-!
# CrossTieConnect: CRSF frame encoder and software-serial transmitter

A shallow embedding of `src/utils/Utils.cpp`, `src/crsf/CRSFModule.cpp`,
`src/channels/ChannelManager.cpp` and the constants of `src/Config.h`.

Conventions of the embedding:
* machine integers are naturals; every store into a `uint8_t` is followed by
  `% 256`, every `uint16_t` by `% 65536`, every `unsigned long`/`uint32_t`
  subtraction or addition by `% 2 ^ 32`;
* a read-only input array (`const uint16_t *channels`, `const uint8_t *buf`)
  is a `List Nat`;
* a byte buffer that is written through a pointer is a memory
  `Nat → Nat` (address to byte) together with a base address;
* the hardware is a `World`: a free-running cycle counter and the
  chronological trace of the calls made to the board support package.
-/

set_option maxRecDepth 100000

namespace CrossTie

/-! ## Config.h -/

def DOUBLE_PRESS_TIME : Nat := 500
def CHANNEL_VALUE_MIN : Nat := 172
def CHANNEL_VALUE_MAX : Nat := 1811
def CHANNEL_VALUE_MID : Nat := (CHANNEL_VALUE_MIN + CHANNEL_VALUE_MAX) / 2
def CRSF_TX_PIN : Nat := 26
def CRSF_BAUDRATE : Nat := 420000
def BIT_TIME_US : Nat := 1000000 / CRSF_BAUDRATE
def CRSF_FRAMETYPE_RC_CHANNELS_PACKED : Nat := 0x16
def CRSF_ADDRESS_FLIGHT_CONTROLLER : Nat := 0xEE
def CRSF_FRAME_SIZE : Nat := 26
def DEBUG_LED_PIN : Nat := 10
def NUM_CHANNELS : Nat := 16

/-! ## Utils.cpp: `crcCRSF` -/

/-- Body of the inner loop of `crcCRSF` (Utils.cpp 48-52).  The accumulator
is a `uint8_t`, so the assignment truncates modulo `2 ^ 8`. -/
def crcShift (crc : Nat) : Nat :=
  if crc &&& 0x80 ≠ 0 then ((crc <<< 1) ^^^ 0xD5) % 256 else (crc <<< 1) % 256

/-- The inner loop `for (j = 0; j < 8; j++)`: eight shifts. -/
def crcByte (crc : Nat) : Nat := crcShift^[8] crc

/-- Body of the outer loop: `crc ^= buf[i]` (stored into a `uint8_t`)
followed by the inner loop. -/
def crcStep (crc b : Nat) : Nat := crcByte ((crc ^^^ b) % 256)

/-- Function `crcCRSF(buf, len)` of Utils.cpp: the accumulator starts at 0 and
the loop `for (i = 0; i < len; i++)` folds `buf[i]` in for `i = 0, ..., len-1`.
`len` is a `uint8_t` parameter, hence the `% 256`; `buf[i]` is
`buf.getD i 0`. -/
def crcCRSF (buf : List Nat) (len : Nat) : Nat :=
  (List.range (len % 256)).foldl (fun crc i => crcStep crc (buf.getD i 0)) 0

/-! ## The mathematical CRC: remainders in GF(2)[x]

A polynomial over GF(2) is encoded as the natural whose bit `i` is the
coefficient of `x ^ i`; addition of polynomials is `^^^`. -/

/-- Product of two polynomials over GF(2) (carry-less multiplication). -/
def gf2Mul : Nat → Nat → Nat
  | 0, _ => 0
  | a + 1, b => (if (a + 1) % 2 = 1 then b else 0) ^^^ 2 * gf2Mul ((a + 1) / 2) b
decreasing_by omega

/-- Schoolbook long division, most significant coefficient first: for
`j = k-1, ..., 0`, when the coefficient of `x ^ (j + dg)` of the running
remainder is set, subtract `g * x ^ j`. -/
def gf2ModAux (g dg : Nat) : Nat → Nat → Nat
  | 0, a => a
  | k + 1, a => gf2ModAux g dg k (if a.testBit (k + dg) then a ^^^ (g <<< k) else a)

/-- Remainder of the polynomial `a` modulo the polynomial `g` over GF(2). -/
def gf2Mod (a g : Nat) : Nat :=
  gf2ModAux g g.log2 (a.log2 + 1 - g.log2) a

/-- The message polynomial of a byte string: the bytes in order, each most
significant bit first, the first byte carrying the highest powers. -/
def msgPoly (buf : List Nat) : Nat := buf.foldl (fun m b => m * 256 + b) 0

/-- The CRC-8 generator `x^8 + x^7 + x^6 + x^4 + x^2 + 1` (0xD5 with the
leading term written out). -/
def crc8Poly : Nat := 2^8 + 2^7 + 2^6 + 2^4 + 2^2 + 1

/-- Standard CRC-8 with polynomial 0xD5, initial value 0, no reflection, no
final XOR, as the spec words it: the remainder of the message polynomial
times `x ^ 8` modulo the generator. -/
def crc8Spec (buf : List Nat) : Nat := gf2Mod (msgPoly buf * 2^8) crc8Poly

/-- Congruence modulo `g` in GF(2)[x]: `a` and `r` differ by a multiple of `g`. -/
def gf2Cong (g a r : Nat) : Prop := ∃ q, a = gf2Mul q g ^^^ r

/-! ## Byte buffers written through a pointer -/

/-- Assignment `m[a] = v` to a `uint8_t` cell. -/
def store8 (m : Nat → Nat) (a v : Nat) : Nat → Nat :=
  fun x => if x = a then v % 256 else m x

/-- Compound assignment `m[a] |= v` on a `uint8_t` cell. -/
def or8 (m : Nat → Nat) (a v : Nat) : Nat → Nat :=
  fun x => if x = a then (m a ||| v) % 256 else m x

/-- The `n` bytes stored at addresses `base, ..., base + n - 1`. -/
def readBytes (m : Nat → Nat) (base n : Nat) : List Nat :=
  (List.range n).map (fun i => m (base + i))

/-! ## CRSFModule.cpp: `packRcChannels` -/

/-- Function `CRSFModule::packRcChannels(buffer, channels)`, statement by
statement (CRSFModule.cpp 95-160).  `mem` is the memory before the call,
`buffer` the address the pointer holds, `channels[i]` is `channels.getD i 0`.
The result is the memory after the call. -/
def packRcChannels (mem : Nat → Nat) (buffer : Nat) (channels : List Nat) : Nat → Nat :=
  let ch := fun i => channels.getD i 0
  -- Channel 0: 8 bits in byte 0, 3 bits in byte 1
  let m := store8 mem (buffer + 0) (ch 0 &&& 0xFF)
  let m := store8 m (buffer + 1) ((ch 0 >>> 8) &&& 0x07)
  -- Channel 1: 5 bits in byte 1, 6 bits in byte 2
  let m := or8 m (buffer + 1) ((ch 1 &&& 0x1F) <<< 3)
  let m := store8 m (buffer + 2) ((ch 1 >>> 5) &&& 0x3F)
  -- Channel 2: 2 bits in byte 2, 8 bits in byte 3, 1 bit in byte 4
  let m := or8 m (buffer + 2) ((ch 2 &&& 0x03) <<< 6)
  let m := store8 m (buffer + 3) ((ch 2 >>> 2) &&& 0xFF)
  let m := store8 m (buffer + 4) ((ch 2 >>> 10) &&& 0x01)
  -- Channel 3: 7 bits in byte 4, 4 bits in byte 5
  let m := or8 m (buffer + 4) ((ch 3 &&& 0x7F) <<< 1)
  let m := store8 m (buffer + 5) ((ch 3 >>> 7) &&& 0x0F)
  -- Channel 4: 4 bits in byte 5, 7 bits in byte 6
  let m := or8 m (buffer + 5) ((ch 4 &&& 0x0F) <<< 4)
  let m := store8 m (buffer + 6) ((ch 4 >>> 4) &&& 0x7F)
  -- Channel 5: 1 bit in byte 6, 8 bits in byte 7, 2 bits in byte 8
  let m := or8 m (buffer + 6) ((ch 5 &&& 0x01) <<< 7)
  let m := store8 m (buffer + 7) ((ch 5 >>> 1) &&& 0xFF)
  let m := store8 m (buffer + 8) ((ch 5 >>> 9) &&& 0x03)
  -- Channel 6: 6 bits in byte 8, 5 bits in byte 9
  let m := or8 m (buffer + 8) ((ch 6 &&& 0x3F) <<< 2)
  let m := store8 m (buffer + 9) ((ch 6 >>> 6) &&& 0x1F)
  -- Channel 7: 3 bits in byte 9, 8 bits in byte 10
  let m := or8 m (buffer + 9) ((ch 7 &&& 0x07) <<< 5)
  let m := store8 m (buffer + 10) ((ch 7 >>> 3) &&& 0xFF)
  -- Channel 8: 8 bits in byte 11, 3 bits in byte 12
  let m := store8 m (buffer + 11) (ch 8 &&& 0xFF)
  let m := store8 m (buffer + 12) ((ch 8 >>> 8) &&& 0x07)
  -- Channel 9: 5 bits in byte 12, 6 bits in byte 13
  let m := or8 m (buffer + 12) ((ch 9 &&& 0x1F) <<< 3)
  let m := store8 m (buffer + 13) ((ch 9 >>> 5) &&& 0x3F)
  -- Channel 10: 2 bits in byte 13, 8 bits in byte 14, 1 bit in byte 15
  let m := or8 m (buffer + 13) ((ch 10 &&& 0x03) <<< 6)
  let m := store8 m (buffer + 14) ((ch 10 >>> 2) &&& 0xFF)
  let m := store8 m (buffer + 15) ((ch 10 >>> 10) &&& 0x01)
  -- Channel 11: 7 bits in byte 15, 4 bits in byte 16
  let m := or8 m (buffer + 15) ((ch 11 &&& 0x7F) <<< 1)
  let m := store8 m (buffer + 16) ((ch 11 >>> 7) &&& 0x0F)
  -- Channel 12: 4 bits in byte 16, 7 bits in byte 17
  let m := or8 m (buffer + 16) ((ch 12 &&& 0x0F) <<< 4)
  let m := store8 m (buffer + 17) ((ch 12 >>> 4) &&& 0x7F)
  -- Channel 13: 1 bit in byte 17, 8 bits in byte 18, 2 bits in byte 19
  let m := or8 m (buffer + 17) ((ch 13 &&& 0x01) <<< 7)
  let m := store8 m (buffer + 18) ((ch 13 >>> 1) &&& 0xFF)
  let m := store8 m (buffer + 19) ((ch 13 >>> 9) &&& 0x03)
  -- Channel 14: 6 bits in byte 19, 5 bits in byte 20
  let m := or8 m (buffer + 19) ((ch 14 &&& 0x3F) <<< 2)
  let m := store8 m (buffer + 20) ((ch 14 >>> 6) &&& 0x1F)
  -- Channel 15: 3 bits in byte 20, 8 bits in byte 21
  let m := or8 m (buffer + 20) ((ch 15 &&& 0x07) <<< 5)
  let m := store8 m (buffer + 21) ((ch 15 >>> 3) &&& 0xFF)
  m

/-- The 22-byte payload `packRcChannels` leaves in a buffer; the buffer
starts out as `mem` (its contents before the call) at address `buffer`. -/
def packedPayload (mem : Nat → Nat) (buffer : Nat) (channels : List Nat) : List Nat :=
  readBytes (packRcChannels mem buffer channels) buffer 22

/-- Little-endian value of a byte string: byte 0 carries bits 0..7, byte 1
bits 8..15, and so on. -/
def bitStream : List Nat → Nat
  | [] => 0
  | b :: bs => b + 256 * bitStream bs

/-- Modelled from the spec: the inverse decoder of section 4.2 ("Unpacking
(inverse) must be the exact mathematical inverse"), which the repository does
not contain.  It reads 16 consecutive 11-bit fields, least significant bit
first, from the payload: field `i` occupies stream bits `11 i .. 11 i + 10`. -/
def unpackRcChannels (payload : List Nat) : List Nat :=
  (List.range NUM_CHANNELS).map (fun i => (bitStream payload >>> (11 * i)) &&& 0x7FF)

/-- Lines 65-73 of `CRSFModule::sendRcChannelsPacket`: the local array
`frame` starts with the indeterminate contents `frame` of the stack, receives
the three header bytes, the packed payload at `&frame[3]` and the checksum of
`frame[2..24]`. -/
def rcChannelsFrame (frame : Nat → Nat) (channels : List Nat) : Nat → Nat :=
  let frame := store8 frame 0 CRSF_ADDRESS_FLIGHT_CONTROLLER
  let frame := store8 frame 1 24
  let frame := store8 frame 2 CRSF_FRAMETYPE_RC_CHANNELS_PACKED
  let frame := packRcChannels frame 3 channels
  let frame := store8 frame 25 (crcCRSF (readBytes frame 2 23) 23)
  frame

/-- The argument of the call `softUartSendBytes(frame, CRSF_FRAME_SIZE)` at the
end of `sendRcChannelsPacket`: the 26 bytes of the local array. -/
def frameBytes (stack : Nat → Nat) (channels : List Nat) : List Nat :=
  readBytes (rcChannelsFrame stack channels) 0 CRSF_FRAME_SIZE

/-! ## ChannelManager.cpp -/

/-- The two arrays of a `ChannelManager`. -/
structure ChannelManager where
  /-- Field `uint16_t channels[NUM_CHANNELS]`. -/
  channels : List Nat
  /-- Field `uint16_t prevChannels[NUM_CHANNELS]`. -/
  prevChannels : List Nat

/-- Function `ChannelManager::resetChannels`: the loop stores the centre value
into `channels[0..15]`. -/
def ChannelManager.resetChannels (self : ChannelManager) : ChannelManager :=
  { self with
    channels := (List.range NUM_CHANNELS).foldl
      (fun cs i => cs.set i (CHANNEL_VALUE_MID % 65536)) self.channels }

/-- The constructor `ChannelManager::ChannelManager()`, run on the raw object
`raw` (two uninitialised 16-element arrays). -/
def ChannelManager.new (raw : ChannelManager) : ChannelManager :=
  let self := raw.resetChannels
  { self with
    prevChannels := (List.range NUM_CHANNELS).foldl
      (fun ps i => ps.set i (self.channels.getD i 0)) self.prevChannels }

/-- Function `ChannelManager::setChannel(channel, value)`; the parameters are
a `uint8_t` and a `uint16_t`. -/
def ChannelManager.setChannel (self : ChannelManager) (channel value : Nat) : ChannelManager :=
  if channel % 256 < NUM_CHANNELS then
    { self with channels := self.channels.set (channel % 256) (value % 65536) }
  else self

/-- Function `ChannelManager::getChannel(channel)`. -/
def ChannelManager.getChannel (self : ChannelManager) (channel : Nat) : Nat :=
  if channel % 256 < NUM_CHANNELS then self.channels.getD (channel % 256) 0
  else CHANNEL_VALUE_MID % 65536

/-- Function `ChannelManager::getChannelData`: the pointer to `channels`. -/
def ChannelManager.getChannelData (self : ChannelManager) : List Nat := self.channels

/-! ## The board: clock, pins, interrupts -/

/-- The calls the firmware makes to the board support package, as they
appear on the trace.  A `digitalWrite` level is `true` for HIGH;
`getCycleCount value` is a read of the cycle counter that returned `value`
(only the functions that keep the wait loops of the source record the
reads). -/
inductive Event
  | pinMode (pin : Nat)
  | digitalWrite (pin : Nat) (level : Bool)
  | noInterrupts
  | interrupts
  | delayMicroseconds (us : Nat)
  | serialPrint
  | getCycleCount (value : Nat)
  deriving DecidableEq

/-- State of the board.  `cycles` counts CPU cycles since boot (unbounded; the
32-bit register `ESP.getCycleCount()` is its low 32 bits), `cpuFreqMHz` is
what `ESP.getCpuFreqMHz()` returns, `stack` is the indeterminate content an
uninitialised local array starts with, and `trace` lists the calls made so
far, oldest first.  Only the explicit waits of the firmware let time pass. -/
structure World where
  cycles : Nat
  cpuFreqMHz : Nat
  stack : Nat → Nat
  trace : List Event

/-- Append a call to the trace. -/
def World.emit (w : World) (e : Event) : World :=
  { w with trace := w.trace ++ [e] }

/-- Value of `ESP.getCycleCount()`: a `uint32_t`. -/
def World.getCycleCount (w : World) : Nat := w.cycles % 2 ^ 32

/-- Value of `millis()`: milliseconds since boot as an `unsigned long` (32 bits). -/
def World.millis (w : World) : Nat := (w.cycles / (w.cpuFreqMHz * 1000)) % 2 ^ 32

/-- The loop `while (ESP.getCycleCount() < target) {}` with the counter
polled every cycle: it leaves at the first instant at which the 32-bit
counter is not below `target`.  This is the outcome of the loop itself,
`World.busyWaitLoop`, when one cycle passes between two reads; the reads are
not recorded. -/
def World.busyWaitUntil (w : World) (target : Nat) : World :=
  if w.getCycleCount < target then
    { w with cycles := w.cycles + (target - w.getCycleCount) }
  else w

/-- Call `delayMicroseconds(us)`. -/
def World.delayMicroseconds (w : World) (us : Nat) : World :=
  { w.emit (Event.delayMicroseconds us) with cycles := w.cycles + us * w.cpuFreqMHz }

/-! ## CRSFModule.cpp: the transmitter -/

/-- Function `CRSFModule::uartSendBit(bit_value)`: drive the inverted level,
then spin until `start + BIT_TIME_US * cpuFreqMHz` (all `uint32_t`). -/
def uartSendBit (bit_value : Bool) (w : World) : World :=
  let w := w.emit (Event.digitalWrite CRSF_TX_PIN (!bit_value))
  let start := w.getCycleCount
  let target := (start + (BIT_TIME_US * w.cpuFreqMHz) % 2 ^ 32) % 2 ^ 32
  w.busyWaitUntil target

/-- Function `CRSFModule::softUartSendByte(data)`. -/
def softUartSendByte (data : Nat) (w : World) : World :=
  let w := w.emit Event.noInterrupts
  -- Start bit (logical 0, inverted to HIGH)
  let w := uartSendBit false w
  -- 8 data bits, LSB first
  let w := (List.range 8).foldl (fun w i => uartSendBit (decide (data &&& (1 <<< i) ≠ 0)) w) w
  -- Stop bit (logical 1, inverted to LOW)
  let w := uartSendBit true w
  -- Extra delay for frame spacing
  let start := w.getCycleCount
  let target := (start + ((BIT_TIME_US / 2) * w.cpuFreqMHz) % 2 ^ 32) % 2 ^ 32
  let w := w.busyWaitUntil target
  w.emit Event.interrupts

/-- Function `CRSFModule::softUartSendBytes(data, len)`. -/
def softUartSendBytes (data : List Nat) (len : Nat) (w : World) : World :=
  let w := w.emit (Event.digitalWrite DEBUG_LED_PIN true)
  let w := (List.range len).foldl (fun w i => softUartSendByte (data.getD i 0) w) w
  let w := w.emit (Event.digitalWrite CRSF_TX_PIN false)
  w.emit (Event.digitalWrite DEBUG_LED_PIN false)

/-- Function `CRSFModule::sendSyncPreamble`. -/
def sendSyncPreamble (w : World) : World :=
  let w := softUartSendBytes [0xFF, 0x00, 0xFF, 0x00] 4 w
  w.delayMicroseconds 100

/-- The fields of a `CRSFModule`, with the function-local `static
lastDebugPrint` of `sendRcChannelsPacket` and the `ChannelManager` the
pointer `channelManager` refers to. -/
structure CRSFModule where
  channelManager : ChannelManager
  debugMode : Bool
  lastUpdateTime : Nat
  lastDebugPrint : Nat

/-- The constructor `CRSFModule::CRSFModule(channelManager)`. -/
def CRSFModule.new (channelManager : ChannelManager) : CRSFModule :=
  { channelManager := channelManager, debugMode := false, lastUpdateTime := 0,
    lastDebugPrint := 0 }

/-- Function `CRSFModule::begin`. -/
def CRSFModule.begin (w : World) : World :=
  let w := w.emit (Event.pinMode CRSF_TX_PIN)
  let w := w.emit (Event.digitalWrite CRSF_TX_PIN false)
  let w := w.emit (Event.pinMode DEBUG_LED_PIN)
  let w := w.emit (Event.digitalWrite DEBUG_LED_PIN false)
  w.emit Event.serialPrint

/-- Function `CRSFModule::setDebugMode`. -/
def CRSFModule.setDebugMode (self : CRSFModule) (debug : Bool) : CRSFModule :=
  { self with debugMode := debug }

/-- Function `CRSFModule::sendRcChannelsPacket`. -/
def CRSFModule.sendRcChannelsPacket (self : CRSFModule) (w : World) : CRSFModule × World :=
  let w := sendSyncPreamble w
  let frame := frameBytes w.stack self.channelManager.getChannelData
  let w := softUartSendBytes frame CRSF_FRAME_SIZE w
  if self.debugMode then
    if (w.millis + 2 ^ 32 - self.lastDebugPrint) % 2 ^ 32 > 500 then
      let w := w.emit Event.serialPrint
      ({ self with lastDebugPrint := w.millis }, w)
    else (self, w)
  else (self, w)

/-- Function `CRSFModule::update`; the subtraction is on `unsigned long`. -/
def CRSFModule.update (self : CRSFModule) (w : World) : CRSFModule × World :=
  let currentTime := w.millis
  if (currentTime + 2 ^ 32 - self.lastUpdateTime) % 2 ^ 32 ≥ 20 then
    let r := self.sendRcChannelsPacket w
    ({ r.1 with lastUpdateTime := currentTime }, r.2)
  else (self, w)

/-! ## Simulated clock -/

/-- Set the simulated clock to `t` milliseconds after boot. -/
def World.setClockMs (w : World) (t : Nat) : World :=
  { w with cycles := t * (w.cpuFreqMHz * 1000) }

/-- Whether a call made the transmitter run: the trace grew. -/
def transmitted (before after : World) : Bool :=
  decide (before.trace.length < after.trace.length)

/-- Call `update()` once at each of the clock readings `ts` (milliseconds) in
turn and list the readings at which a frame was transmitted. -/
def txTimes : List Nat → CRSFModule × World → List Nat
  | [], _ => []
  | t :: ts, s =>
    let s2 := s.1.update (s.2.setClockMs t)
    (if transmitted s.2 s2.2 then [t] else []) ++ txTimes ts s2

/-- The rate gate of `CRSFModule::update` on its own: the clock readings of
`ts` at which the test `currentTime - lastUpdateTime >= 20` succeeds, when
the stored time starts at `last`. -/
def gateTimes : List Nat → Nat → List Nat
  | [], _ => []
  | t :: ts, last =>
    if (t + 2 ^ 32 - last) % 2 ^ 32 ≥ 20 then t :: gateTimes ts t else gateTimes ts last

/-- The ASCII bytes of "123456789", the customary CRC check string. -/
def checkString : List Nat := [0x31, 0x32, 0x33, 0x34, 0x35, 0x36, 0x37, 0x38, 0x39]

/-- A board just after boot, running at 240 MHz. -/
def bootWorld : World :=
  { cycles := 0, cpuFreqMHz := 240, stack := fun _ => 0, trace := [] }

/-- A channel manager as its constructor leaves it. -/
def freshChannels : ChannelManager :=
  ChannelManager.new { channels := List.replicate 16 0, prevChannels := List.replicate 16 0 }

/-- Sixteen channels at zero. -/
def zeroChannels : List Nat := List.replicate 16 0

/-- A snapshot with values outside the 11-bit range. -/
def wideChannels : List Nat :=
  [0xFFFF, 992, 0x0800, 172, 1811, 0xF800, 2047, 2048, 0, 65535, 4095, 991, 1, 0x8001, 7, 0xABCD]

/-- A snapshot inside the 11-bit range. -/
def sampleChannels : List Nat :=
  [172, 992, 1811, 0, 2047, 991, 1, 2, 3, 1024, 1023, 512, 85, 1365, 682, 2046]

/-- The 23 checksummed bytes of the frame of `zeroChannels`: the type byte
and 22 zero payload bytes. -/
def zeroCovered : List Nat := 0x16 :: List.replicate 22 0

/-! ## Reading the trace -/

/-- The level a call drives onto the TX line, if it is a write to the TX pin. -/
def txLevel : Event → Option Bool
  | Event.digitalWrite pin level => if pin = CRSF_TX_PIN then some level else none
  | _ => none

/-- The levels driven onto the TX line by a trace, oldest first. -/
def lineLevels (trace : List Event) : List Bool := trace.filterMap txLevel

/-- The level of the TX line after a trace: the last level driven, if any. -/
def lineLevel (trace : List Event) : Option Bool := (lineLevels trace).getLast?

/-- The per-byte framing of section 4.4 of the spec as a trace: interrupts
off, start bit (HIGH), the complements of bits 0..7 of `b`, stop bit (LOW),
interrupts on. -/
def byteEvents (b : Nat) : List Event :=
  [Event.noInterrupts, Event.digitalWrite CRSF_TX_PIN true] ++
    (List.range 8).map (fun i => Event.digitalWrite CRSF_TX_PIN (!b.testBit i)) ++
    [Event.digitalWrite CRSF_TX_PIN false, Event.interrupts]

/-- The trace of one buffer transmission: debug LED on, the framed bytes in
order, TX line back to idle, debug LED off. -/
def bufferEvents (data : List Nat) : List Event :=
  [Event.digitalWrite DEBUG_LED_PIN true] ++ data.flatMap byteEvents ++
    [Event.digitalWrite CRSF_TX_PIN false, Event.digitalWrite DEBUG_LED_PIN false]

/-- The four bytes `sendSyncPreamble` transmits. -/
def preambleBytes : List Nat := [0xFF, 0x00, 0xFF, 0x00]

/-- What a receiver reads from ten line levels of one framed byte: data bit
`i` is the complement of level `i + 1` (level 0 is the start bit). -/
def decodeByte (levels : List Bool) : Nat :=
  (List.range 8).foldl (fun acc i => acc + (if levels.getD (i + 1) true then 0 else 2 ^ i)) 0

/-- The bytes handed to the byte transmitter, recovered from a trace: every
`noInterrupts` opens a byte, whose value is decoded from the line levels of
the ten calls that follow. -/
def sentBytes : List Event → List Nat
  | [] => []
  | Event.noInterrupts :: rest => decodeByte (lineLevels (rest.take 10)) :: sentBytes rest
  | _ :: rest => sentBytes rest

/-- Replay a trace with the interrupt-enable flag `enabled`: the result is
`none` when a level is driven onto the TX line while interrupts are enabled
or when `noInterrupts`/`interrupts` is called twice in a row, otherwise the
flag at the end. -/
def replayMasked (enabled : Bool) : List Event → Option Bool
  | [] => some enabled
  | Event.noInterrupts :: rest => if enabled then replayMasked false rest else none
  | Event.interrupts :: rest => if enabled then none else replayMasked true rest
  | Event.digitalWrite pin _ :: rest =>
    if pin = CRSF_TX_PIN ∧ enabled then none else replayMasked enabled rest
  | _ :: rest => replayMasked enabled rest

/-! ## Utils.cpp: `mapValueClamped` -/

/-- Function `mapValueClamped` of Utils.cpp on `int`; `/` is the truncating
division of C.  No wrap-around is applied: signed overflow is undefined in C,
and in every call the firmware makes the clamped difference is at most 255
and the output span is 1639. -/
def mapValueClamped (value from_min from_max to_min to_max : Int) : Int :=
  -- Clamp the value to the range of the input
  let value := if value < from_min then from_min else value
  let value := if value > from_max then from_max else value
  -- Map the value to the range of the output
  let result := ((value - from_min) * (to_max - to_min)).tdiv (from_max - from_min) + to_min
  -- Clamp the result to ensure it stays within to_min and to_max
  let result := if result < to_min then to_min else result
  let result := if result > to_max then to_max else result
  result

/-- Conversion of an `int` argument to a `uint16_t` parameter. -/
def toUint16 (v : Int) : Nat := (v % 65536).toNat

/-! ## ButtonStateManager.cpp

The `Serial.printf` diagnostics do not touch the state and are left out; the
value `millis()` returns is the parameter `currentTime`. -/

/-- The fields of a `ButtonStateManager` (without the name). -/
structure ButtonStateManager where
  numStates : Int
  currentState : Int
  wasPressed : Bool
  lastPress : Nat
  momentaryMode : Bool

/-- Function `ButtonStateManager::setNumStates`. -/
def ButtonStateManager.setNumStates (self : ButtonStateManager) (newNumStates : Int) :
    ButtonStateManager :=
  let momentaryMode := decide (newNumStates ≤ 1)
  { self with
    momentaryMode := momentaryMode
    numStates := if momentaryMode then 2 else max 2 newNumStates
    currentState := 0 }

/-- The constructor `ButtonStateManager(buttonName, stateCount)`; `numStates`
and `momentaryMode` are first assigned by `setNumStates`. -/
def ButtonStateManager.new (stateCount : Int) : ButtonStateManager :=
  ButtonStateManager.setNumStates
    { numStates := 0, currentState := 0, wasPressed := false, lastPress := 0,
      momentaryMode := false } stateCount

/-- Function `ButtonStateManager::update(isPressed)`; the subtraction is on
`unsigned long`, `%` is the remainder of C. -/
def ButtonStateManager.update (self : ButtonStateManager) (isPressed : Bool)
    (currentTime : Nat) : ButtonStateManager :=
  let self :=
    if self.momentaryMode then
      { self with currentState := if isPressed then 1 else 0 }
    else if isPressed && !self.wasPressed then
      let self :=
        if (currentTime + 2 ^ 32 - self.lastPress) % 2 ^ 32 < DOUBLE_PRESS_TIME then
          { self with currentState := 0 }
        else
          { self with currentState := (self.currentState + 1).tmod self.numStates }
      { self with lastPress := currentTime }
    else self
  { self with wasPressed := isPressed }

/-- Function `ButtonStateManager::getValue`. -/
def ButtonStateManager.getValue (self : ButtonStateManager) : Int :=
  if self.momentaryMode then
    if self.currentState ≠ 0 then (CHANNEL_VALUE_MAX : Int) else (CHANNEL_VALUE_MIN : Int)
  else if self.numStates = 2 then
    if self.currentState = 0 then (CHANNEL_VALUE_MIN : Int) else (CHANNEL_VALUE_MAX : Int)
  else if self.numStates = 3 ∧ self.currentState = 1 then
    (CHANNEL_VALUE_MID : Int)
  else
    (CHANNEL_VALUE_MIN : Int) +
      (((CHANNEL_VALUE_MAX : Int) - (CHANNEL_VALUE_MIN : Int)) * self.currentState).tdiv
        (self.numStates - 1)

/-- Function `ButtonStateManager::getState`. -/
def ButtonStateManager.getState (self : ButtonStateManager) : Int := self.currentState

/-- Function `ButtonStateManager::reset`. -/
def ButtonStateManager.reset (self : ButtonStateManager) : ButtonStateManager :=
  { self with currentState := 0, wasPressed := false }

/-! ## PS5Controller.cpp

The connection status text, the MAC address and the serial diagnostics are
left out; what the `ps5` driver object reports in one call of `update` is a
`PS5Input`. -/

/-- One reading of the `ps5` driver object and of `millis()`. -/
structure PS5Input where
  isConnected : Bool
  lStickX : Int
  lStickY : Int
  rStickX : Int
  rStickY : Int
  l2Value : Int
  r2Value : Int
  l1 : Bool
  r1 : Bool
  cross : Bool
  circle : Bool
  square : Bool
  triangle : Bool
  up : Bool
  down : Bool
  left : Bool
  right : Bool
  l3 : Bool
  r3 : Bool
  millis : Nat

/-- The fields of a `PS5Controller` that `update` uses. -/
structure PS5Controller where
  connected : Bool
  leftX : Int
  leftY : Int
  rightX : Int
  rightY : Int
  l2Value : Int
  r2Value : Int
  btnL1 : ButtonStateManager
  btnR1 : ButtonStateManager
  btnCross : ButtonStateManager
  btnCircle : ButtonStateManager
  btnSquare : ButtonStateManager
  btnTriangle : ButtonStateManager
  btnUp : ButtonStateManager
  btnDown : ButtonStateManager
  btnLeft : ButtonStateManager
  btnRight : ButtonStateManager
  btnL3 : ButtonStateManager
  btnR3 : ButtonStateManager

/-- The constructor `PS5Controller::PS5Controller`; `connected` is what the
base-class constructor (not among the sources) leaves in the field. -/
def PS5Controller.new (connected : Bool) : PS5Controller :=
  { connected := connected
    leftX := 0, leftY := 0, rightX := 0, rightY := 0, l2Value := 0, r2Value := 0
    btnL1 := ButtonStateManager.new 2
    btnR1 := ButtonStateManager.new 3
    btnCross := ButtonStateManager.new 0
    btnCircle := ButtonStateManager.new 0
    btnSquare := ButtonStateManager.new 0
    btnTriangle := ButtonStateManager.new 0
    btnUp := ButtonStateManager.new 0
    btnDown := ButtonStateManager.new 0
    btnLeft := ButtonStateManager.new 0
    btnRight := ButtonStateManager.new 0
    btnL3 := ButtonStateManager.new 0
    btnR3 := ButtonStateManager.new 0 }

/-- Function `PS5Controller::resetAllButtons`. -/
def PS5Controller.resetAllButtons (self : PS5Controller) : PS5Controller :=
  { self with
    btnL1 := self.btnL1.reset
    btnR1 := self.btnR1.reset
    btnCross := self.btnCross.reset
    btnCircle := self.btnCircle.reset
    btnSquare := self.btnSquare.reset
    btnTriangle := self.btnTriangle.reset
    btnUp := self.btnUp.reset
    btnDown := self.btnDown.reset
    btnLeft := self.btnLeft.reset
    btnRight := self.btnRight.reset
    btnL3 := self.btnL3.reset
    btnR3 := self.btnR3.reset }

/-- Function `PS5Controller::mapControllerToChannels`, acting on the
`ChannelManager` the pointer `channelManager` refers to. -/
def PS5Controller.mapControllerToChannels (self : PS5Controller) (cm : ChannelManager) :
    ChannelManager :=
  -- Map sticks to channels 0-3
  let cm := cm.setChannel 0
    (toUint16 (mapValueClamped self.leftX (-128) 127 CHANNEL_VALUE_MIN CHANNEL_VALUE_MAX))
  let cm := cm.setChannel 1
    (toUint16 (mapValueClamped self.rightY (-128) 127 CHANNEL_VALUE_MIN CHANNEL_VALUE_MAX))
  let cm := cm.setChannel 2
    (toUint16 (mapValueClamped self.leftY 0 127 CHANNEL_VALUE_MIN CHANNEL_VALUE_MAX))
  let cm := cm.setChannel 3
    (toUint16 (mapValueClamped self.rightX (-128) 127 CHANNEL_VALUE_MIN CHANNEL_VALUE_MAX))
  -- Map buttons and triggers to channels 4-15
  let cm := cm.setChannel 4 (toUint16 self.btnL1.getValue)
  let cm := cm.setChannel 5 (toUint16 self.btnR1.getValue)
  let cm := cm.setChannel 6
    (toUint16 (mapValueClamped self.l2Value 0 255 CHANNEL_VALUE_MIN CHANNEL_VALUE_MAX))
  let cm := cm.setChannel 7
    (toUint16 (mapValueClamped self.r2Value 0 255 CHANNEL_VALUE_MIN CHANNEL_VALUE_MAX))
  let cm := cm.setChannel 8 (toUint16 self.btnCross.getValue)
  let cm := cm.setChannel 9 (toUint16 self.btnCircle.getValue)
  let cm := cm.setChannel 10 (toUint16 self.btnSquare.getValue)
  let cm := cm.setChannel 11 (toUint16 self.btnTriangle.getValue)
  let cm := cm.setChannel 12 (toUint16 self.btnUp.getValue)
  let cm := cm.setChannel 13 (toUint16 self.btnDown.getValue)
  let cm := cm.setChannel 14 (toUint16 self.btnLeft.getValue)
  let cm := cm.setChannel 15 (toUint16 self.btnRight.getValue)
  cm

/-- Lines 71-84 of `PS5Controller::update`: take over the connection state the
driver reports; when it changed to disconnected, reset all buttons. -/
def PS5Controller.noteConnection (self : PS5Controller) (isConnected : Bool) : PS5Controller :=
  let wasConnected := self.connected
  let self := { self with connected := isConnected }
  -- Connection state changed
  if self.connected ≠ wasConnected then
    if self.connected then self else self.resetAllButtons
  else self

/-- Lines 88-108 of `PS5Controller::update`: get the analog inputs and update
the button states. -/
def PS5Controller.readInputs (self : PS5Controller) (inp : PS5Input) : PS5Controller :=
  { self with
    leftX := inp.lStickX, leftY := inp.lStickY, rightX := inp.rStickX, rightY := inp.rStickY
    l2Value := inp.l2Value, r2Value := inp.r2Value
    btnL1 := self.btnL1.update inp.l1 inp.millis
    btnR1 := self.btnR1.update inp.r1 inp.millis
    btnCross := self.btnCross.update inp.cross inp.millis
    btnCircle := self.btnCircle.update inp.circle inp.millis
    btnSquare := self.btnSquare.update inp.square inp.millis
    btnTriangle := self.btnTriangle.update inp.triangle inp.millis
    btnUp := self.btnUp.update inp.up inp.millis
    btnDown := self.btnDown.update inp.down inp.millis
    btnLeft := self.btnLeft.update inp.left inp.millis
    btnRight := self.btnRight.update inp.right inp.millis
    btnL3 := self.btnL3.update inp.l3 inp.millis
    btnR3 := self.btnR3.update inp.r3 inp.millis }

/-- Function `PS5Controller::update`, on the controller and the
`ChannelManager` it points to. -/
def PS5Controller.update (self : PS5Controller) (cm : ChannelManager) (inp : PS5Input) :
    PS5Controller × ChannelManager :=
  let self := self.noteConnection inp.isConnected
  -- Only update values when connected
  if self.connected then
    let self := self.readInputs inp
    -- Map controller values to channels
    (self, self.mapControllerToChannels cm)
  else (self, cm)

/-- Run `PS5Controller::update` once for each reading of `inputs`, in order. -/
def runController (inputs : List PS5Input) (s : PS5Controller × ChannelManager) :
    PS5Controller × ChannelManager :=
  inputs.foldl (fun s inp => s.1.update s.2 inp) s

/-! ## Invariants -/

/-- The state of a button is one of its positions: `numStates >= 2` and
`0 <= currentState < numStates`. -/
def ButtonStateManager.Valid (b : ButtonStateManager) : Prop :=
  2 ≤ b.numStates ∧ 0 ≤ b.currentState ∧ b.currentState < b.numStates

/-- All twelve buttons of a controller are in one of their positions. -/
def PS5Controller.Valid (c : PS5Controller) : Prop :=
  c.btnL1.Valid ∧ c.btnR1.Valid ∧ c.btnCross.Valid ∧ c.btnCircle.Valid ∧ c.btnSquare.Valid ∧
    c.btnTriangle.Valid ∧ c.btnUp.Valid ∧ c.btnDown.Valid ∧ c.btnLeft.Valid ∧
    c.btnRight.Valid ∧ c.btnL3.Valid ∧ c.btnR3.Valid

/-- There are 16 channels and each lies in `[CHANNEL_VALUE_MIN, CHANNEL_VALUE_MAX]`. -/
def ChannelManager.InRange (cm : ChannelManager) : Prop :=
  cm.channels.length = NUM_CHANNELS ∧
    ∀ v ∈ cm.channels, CHANNEL_VALUE_MIN ≤ v ∧ v ≤ CHANNEL_VALUE_MAX

/-- A raw `ChannelManager` object: two 16-element arrays of arbitrary content. -/
def rawChannels : ChannelManager :=
  { channels := [7, 65535, 0, 1, 2, 3, 4, 5, 6, 7, 8, 9, 10, 11, 12, 40000],
    prevChannels := List.replicate 16 0xFFFF }

/-- A sample reading of the PS5 driver: sticks at the extremes, triggers out
of range, several buttons pressed. -/
def sampleInput : PS5Input :=
  { isConnected := true, lStickX := -128, lStickY := 127, rStickX := 100000, rStickY := -7,
    l2Value := 255, r2Value := -3, l1 := true, r1 := true, cross := true, circle := false,
    square := false, triangle := true, up := false, down := false, left := false,
    right := true, l3 := false, r3 := true, millis := 1000 }

/-- Clock readings (ms) of a caller that polls irregularly and pauses twice. -/
def sampleReadings : List Nat := [0, 5, 19, 20, 21, 39, 40, 1000, 1000, 1019, 1020, 5000]

/-! ## Array bounds and `int` range made explicit -/

/-- Function `ChannelManager::setChannel` with the bound of the array
`channels` made explicit: `none` stands for a store outside the array. -/
def ChannelManager.setChannelChecked (self : ChannelManager) (channel value : Nat) :
    Option ChannelManager :=
  if channel % 256 < NUM_CHANNELS then
    if channel % 256 < self.channels.length then
      some { self with channels := self.channels.set (channel % 256) (value % 65536) }
    else none
  else some self

/-- Function `ChannelManager::getChannel` with the bound of the array
`channels` made explicit: `none` stands for a load outside the array. -/
def ChannelManager.getChannelChecked (self : ChannelManager) (channel : Nat) : Option Nat :=
  if channel % 256 < NUM_CHANNELS then self.channels[channel % 256]?
  else some (CHANNEL_VALUE_MID % 65536)

/-- Whether a value fits the 32-bit `int` of the target. -/
def inIntRange (x : Int) : Bool := decide (-2147483648 ≤ x) && decide (x ≤ 2147483647)

/-- Function `mapValueClamped` of Utils.cpp with the undefined cases of C
made explicit: the result is `none` when the divisor `from_max - from_min` is
zero, or when a difference, the product, the quotient or the sum does not fit
an `int`. -/
def mapValueClampedChecked (value from_min from_max to_min to_max : Int) : Option Int :=
  let value := if value < from_min then from_min else value
  let value := if value > from_max then from_max else value
  let a := value - from_min
  let b := to_max - to_min
  let d := from_max - from_min
  if d = 0 then none
  else if inIntRange a && inIntRange b && inIntRange d && inIntRange (a * b) &&
      inIntRange ((a * b).tdiv d) && inIntRange ((a * b).tdiv d + to_min) then
    let result := (a * b).tdiv d + to_min
    let result := if result < to_min then to_min else result
    let result := if result > to_max then to_max else result
    some result
  else none

/-! ## Sequences of calls on a button -/

/-- A call of one of the state-changing member functions of a
`ButtonStateManager`; for `update` the second field is what `millis()`
returns during the call. -/
inductive ButtonCall
  | setNumStates (newNumStates : Int)
  | update (isPressed : Bool) (currentTime : Nat)
  | reset

/-- Run one call. -/
def ButtonStateManager.call (self : ButtonStateManager) : ButtonCall → ButtonStateManager
  | ButtonCall.setNumStates k => self.setNumStates k
  | ButtonCall.update p t => self.update p t
  | ButtonCall.reset => self.reset

/-- Run a sequence of calls, first to last. -/
def ButtonStateManager.calls (self : ButtonStateManager) (cs : List ButtonCall) :
    ButtonStateManager :=
  cs.foldl ButtonStateManager.call self

/-- One press and release: `update(true)` at time `t.1`, then `update(false)`
at time `t.2`. -/
def ButtonStateManager.click (self : ButtonStateManager) (t : Nat × Nat) : ButtonStateManager :=
  (self.update true t.1).update false t.2

/-- A sequence of presses, each followed by its release. -/
def ButtonStateManager.clicks (self : ButtonStateManager) (ts : List (Nat × Nat)) :
    ButtonStateManager :=
  ts.foldl ButtonStateManager.click self

/-- Each press time of `ts` is at least `DOUBLE_PRESS_TIME` after the one
before it, the first after `last`, as `update` measures it (difference of
`unsigned long`). -/
def singlePresses : Nat → List (Nat × Nat) → Bool
  | _, [] => true
  | last, t :: ts =>
    decide (DOUBLE_PRESS_TIME ≤ (t.1 + 2 ^ 32 - last) % 2 ^ 32) && singlePresses t.1 ts

/-! ## More sample values -/

/-- A board at 240 MHz one cycle before the clock reads 21 ms. -/
def lateWorld : World :=
  { cycles := 21 * 240000 - 1, cpuFreqMHz := 240, stack := fun _ => 0, trace := [] }

/-- A board at 240 MHz whose cycle counter is 100 cycles below `2 ^ 32`. -/
def wrapWorld : World :=
  { cycles := 2 ^ 32 - 100, cpuFreqMHz := 240, stack := fun _ => 0, trace := [] }

/-- A sequence of calls on a button: presses, a hold, a reconfiguration. -/
def sampleCalls : List ButtonCall :=
  [ButtonCall.update true 100, ButtonCall.update true 120, ButtonCall.update false 300,
    ButtonCall.update true 900, ButtonCall.setNumStates 5, ButtonCall.update false 1000,
    ButtonCall.update true 2000, ButtonCall.reset, ButtonCall.setNumStates (-4),
    ButtonCall.update true 2100]

/-! ## The transmitter with the wait loops of the source

The functions above take each wait in closed form.  Here every
`while (ESP.getCycleCount() < target) {}` is the loop itself: one read of
the counter per iteration, recorded on the trace, with `poll` cycles passing
between two reads.  `poll` belongs to the compiled loop and the hardware;
the source does not fix it.  `fuel` bounds the iterations of each wait; the
result is `none` when a wait has not ended within `fuel` reads. -/

/-- The loop `while (ESP.getCycleCount() < target) {}`. -/
def World.busyWaitLoop (poll : Nat) : Nat → Nat → World → Option World
  | 0, _, _ => none
  | fuel + 1, target, w =>
    let now := w.getCycleCount
    let w := w.emit (Event.getCycleCount now)
    if now < target then World.busyWaitLoop poll fuel target { w with cycles := w.cycles + poll }
    else some w

/-- Function `CRSFModule::uartSendBit(bit_value)` with its loop. -/
def uartSendBitLoop (poll fuel : Nat) (bit_value : Bool) (w : World) : Option World :=
  let w := w.emit (Event.digitalWrite CRSF_TX_PIN (!bit_value))
  let start := w.getCycleCount
  let w := w.emit (Event.getCycleCount start)
  let target := (start + (BIT_TIME_US * w.cpuFreqMHz) % 2 ^ 32) % 2 ^ 32
  w.busyWaitLoop poll fuel target

/-- Function `CRSFModule::softUartSendByte(data)` with its loops. -/
def softUartSendByteLoop (poll fuel : Nat) (data : Nat) (w : World) : Option World := do
  let w := w.emit Event.noInterrupts
  -- Start bit (logical 0, inverted to HIGH)
  let w ← uartSendBitLoop poll fuel false w
  -- 8 data bits, LSB first
  let w ← (List.range 8).foldlM
    (fun w i => uartSendBitLoop poll fuel (decide (data &&& (1 <<< i) ≠ 0)) w) w
  -- Stop bit (logical 1, inverted to LOW)
  let w ← uartSendBitLoop poll fuel true w
  -- Extra delay for frame spacing
  let start := w.getCycleCount
  let w := w.emit (Event.getCycleCount start)
  let target := (start + ((BIT_TIME_US / 2) * w.cpuFreqMHz) % 2 ^ 32) % 2 ^ 32
  let w ← w.busyWaitLoop poll fuel target
  some (w.emit Event.interrupts)

/-- Function `CRSFModule::softUartSendBytes(data, len)` with the loops. -/
def softUartSendBytesLoop (poll fuel : Nat) (data : List Nat) (len : Nat) (w : World) :
    Option World := do
  let w := w.emit (Event.digitalWrite DEBUG_LED_PIN true)
  let w ← (List.range len).foldlM (fun w i => softUartSendByteLoop poll fuel (data.getD i 0) w) w
  let w := w.emit (Event.digitalWrite CRSF_TX_PIN false)
  some (w.emit (Event.digitalWrite DEBUG_LED_PIN false))

/-- Function `CRSFModule::sendSyncPreamble` with the loops. -/
def sendSyncPreambleLoop (poll fuel : Nat) (w : World) : Option World := do
  let w ← softUartSendBytesLoop poll fuel [0xFF, 0x00, 0xFF, 0x00] 4 w
  some (w.delayMicroseconds 100)

/-- Function `CRSFModule::sendRcChannelsPacket` with the loops. -/
def CRSFModule.sendRcChannelsPacketLoop (poll fuel : Nat) (self : CRSFModule) (w : World) :
    Option (CRSFModule × World) := do
  let w ← sendSyncPreambleLoop poll fuel w
  let frame := frameBytes w.stack self.channelManager.getChannelData
  let w ← softUartSendBytesLoop poll fuel frame CRSF_FRAME_SIZE w
  if self.debugMode then
    if (w.millis + 2 ^ 32 - self.lastDebugPrint) % 2 ^ 32 > 500 then
      let w := w.emit Event.serialPrint
      some ({ self with lastDebugPrint := w.millis }, w)
    else some (self, w)
  else some (self, w)

/-- Function `CRSFModule::update` with the loops. -/
def CRSFModule.updateLoop (poll fuel : Nat) (self : CRSFModule) (w : World) :
    Option (CRSFModule × World) := do
  let currentTime := w.millis
  if (currentTime + 2 ^ 32 - self.lastUpdateTime) % 2 ^ 32 ≥ 20 then
    let r ← self.sendRcChannelsPacketLoop poll fuel w
    some ({ r.1 with lastUpdateTime := currentTime }, r.2)
  else some (self, w)

/-! ## Reading a trace that records the reads of the counter -/

/-- Whether an event is a read of the cycle counter. -/
def Event.isRead : Event → Bool
  | Event.getCycleCount _ => true
  | _ => false

/-- A trace without the reads of the cycle counter. -/
def calls (trace : List Event) : List Event := trace.filter (fun e => !e.isRead)

/-- The reads of one run of `while (ESP.getCycleCount() < target) {}` that
has ended: every read but the last returned a value below `target`, the
last one did not, and nothing follows it. -/
def waitReads (target : Nat) : List Event → Bool
  | [] => false
  | Event.getCycleCount value :: rest =>
    if value < target then waitReads target rest else rest.isEmpty
  | _ :: _ => false

/-- The reads of one completed wait of `delta` cycles: the read of `start`,
then the reads of the loop against `start + delta` (a `uint32_t` sum). -/
def isWait (delta : Nat) : List Event → Bool
  | Event.getCycleCount start :: rest => waitReads ((start + delta % 2 ^ 32) % 2 ^ 32) rest
  | _ => false

/-- The second world continues the first: its trace is that of the first
followed by events whose calls, the reads of the counter left out, are `cs`;
clock frequency and stack are the same and no time was lost. -/
def World.Appends (w w2 : World) (cs : List Event) : Prop :=
  ∃ evs : List Event, w2.trace = w.trace ++ evs ∧ calls evs = cs ∧
    w2.cpuFreqMHz = w.cpuFreqMHz ∧ w2.stack = w.stack ∧ w.cycles ≤ w2.cycles

/-! ## Sample boards near the wrap of the cycle counter -/

/-- A board at 240 MHz whose cycle counter is 481 below `2 ^ 32`, so that a
bit wait started now has the target `2 ^ 32 - 1`. -/
def stepOverWorld : World :=
  { cycles := 2 ^ 32 - 481, cpuFreqMHz := 240, stack := fun _ => 0, trace := [] }

/-- A board at 240 MHz whose cycle counter is 500 below `2 ^ 32`. -/
def hangWorld : World :=
  { cycles := 2 ^ 32 - 500, cpuFreqMHz := 240, stack := fun _ => 0, trace := [] }

/-- The second world is reached from the first in at least `lo` and at most
`hi` cycles, at the same clock frequency. -/
def World.Takes (w w2 : World) (lo hi : Nat) : Prop :=
  w2.cpuFreqMHz = w.cpuFreqMHz ∧ w.cycles + lo ≤ w2.cycles ∧ w2.cycles ≤ w.cycles + hi

/-! ### Arithmetic of GF(2)[x] on naturals -/

theorem two_pow_mul_xor (k x y : Nat) : 2 ^ k * (x ^^^ y) = 2 ^ k * x ^^^ 2 ^ k * y := by
  apply Nat.eq_of_testBit_eq
  intro i
  simp only [Nat.testBit_xor, Nat.testBit_mul_pow_two]
  by_cases h : k ≤ i <;> simp [h]

theorem two_mul_xor (x y : Nat) : 2 * (x ^^^ y) = 2 * x ^^^ 2 * y := by
  simpa using two_pow_mul_xor 1 x y

theorem xor_left_comm (a b c : Nat) : a ^^^ (b ^^^ c) = b ^^^ (a ^^^ c) := by
  rw [← Nat.xor_assoc, Nat.xor_comm a b, Nat.xor_assoc]

theorem gf2Mul_zero_left (b : Nat) : gf2Mul 0 b = 0 := by
  simp [gf2Mul]

theorem gf2Mul_unfold (a b : Nat) (h : a ≠ 0) :
    gf2Mul a b = (if a % 2 = 1 then b else 0) ^^^ 2 * gf2Mul (a / 2) b := by
  obtain ⟨n, rfl⟩ := Nat.exists_eq_succ_of_ne_zero h
  rw [gf2Mul]

theorem gf2Mul_bit (q t b : Nat) (ht : t ≤ 1) :
    gf2Mul (2 * q + t) b = (if t = 1 then b else 0) ^^^ 2 * gf2Mul q b := by
  by_cases h : 2 * q + t = 0
  · have hq : q = 0 := by omega
    have ht0 : t = 0 := by omega
    subst hq; subst ht0
    simp [gf2Mul_zero_left]
  · rw [gf2Mul_unfold _ _ h]
    have h1 : (2 * q + t) % 2 = t := by omega
    have h2 : (2 * q + t) / 2 = q := by omega
    rw [h1, h2]

theorem gf2Mul_two_mul (q b : Nat) : gf2Mul (2 * q) b = 2 * gf2Mul q b := by
  simpa using gf2Mul_bit q 0 b (by omega)

theorem gf2Mul_one_left (b : Nat) : gf2Mul 1 b = b := by
  simpa [gf2Mul_zero_left] using gf2Mul_bit 0 1 b (by omega)

theorem gf2Mul_xor_left (p q b : Nat) :
    gf2Mul (p ^^^ q) b = gf2Mul p b ^^^ gf2Mul q b := by
  induction p using Nat.strong_induction_on generalizing q with
  | _ p ih =>
    by_cases hp : p = 0
    · subst hp; simp [gf2Mul_zero_left]
    by_cases hq : q = 0
    · subst hq; simp [gf2Mul_zero_left]
    have hdiv : (p ^^^ q) / 2 = p / 2 ^^^ q / 2 := Nat.xor_div_two
    have ihq := ih (p / 2) (by omega) (q / 2)
    rw [gf2Mul_unfold p b hp, gf2Mul_unfold q b hq]
    by_cases hpq : p ^^^ q = 0
    · have : p = q := Nat.xor_eq_zero.mp hpq
      subst this
      simp [gf2Mul_zero_left]
    rw [gf2Mul_unfold _ b hpq, hdiv, ihq, two_mul_xor]
    have hmod : (p ^^^ q) % 2 = (p + q) % 2 := Nat.xor_mod_two_eq
    rcases Nat.mod_two_eq_zero_or_one p with h1 | h1 <;>
      rcases Nat.mod_two_eq_zero_or_one q with h2 | h2 <;>
      · have h3 : (p ^^^ q) % 2 = (p % 2 + q % 2) % 2 := by omega
        rw [h3, h1, h2]
        simp [Nat.xor_assoc, Nat.xor_comm, xor_left_comm, Nat.xor_cancel_left]

theorem gf2Mul_two_pow_mul (k q b : Nat) : gf2Mul (2 ^ k * q) b = 2 ^ k * gf2Mul q b := by
  induction k with
  | zero => simp
  | succ k ih =>
    have h : 2 ^ (k + 1) * q = 2 * (2 ^ k * q) := by ring
    rw [h, gf2Mul_two_mul, ih]; ring

theorem gf2Cong_refl (g a : Nat) : gf2Cong g a a :=
  ⟨0, by simp [gf2Mul_zero_left]⟩

theorem gf2Cong_xor {g a r b s : Nat} (h1 : gf2Cong g a r) (h2 : gf2Cong g b s) :
    gf2Cong g (a ^^^ b) (r ^^^ s) := by
  obtain ⟨q1, rfl⟩ := h1
  obtain ⟨q2, rfl⟩ := h2
  refine ⟨q1 ^^^ q2, ?_⟩
  rw [gf2Mul_xor_left]
  simp only [Nat.xor_assoc, xor_left_comm]

theorem gf2Cong_trans {g a r s : Nat} (h1 : gf2Cong g a r) (h2 : gf2Cong g r s) :
    gf2Cong g a s := by
  obtain ⟨q1, rfl⟩ := h1
  obtain ⟨q2, rfl⟩ := h2
  exact ⟨q1 ^^^ q2, by rw [gf2Mul_xor_left, Nat.xor_assoc]⟩

theorem gf2Cong_two_pow_mul {g a r : Nat} (k : Nat) (h : gf2Cong g a r) :
    gf2Cong g (2 ^ k * a) (2 ^ k * r) := by
  obtain ⟨q, rfl⟩ := h
  exact ⟨2 ^ k * q, by rw [gf2Mul_two_pow_mul, two_pow_mul_xor]⟩

theorem le_xor_of_le_of_lt {x y n : Nat} (hx : 2 ^ n ≤ x) (hy : y < 2 ^ n) :
    2 ^ n ≤ x ^^^ y := by
  by_contra hlt
  have h := Nat.xor_lt_two_pow (Nat.lt_of_not_le hlt) hy
  rw [Nat.xor_cancel_right] at h
  omega

theorem le_gf2Mul {g dg : Nat} (hlo : 2 ^ dg ≤ g) (hhi : g < 2 ^ (dg + 1)) (q : Nat)
    (hq : q ≠ 0) : 2 ^ dg ≤ gf2Mul q g := by
  induction q using Nat.strong_induction_on with
  | _ q ih =>
    rw [gf2Mul_unfold q g hq]
    by_cases h2 : q / 2 = 0
    · have h1 : q = 1 := by omega
      subst h1
      simpa [gf2Mul_zero_left] using hlo
    · have ih2 := ih (q / 2) (by omega) h2
      have hbig : 2 ^ (dg + 1) ≤ 2 * gf2Mul (q / 2) g := by
        rw [Nat.pow_succ]; omega
      have hsmall : (if q % 2 = 1 then g else 0) < 2 ^ (dg + 1) := by
        split
        · exact hhi
        · exact Nat.pos_pow_of_pos _ (by omega)
      have := le_xor_of_le_of_lt hbig hsmall
      rw [Nat.xor_comm] at this
      have h3 : 2 ^ dg ≤ 2 ^ (dg + 1) := Nat.pow_le_pow_right (by omega) (by omega)
      omega

/-- A remainder of degree below `deg g` is unique. -/
theorem gf2Cong_unique {g dg a r s : Nat} (hlo : 2 ^ dg ≤ g) (hhi : g < 2 ^ (dg + 1))
    (h1 : gf2Cong g a r) (h2 : gf2Cong g a s) (hr : r < 2 ^ dg) (hs : s < 2 ^ dg) :
    r = s := by
  obtain ⟨q1, e1⟩ := h1
  obtain ⟨q2, e2⟩ := h2
  have hq : gf2Mul (q1 ^^^ q2) g = r ^^^ s := by
    rw [gf2Mul_xor_left]
    have e3 : gf2Mul q1 g = a ^^^ r := by rw [e1, Nat.xor_cancel_right]
    have e4 : gf2Mul q2 g = a ^^^ s := by rw [e2, Nat.xor_cancel_right]
    rw [e3, e4]
    simp only [Nat.xor_assoc, xor_left_comm a, Nat.xor_cancel_left]
  have hlt : gf2Mul (q1 ^^^ q2) g < 2 ^ dg := by
    rw [hq]; exact Nat.xor_lt_two_pow hr hs
  have hz : q1 ^^^ q2 = 0 := by
    by_contra hne
    have := le_gf2Mul hlo hhi _ hne
    omega
  rw [hz, gf2Mul_zero_left] at hq
  exact Nat.xor_eq_zero.mp hq.symm

theorem lt_two_pow_of_testBit_false {a n : Nat} (h : a < 2 ^ (n + 1))
    (hb : a.testBit n = false) : a < 2 ^ n := by
  apply Nat.lt_pow_two_of_testBit
  intro i hi
  by_cases hin : i = n
  · subst hin; exact hb
  · exact Nat.testBit_lt_two_pow
      (Nat.lt_of_lt_of_le h (Nat.pow_le_pow_right (by omega) (by omega)))

theorem xor_shift_lt {a g dg k : Nat} (ha : a < 2 ^ (k + dg + 1))
    (hb : a.testBit (k + dg) = true) (hlo : 2 ^ dg ≤ g) (hhi : g < 2 ^ (dg + 1)) :
    a ^^^ (g <<< k) < 2 ^ (k + dg) := by
  have hg : g.testBit dg = true := by
    by_contra hne
    have := lt_two_pow_of_testBit_false hhi (by simpa using hne)
    omega
  apply Nat.lt_pow_two_of_testBit
  intro i hi
  rw [Nat.testBit_xor, Nat.testBit_shiftLeft]
  by_cases hin : i = k + dg
  · subst hin
    have : k + dg - k = dg := by omega
    simp [hb, this, hg]
  · have h1 : a.testBit i = false :=
      Nat.testBit_lt_two_pow (Nat.lt_of_lt_of_le ha (Nat.pow_le_pow_right (by omega) (by omega)))
    have h2 : g.testBit (i - k) = false :=
      Nat.testBit_lt_two_pow (Nat.lt_of_lt_of_le hhi (Nat.pow_le_pow_right (by omega) (by omega)))
    simp [h1, h2]

theorem gf2ModAux_cong (g dg : Nat) (k a : Nat) : gf2Cong g a (gf2ModAux g dg k a) := by
  induction k generalizing a with
  | zero => exact gf2Cong_refl g a
  | succ k ih =>
    rw [gf2ModAux]
    refine gf2Cong_trans ?_ (ih _)
    split
    · refine ⟨2 ^ k, ?_⟩
      have h := gf2Mul_two_pow_mul k 1 g
      rw [Nat.mul_one, gf2Mul_one_left] at h
      rw [h, Nat.shiftLeft_eq, Nat.mul_comm, Nat.xor_comm, Nat.xor_assoc, Nat.xor_self,
        Nat.xor_zero]
    · exact gf2Cong_refl g a

theorem gf2ModAux_lt {g dg : Nat} (hlo : 2 ^ dg ≤ g) (hhi : g < 2 ^ (dg + 1)) (k a : Nat)
    (ha : a < 2 ^ (k + dg)) : gf2ModAux g dg k a < 2 ^ dg := by
  induction k generalizing a with
  | zero => simpa [gf2ModAux] using ha
  | succ k ih =>
    rw [gf2ModAux]
    apply ih
    have ha2 : a < 2 ^ (k + dg + 1) := by
      have : k + 1 + dg = k + dg + 1 := by omega
      rwa [this] at ha
    split
    · next hb => exact xor_shift_lt ha2 hb hlo hhi
    · next hb => exact lt_two_pow_of_testBit_false ha2 (by simpa using hb)

theorem log2_eq_of_bounds {g dg : Nat} (hlo : 2 ^ dg ≤ g) (hhi : g < 2 ^ (dg + 1)) :
    g.log2 = dg := by
  have hne : g ≠ 0 := by
    have := Nat.pos_pow_of_pos dg (show 0 < 2 by omega)
    omega
  have h1 : dg ≤ g.log2 := (Nat.le_log2 hne).2 hlo
  have h2 : g.log2 < dg + 1 := (Nat.log2_lt hne).2 hhi
  omega

/-- The long division `gf2Mod` computes a remainder: it differs from the
dividend by a multiple of `g` and its degree is below the degree of `g`. -/
theorem gf2Mod_spec {g dg : Nat} (hlo : 2 ^ dg ≤ g) (hhi : g < 2 ^ (dg + 1)) (a : Nat) :
    gf2Cong g a (gf2Mod a g) ∧ gf2Mod a g < 2 ^ dg := by
  have hdg := log2_eq_of_bounds hlo hhi
  refine ⟨gf2ModAux_cong _ _ _ _, ?_⟩
  unfold gf2Mod
  rw [hdg]
  apply gf2ModAux_lt hlo hhi
  have h := @Nat.lt_log2_self a
  exact Nat.lt_of_lt_of_le h (Nat.pow_le_pow_right (by omega) (by omega))

/-! ### `crcCRSF` against the mathematical CRC -/

theorem crc8Poly_lo : 2 ^ 8 ≤ crc8Poly := by decide

theorem crc8Poly_hi : crc8Poly < 2 ^ (8 + 1) := by decide

theorem crcShift_lt (c : Nat) : crcShift c < 256 := by
  unfold crcShift
  split <;> exact Nat.mod_lt _ (by omega)

theorem iterate_crcShift_lt (k c : Nat) (hc : c < 256) : crcShift^[k] c < 256 := by
  induction k generalizing c with
  | zero => simpa using hc
  | succ k ih => rw [Function.iterate_succ_apply]; exact ih _ (crcShift_lt c)

theorem crcByte_lt (c : Nat) (hc : c < 256) : crcByte c < 256 :=
  iterate_crcShift_lt 8 c hc

theorem crcStep_lt (c b : Nat) : crcStep c b < 256 :=
  crcByte_lt _ (Nat.mod_lt _ (by omega))

theorem crcShift_eq : ∀ c < 256, 2 * c = (if 128 ≤ c then crc8Poly else 0) ^^^ crcShift c := by
  decide

theorem crcShift_cong (c : Nat) (hc : c < 256) : gf2Cong crc8Poly (2 * c) (crcShift c) := by
  refine ⟨if 128 ≤ c then 1 else 0, ?_⟩
  rw [crcShift_eq c hc]
  split <;> simp [gf2Mul_one_left, gf2Mul_zero_left]

theorem iterate_crcShift_cong (k c : Nat) (hc : c < 256) :
    gf2Cong crc8Poly (2 ^ k * c) (crcShift^[k] c) := by
  induction k generalizing c with
  | zero => simpa using gf2Cong_refl crc8Poly c
  | succ k ih =>
    rw [Function.iterate_succ_apply]
    have h1 := gf2Cong_two_pow_mul k (crcShift_cong c hc)
    have h2 := ih (crcShift c) (crcShift_lt c)
    have e : 2 ^ (k + 1) * c = 2 ^ k * (2 * c) := by ring
    rw [e]
    exact gf2Cong_trans h1 h2

theorem crcByte_cong (c : Nat) (hc : c < 256) : gf2Cong crc8Poly (2 ^ 8 * c) (crcByte c) :=
  iterate_crcShift_cong 8 c hc

theorem mul_add_eq_xor (m b : Nat) (hb : b < 2 ^ 8) : m * 2 ^ 8 + b = m * 2 ^ 8 ^^^ b := by
  apply Nat.eq_of_testBit_eq
  intro i
  rw [Nat.mul_comm, Nat.testBit_mul_pow_two_add m hb, Nat.testBit_xor, Nat.testBit_mul_pow_two]
  by_cases h : i < 8
  · have : ¬ 8 ≤ i := by omega
    simp [h, this]
  · have h8 : 8 ≤ i := by omega
    have hbi : b.testBit i = false :=
      Nat.testBit_lt_two_pow (Nat.lt_of_lt_of_le hb (Nat.pow_le_pow_right (by omega) h8))
    simp [h, h8, hbi]

theorem msgPoly_append_singleton (p : List Nat) (b : Nat) :
    msgPoly (p ++ [b]) = msgPoly p * 256 + b := by
  simp [msgPoly, List.foldl_append]

theorem crc_fold_cong (buf : List Nat) (hbuf : ∀ b ∈ buf, b < 256) :
    gf2Cong crc8Poly (msgPoly buf * 2 ^ 8) (buf.foldl crcStep 0) ∧
      buf.foldl crcStep 0 < 256 := by
  induction buf using List.reverseRecOn with
  | nil => exact ⟨by simpa [msgPoly] using gf2Cong_refl crc8Poly 0, by simp⟩
  | append_singleton p b ih =>
    have hp : ∀ x ∈ p, x < 256 := fun x hx => hbuf x (by simp [hx])
    have hb : b < 256 := hbuf b (by simp)
    obtain ⟨hc, hlt⟩ := ih hp
    rw [List.foldl_append, List.foldl_cons, List.foldl_nil]
    refine ⟨?_, crcStep_lt _ _⟩
    have hx : p.foldl crcStep 0 ^^^ b < 256 := Nat.xor_lt_two_pow (n := 8) hlt hb
    have hstep : crcStep (p.foldl crcStep 0) b = crcByte (p.foldl crcStep 0 ^^^ b) := by
      rw [crcStep, Nat.mod_eq_of_lt hx]
    rw [hstep, msgPoly_append_singleton]
    have e : (msgPoly p * 256 + b) * 2 ^ 8 = 2 ^ 8 * (msgPoly p * 2 ^ 8 ^^^ b) := by
      rw [← mul_add_eq_xor _ _ hb]; ring
    rw [e]
    exact gf2Cong_trans (gf2Cong_two_pow_mul 8 (gf2Cong_xor hc (gf2Cong_refl _ b)))
      (crcByte_cong _ hx)

theorem map_getD_range (l : List Nat) :
    (List.range l.length).map (fun i => l.getD i 0) = l := by
  apply List.ext_getElem
  · simp
  · intro i h1 h2
    simp [List.getElem?_eq_getElem h2]

theorem crcCRSF_eq_fold (buf : List Nat) (hlen : buf.length ≤ 255) :
    crcCRSF buf buf.length = buf.foldl crcStep 0 := by
  unfold crcCRSF
  rw [Nat.mod_eq_of_lt (by omega)]
  conv_rhs => rw [← map_getD_range buf]
  rw [List.foldl_map]

theorem crcCRSF_eq_crc8Spec (buf : List Nat) (hlen : buf.length ≤ 255)
    (hbuf : ∀ b ∈ buf, b < 256) : crcCRSF buf buf.length = crc8Spec buf := by
  rw [crcCRSF_eq_fold buf hlen]
  obtain ⟨hc, hlt⟩ := crc_fold_cong buf hbuf
  obtain ⟨hs, hslt⟩ := gf2Mod_spec crc8Poly_lo crc8Poly_hi (msgPoly buf * 2 ^ 8)
  exact gf2Cong_unique crc8Poly_lo crc8Poly_hi hc hs hlt hslt

/-! ### Injectivity and linearity of the CRC steps -/

theorem crcShift_inverse : ∀ c < 256,
    (if crcShift c % 2 = 1 then (crcShift c ^^^ 0xD5) / 2 + 128 else crcShift c / 2) = c := by
  decide

theorem crcShift_inj {c d : Nat} (hc : c < 256) (hd : d < 256) (h : crcShift c = crcShift d) :
    c = d := by
  have h1 := crcShift_inverse c hc
  have h2 := crcShift_inverse d hd
  rw [h] at h1
  exact h1.symm.trans h2

theorem iterate_crcShift_inj (k : Nat) {c d : Nat} (hc : c < 256) (hd : d < 256)
    (h : crcShift^[k] c = crcShift^[k] d) : c = d := by
  induction k generalizing c d with
  | zero => simpa using h
  | succ k ih =>
    rw [Function.iterate_succ_apply, Function.iterate_succ_apply] at h
    exact crcShift_inj hc hd (ih (crcShift_lt c) (crcShift_lt d) h)

theorem crcByte_inj {c d : Nat} (hc : c < 256) (hd : d < 256) (h : crcByte c = crcByte d) :
    c = d :=
  iterate_crcShift_inj 8 hc hd h

theorem crcStep_eq (c b : Nat) (hc : c < 256) (hb : b < 256) :
    crcStep c b = crcByte (c ^^^ b) := by
  rw [crcStep, Nat.mod_eq_of_lt (Nat.xor_lt_two_pow (n := 8) hc hb)]

theorem crcStep_inj_left {c d b : Nat} (hc : c < 256) (hd : d < 256) (hb : b < 256)
    (h : crcStep c b = crcStep d b) : c = d := by
  rw [crcStep_eq c b hc hb, crcStep_eq d b hd hb] at h
  have h2 := crcByte_inj (Nat.xor_lt_two_pow (n := 8) hc hb) (Nat.xor_lt_two_pow (n := 8) hd hb) h
  exact Nat.xor_left_inj.mp h2

theorem crcStep_inj_right {c a b : Nat} (hc : c < 256) (ha : a < 256) (hb : b < 256)
    (h : crcStep c a = crcStep c b) : a = b := by
  rw [crcStep_eq c a hc ha, crcStep_eq c b hc hb] at h
  have h2 := crcByte_inj (Nat.xor_lt_two_pow (n := 8) hc ha) (Nat.xor_lt_two_pow (n := 8) hc hb) h
  exact Nat.xor_right_inj.mp h2

theorem foldl_crcStep_lt (l : List Nat) (c : Nat) (hc : c < 256) :
    l.foldl crcStep c < 256 := by
  induction l generalizing c with
  | nil => simpa using hc
  | cons b bs ih => rw [List.foldl_cons]; exact ih _ (crcStep_lt c b)

theorem foldl_crcStep_inj (l : List Nat) (hl : ∀ b ∈ l, b < 256) {c d : Nat} (hc : c < 256)
    (hd : d < 256) (h : l.foldl crcStep c = l.foldl crcStep d) : c = d := by
  induction l generalizing c d with
  | nil => simpa using h
  | cons b bs ih =>
    rw [List.foldl_cons, List.foldl_cons] at h
    have hb : b < 256 := hl b (by simp)
    have hbs : ∀ x ∈ bs, x < 256 := fun x hx => hl x (by simp [hx])
    exact crcStep_inj_left hc hd hb (ih hbs (crcStep_lt c b) (crcStep_lt d b) h)

theorem crcShift_xor : ∀ c < 256, ∀ d < 256,
    crcShift (c ^^^ d) = crcShift c ^^^ crcShift d := by
  intro c hc d hd
  have h1 := crcShift_eq c hc
  have h2 := crcShift_eq d hd
  have h3 := crcShift_eq (c ^^^ d) (Nat.xor_lt_two_pow (n := 8) hc hd)
  have e1 : crcShift c = (if 128 ≤ c then crc8Poly else 0) ^^^ 2 * c := by
    rw [h1, Nat.xor_cancel_left]
  have e2 : crcShift d = (if 128 ≤ d then crc8Poly else 0) ^^^ 2 * d := by
    rw [h2, Nat.xor_cancel_left]
  have e3 : crcShift (c ^^^ d) = (if 128 ≤ c ^^^ d then crc8Poly else 0) ^^^ 2 * (c ^^^ d) := by
    rw [h3, Nat.xor_cancel_left]
  have top : ∀ x < 256, (128 ≤ x ↔ x.testBit 7 = true) := by decide
  have hx : (c ^^^ d).testBit 7 = (c.testBit 7 ^^ d.testBit 7) := Nat.testBit_xor c d 7
  rw [e1, e2, e3, two_mul_xor]
  have t1 := top c hc
  have t2 := top d hd
  have t3 := top (c ^^^ d) (Nat.xor_lt_two_pow (n := 8) hc hd)
  by_cases b1 : c.testBit 7 = true <;> by_cases b2 : d.testBit 7 = true <;>
    simp only [b1, b2, Bool.not_eq_true] at hx t1 t2 <;>
    simp [t1, t2, t3, hx, b1, b2, Nat.xor_assoc, xor_left_comm, Nat.xor_cancel_left]

theorem iterate_crcShift_xor (k c d : Nat) (hc : c < 256) (hd : d < 256) :
    crcShift^[k] (c ^^^ d) = crcShift^[k] c ^^^ crcShift^[k] d := by
  induction k generalizing c d with
  | zero => simp
  | succ k ih =>
    rw [Function.iterate_succ_apply, Function.iterate_succ_apply, Function.iterate_succ_apply,
      crcShift_xor c hc d hd]
    exact ih _ _ (crcShift_lt c) (crcShift_lt d)

theorem crcByte_xor (c d : Nat) (hc : c < 256) (hd : d < 256) :
    crcByte (c ^^^ d) = crcByte c ^^^ crcByte d :=
  iterate_crcShift_xor 8 c d hc hd

theorem crcByte_fixed : ∀ x < 256, (crcByte x = x ↔ x = 0 ∨ x = 0xB3) := by
  decide

/-! ### `packRcChannels`: closed form and bit layout -/

theorem store8_same (m : Nat → Nat) (a v : Nat) : store8 m a v a = v % 256 := by
  simp [store8]

theorem store8_other (m : Nat → Nat) (a v x : Nat) (h : x ≠ a) : store8 m a v x = m x := by
  simp [store8, h]

theorem or8_same (m : Nat → Nat) (a v : Nat) : or8 m a v a = (m a ||| v) % 256 := by
  simp [or8]

theorem or8_other (m : Nat → Nat) (a v x : Nat) (h : x ≠ a) : or8 m a v x = m x := by
  simp [or8, h]

theorem packRcChannels_bytes (mem : Nat → Nat) (buffer : Nat) (channels : List Nat) :
    readBytes (packRcChannels mem buffer channels) buffer 22 =
      [(channels.getD 0 0 &&& 0xFF) % 256,
       (((channels.getD 0 0 >>> 8) &&& 0x07) % 256 ||| ((channels.getD 1 0 &&& 0x1F) <<< 3)) % 256,
       (((channels.getD 1 0 >>> 5) &&& 0x3F) % 256 ||| ((channels.getD 2 0 &&& 0x03) <<< 6)) % 256,
       ((channels.getD 2 0 >>> 2) &&& 0xFF) % 256,
       (((channels.getD 2 0 >>> 10) &&& 0x01) % 256 ||| ((channels.getD 3 0 &&& 0x7F) <<< 1)) % 256,
       (((channels.getD 3 0 >>> 7) &&& 0x0F) % 256 ||| ((channels.getD 4 0 &&& 0x0F) <<< 4)) % 256,
       (((channels.getD 4 0 >>> 4) &&& 0x7F) % 256 ||| ((channels.getD 5 0 &&& 0x01) <<< 7)) % 256,
       ((channels.getD 5 0 >>> 1) &&& 0xFF) % 256,
       (((channels.getD 5 0 >>> 9) &&& 0x03) % 256 ||| ((channels.getD 6 0 &&& 0x3F) <<< 2)) % 256,
       (((channels.getD 6 0 >>> 6) &&& 0x1F) % 256 ||| ((channels.getD 7 0 &&& 0x07) <<< 5)) % 256,
       ((channels.getD 7 0 >>> 3) &&& 0xFF) % 256,
       (channels.getD 8 0 &&& 0xFF) % 256,
       (((channels.getD 8 0 >>> 8) &&& 0x07) % 256 ||| ((channels.getD 9 0 &&& 0x1F) <<< 3)) % 256,
       (((channels.getD 9 0 >>> 5) &&& 0x3F) % 256 ||| ((channels.getD 10 0 &&& 0x03) <<< 6)) % 256,
       ((channels.getD 10 0 >>> 2) &&& 0xFF) % 256,
       (((channels.getD 10 0 >>> 10) &&& 0x01) % 256 ||| ((channels.getD 11 0 &&& 0x7F) <<< 1)) % 256,
       (((channels.getD 11 0 >>> 7) &&& 0x0F) % 256 ||| ((channels.getD 12 0 &&& 0x0F) <<< 4)) % 256,
       (((channels.getD 12 0 >>> 4) &&& 0x7F) % 256 ||| ((channels.getD 13 0 &&& 0x01) <<< 7)) % 256,
       ((channels.getD 13 0 >>> 1) &&& 0xFF) % 256,
       (((channels.getD 13 0 >>> 9) &&& 0x03) % 256 ||| ((channels.getD 14 0 &&& 0x3F) <<< 2)) % 256,
       (((channels.getD 14 0 >>> 6) &&& 0x1F) % 256 ||| ((channels.getD 15 0 &&& 0x07) <<< 5)) % 256,
       ((channels.getD 15 0 >>> 3) &&& 0xFF) % 256] := by
  simp [readBytes, List.range, List.range.loop, packRcChannels, store8, or8]

theorem testBit_mod_256 (x i : Nat) :
    (x % 256).testBit i = (decide (i < 8) && x.testBit i) :=
  Nat.testBit_mod_two_pow x 8 i

theorem testBit_mod_2 (x i : Nat) :
    (x % 2).testBit i = (decide (i < 1) && x.testBit i) :=
  Nat.testBit_mod_two_pow x 1 i

theorem testBit_and_mask (x n i : Nat) :
    (x &&& (2 ^ n - 1)).testBit i = (decide (i < n) && x.testBit i) := by
  rw [Nat.testBit_and, Nat.testBit_two_pow_sub_one, Bool.and_comm]

theorem testBit_and_1 (x i : Nat) : (x &&& 1).testBit i = (decide (i < 1) && x.testBit i) :=
  testBit_and_mask x 1 i

theorem testBit_and_3 (x i : Nat) : (x &&& 3).testBit i = (decide (i < 2) && x.testBit i) :=
  testBit_and_mask x 2 i

theorem testBit_and_7 (x i : Nat) : (x &&& 7).testBit i = (decide (i < 3) && x.testBit i) :=
  testBit_and_mask x 3 i

theorem testBit_and_15 (x i : Nat) : (x &&& 15).testBit i = (decide (i < 4) && x.testBit i) :=
  testBit_and_mask x 4 i

theorem testBit_and_31 (x i : Nat) : (x &&& 31).testBit i = (decide (i < 5) && x.testBit i) :=
  testBit_and_mask x 5 i

theorem testBit_and_63 (x i : Nat) : (x &&& 63).testBit i = (decide (i < 6) && x.testBit i) :=
  testBit_and_mask x 6 i

theorem testBit_and_127 (x i : Nat) : (x &&& 127).testBit i = (decide (i < 7) && x.testBit i) :=
  testBit_and_mask x 7 i

theorem testBit_and_255 (x i : Nat) : (x &&& 255).testBit i = (decide (i < 8) && x.testBit i) :=
  testBit_and_mask x 8 i

theorem testBit_and_2047 (x i : Nat) :
    (x &&& 2047).testBit i = (decide (i < 11) && x.testBit i) :=
  testBit_and_mask x 11 i


theorem packedPayload_testBit (mem : Nat → Nat) (buffer : Nat) (channels : List Nat) (k : Nat)
    (hk : k < 176) :
    ((packedPayload mem buffer channels).getD (k / 8) 0).testBit (k % 8) =
      (channels.getD (k / 11) 0).testBit (k % 11) := by
  obtain ⟨j, b, hj, hb, rfl⟩ : ∃ j b, j < 22 ∧ b < 8 ∧ k = 8 * j + b :=
    ⟨k / 8, k % 8, by omega, by omega, by omega⟩
  have h1 : (8 * j + b) / 8 = j := by omega
  have h2 : (8 * j + b) % 8 = b := by omega
  rw [h1, h2, packedPayload, packRcChannels_bytes]
  interval_cases j <;> simp only [List.getD_cons_zero, List.getD_cons_succ] <;>
    interval_cases b <;>
    simp [-Nat.testBit_and, -Nat.testBit_zero, testBit_mod_256, testBit_mod_2, testBit_and_1, testBit_and_3, testBit_and_7,
      testBit_and_15, testBit_and_31, testBit_and_63, testBit_and_127, testBit_and_255]

theorem packedPayload_length (mem : Nat → Nat) (buffer : Nat) (channels : List Nat) :
    (packedPayload mem buffer channels).length = 22 := by
  simp [packedPayload, readBytes]

theorem packedPayload_lt (mem : Nat → Nat) (buffer : Nat) (channels : List Nat) :
    ∀ b ∈ packedPayload mem buffer channels, b < 256 := by
  intro b hb
  rw [packedPayload, packRcChannels_bytes] at hb
  simp only [List.mem_cons, List.mem_singleton, List.not_mem_nil, or_false] at hb
  rcases hb with h | h | h | h | h | h | h | h | h | h | h | h | h | h | h | h | h | h | h | h |
    h | h <;> (rw [h]; exact Nat.mod_lt _ (by omega))

theorem getD_lt_of_forall_lt (l : List Nat) (n j : Nat) (hn : 0 < n) (h : ∀ b ∈ l, b < n) :
    l.getD j 0 < n := by
  by_cases hj : j < l.length
  · rw [List.getD_eq_getElem l 0 hj]
    exact h _ (List.getElem_mem hj)
  · rw [List.getD_eq_default l 0 (by omega)]
    exact hn

/-- The payload does not depend on what the buffer held before the call, nor
on where the buffer lies. -/
theorem packedPayload_indep (mem mem2 : Nat → Nat) (buffer buffer2 : Nat) (channels : List Nat) :
    packedPayload mem buffer channels = packedPayload mem2 buffer2 channels := by
  rw [packedPayload, packedPayload, packRcChannels_bytes, packRcChannels_bytes]

theorem packRcChannels_outside (mem : Nat → Nat) (buffer : Nat) (channels : List Nat) (x : Nat)
    (hx : x < buffer ∨ buffer + 22 ≤ x) : packRcChannels mem buffer channels x = mem x := by
  simp (disch := omega) only [packRcChannels, store8_other, or8_other]

theorem testBit_bitStream (p : List Nat) (hp : ∀ b ∈ p, b < 256) (k : Nat) :
    (bitStream p).testBit k = (p.getD (k / 8) 0).testBit (k % 8) := by
  induction p generalizing k with
  | nil => simp [bitStream]
  | cons b bs ih =>
    have hb : b < 2 ^ 8 := hp b (by simp)
    have hbs : ∀ x ∈ bs, x < 256 := fun x hx => hp x (by simp [hx])
    have e : bitStream (b :: bs) = 2 ^ 8 * bitStream bs + b := by
      rw [bitStream]; omega
    rw [e, Nat.testBit_mul_pow_two_add _ hb]
    by_cases hk : k < 8
    · have h0 : k / 8 = 0 := by omega
      have h1 : k % 8 = k := by omega
      simp [hk, h0, h1]
    · obtain ⟨j, rfl⟩ : ∃ j, k = j + 8 := ⟨k - 8, by omega⟩
      have h0 : (j + 8) / 8 = j / 8 + 1 := by omega
      have h1 : (j + 8) % 8 = j % 8 := by omega
      have h2 : j + 8 - 8 = j := by omega
      rw [if_neg hk, h0, h1, h2, List.getD_cons_succ]
      exact ih hbs j

theorem unpack_getD (mem : Nat → Nat) (buffer : Nat) (channels : List Nat) (i : Nat)
    (hi : i < 16) (hv : channels.getD i 0 < 2048) :
    (bitStream (packedPayload mem buffer channels) >>> (11 * i)) &&& 0x7FF =
      channels.getD i 0 := by
  apply Nat.eq_of_testBit_eq
  intro b
  rw [testBit_and_2047, Nat.testBit_shiftRight,
    testBit_bitStream _ (packedPayload_lt mem buffer channels)]
  by_cases hb : b < 11
  · have h := packedPayload_testBit mem buffer channels (11 * i + b) (by omega)
    have h0 : (11 * i + b) / 11 = i := by omega
    have h1 : (11 * i + b) % 11 = b := by omega
    rw [h0, h1] at h
    rw [h, decide_eq_true hb, Bool.true_and]
  · have hb11 : 11 ≤ b := by omega
    have hv2 : channels.getD i 0 < 2 ^ 11 := hv
    have hpow : 2 ^ 11 ≤ 2 ^ b := Nat.pow_le_pow_right (show 0 < 2 by omega) hb11
    have hz : (channels.getD i 0).testBit b = false :=
      Nat.testBit_lt_two_pow (Nat.lt_of_lt_of_le hv2 hpow)
    rw [hz, decide_eq_false hb, Bool.false_and]

theorem unpack_pack (mem : Nat → Nat) (buffer : Nat) (channels : List Nat)
    (hlen : channels.length = 16) (hv : ∀ v ∈ channels, v < 2048) :
    unpackRcChannels (packedPayload mem buffer channels) = channels := by
  apply List.ext_getElem
  · simp [unpackRcChannels, NUM_CHANNELS, hlen]
  · intro i h1 h2
    have hi : i < 16 := by simpa [unpackRcChannels, NUM_CHANNELS] using h1
    have hg : channels.getD i 0 = channels[i] := List.getD_eq_getElem channels 0 h2
    have hlt : channels.getD i 0 < 2048 := by rw [hg]; exact hv _ (List.getElem_mem h2)
    simp only [unpackRcChannels, List.getElem_map, List.getElem_range]
    rw [unpack_getD mem buffer channels i hi hlt, hg]

/-! ### The frame -/

theorem readBytes_length (m : Nat → Nat) (base n : Nat) : (readBytes m base n).length = n := by
  simp [readBytes]

theorem readBytes_succ_right (m : Nat → Nat) (base n : Nat) :
    readBytes m base (n + 1) = readBytes m base n ++ [m (base + n)] := by
  simp [readBytes, List.range_succ]

theorem readBytes_succ_left (m : Nat → Nat) (base n : Nat) :
    readBytes m base (n + 1) = m base :: readBytes m (base + 1) n := by
  simp only [readBytes, List.range_succ_eq_map, List.map_cons, List.map_map, Nat.add_zero]
  congr 1
  apply List.map_congr_left
  intro i _
  simp only [Function.comp_apply]
  congr 1
  omega

theorem readBytes_congr (m m2 : Nat → Nat) (base n : Nat)
    (h : ∀ i, i < n → m (base + i) = m2 (base + i)) : readBytes m base n = readBytes m2 base n := by
  apply List.map_congr_left
  intro i hi
  exact h i (List.mem_range.mp hi)

theorem getD_readBytes (m : Nat → Nat) (base n i : Nat) (hi : i < n) :
    (readBytes m base n).getD i 0 = m (base + i) := by
  rw [List.getD_eq_getElem _ 0 (by simpa [readBytes] using hi)]
  simp [readBytes]

theorem crcCRSF_lt (buf : List Nat) (len : Nat) : crcCRSF buf len < 256 := by
  unfold crcCRSF
  generalize List.range (len % 256) = l
  induction l using List.reverseRecOn with
  | nil => simp
  | append_singleton p i _ =>
    rw [List.foldl_append, List.foldl_cons, List.foldl_nil]
    exact crcStep_lt _ _

/-- The 26 bytes of the frame `sendRcChannelsPacket` hands to the
transmitter: header, payload, checksum of type and payload. -/
theorem rcChannelsFrame_bytes (stack mem : Nat → Nat) (buffer : Nat) (channels : List Nat) :
    frameBytes stack channels =
      0xEE :: 24 :: 0x16 :: (packedPayload mem buffer channels ++
        [crcCRSF (0x16 :: packedPayload mem buffer channels) 23]) := by
  have hg : ∀ g : Nat → Nat, g 0 = 0xEE → g 1 = 24 → g 2 = 0x16 →
      readBytes g 3 22 = packedPayload mem buffer channels →
      readBytes (store8 g 25 (crcCRSF (readBytes g 2 23) 23)) 0 26 =
        0xEE :: 24 :: 0x16 :: (packedPayload mem buffer channels ++
          [crcCRSF (0x16 :: packedPayload mem buffer channels) 23]) := by
    intro g h0 h1 h2 hp
    have hcrc : readBytes g 2 23 = 0x16 :: packedPayload mem buffer channels := by
      rw [readBytes_succ_left, h2, hp]
    rw [hcrc, readBytes_succ_left, readBytes_succ_left, readBytes_succ_left,
      readBytes_succ_right]
    have e : readBytes (store8 g 25 (crcCRSF (0x16 :: packedPayload mem buffer channels) 23))
        (0 + 1 + 1 + 1) 22 = readBytes g 3 22 :=
      readBytes_congr _ _ _ _ (fun i hi => store8_other _ _ _ _ (by omega))
    rw [e, hp, store8_other _ _ _ _ (by omega), store8_other _ _ _ _ (by omega),
      store8_other _ _ _ _ (by omega), h0, h1, h2]
    have e25 : 0 + 1 + 1 + 1 + 22 = 25 := by omega
    rw [e25, store8_same, Nat.mod_eq_of_lt (crcCRSF_lt _ _)]
  unfold frameBytes rcChannelsFrame
  refine hg _ ?_ ?_ ?_ ?_
  · rw [packRcChannels_outside _ _ _ _ (by omega)]
    simp [store8, CRSF_ADDRESS_FLIGHT_CONTROLLER]
  · rw [packRcChannels_outside _ _ _ _ (by omega)]
    simp [store8]
  · rw [packRcChannels_outside _ _ _ _ (by omega)]
    simp [store8, CRSF_FRAMETYPE_RC_CHANNELS_PACKED]
  · exact packedPayload_indep _ _ _ _ _

theorem packedPayload_zero (mem : Nat → Nat) (buffer : Nat) :
    packedPayload mem buffer (List.replicate 16 0) = List.replicate 22 0 := by
  rw [packedPayload, packRcChannels_bytes]
  decide

/-- Channels that agree in their low 11 bits pack to the same payload. -/
theorem packedPayload_congr (mem mem2 : Nat → Nat) (buffer buffer2 : Nat)
    (values values2 : List Nat)
    (h : ∀ i, i < 16 → values.getD i 0 % 2 ^ 11 = values2.getD i 0 % 2 ^ 11) :
    packedPayload mem buffer values = packedPayload mem2 buffer2 values2 := by
  apply List.ext_getElem
  · rw [packedPayload_length, packedPayload_length]
  · intro j h1 h2
    have hj : j < 22 := by rwa [packedPayload_length] at h1
    rw [← List.getD_eq_getElem _ 0 h1, ← List.getD_eq_getElem _ 0 h2]
    apply Nat.eq_of_testBit_eq
    intro b
    by_cases hb : b < 8
    · have e0 : (8 * j + b) / 8 = j := by omega
      have e1 : (8 * j + b) % 8 = b := by omega
      have k1 := packedPayload_testBit mem buffer values (8 * j + b) (by omega)
      have k2 := packedPayload_testBit mem2 buffer2 values2 (8 * j + b) (by omega)
      rw [e0, e1] at k1 k2
      rw [k1, k2]
      have hr : (8 * j + b) % 11 < 11 := Nat.mod_lt _ (by omega)
      have hi : (8 * j + b) / 11 < 16 := by omega
      have t1 := Nat.testBit_mod_two_pow (values.getD ((8 * j + b) / 11) 0) 11 ((8 * j + b) % 11)
      have t2 := Nat.testBit_mod_two_pow (values2.getD ((8 * j + b) / 11) 0) 11 ((8 * j + b) % 11)
      rw [decide_eq_true hr, Bool.true_and] at t1 t2
      rw [← t1, ← t2, h _ hi]
    · have hpow : 2 ^ 8 ≤ 2 ^ b := Nat.pow_le_pow_right (show 0 < 2 by omega) (by omega)
      have l1 : (packedPayload mem buffer values).getD j 0 < 2 ^ 8 :=
        getD_lt_of_forall_lt _ 256 j (by omega) (packedPayload_lt mem buffer values)
      have l2 : (packedPayload mem2 buffer2 values2).getD j 0 < 2 ^ 8 :=
        getD_lt_of_forall_lt _ 256 j (by omega) (packedPayload_lt mem2 buffer2 values2)
      rw [Nat.testBit_lt_two_pow (Nat.lt_of_lt_of_le l1 hpow),
        Nat.testBit_lt_two_pow (Nat.lt_of_lt_of_le l2 hpow)]

theorem and_2047_mod (x : Nat) : (x &&& 0x7FF) % 2 ^ 11 = x % 2 ^ 11 := by
  apply Nat.eq_of_testBit_eq
  intro i
  rw [Nat.testBit_mod_two_pow, Nat.testBit_mod_two_pow, testBit_and_2047]
  by_cases h : i < 11 <;> simp [h]

theorem getD_map_mask (values : List Nat) (i : Nat) :
    (values.map (fun v => v &&& 0x7FF)).getD i 0 = values.getD i 0 &&& 0x7FF := by
  have h := List.getD_map (l := values) (d := 0) (n := i) (fun v => v &&& 0x7FF)
  simpa using h

theorem getD_append_length (l : List Nat) (x n : Nat) (h : l.length = n) :
    (l ++ [x]).getD n 0 = x := by
  subst h
  simp

theorem take_append_length (l r : List Nat) (n : Nat) (h : l.length = n) :
    (l ++ r).take n = l := by
  subst h
  simp

theorem take_three_cons (a b c : Nat) (l : List Nat) : (a :: b :: c :: l).take 3 = [a, b, c] :=
  rfl

/-! ### The transmitter only appends to the trace; the rate gate -/

theorem emit_cpu (w : World) (e : Event) : (w.emit e).cpuFreqMHz = w.cpuFreqMHz := rfl

theorem emit_trace (w : World) (e : Event) : (w.emit e).trace = w.trace ++ [e] := rfl

theorem busyWaitUntil_cpu (w : World) (target : Nat) :
    (w.busyWaitUntil target).cpuFreqMHz = w.cpuFreqMHz := by
  unfold World.busyWaitUntil; split <;> rfl

theorem busyWaitUntil_trace (w : World) (target : Nat) :
    (w.busyWaitUntil target).trace = w.trace := by
  unfold World.busyWaitUntil; split <;> rfl

theorem uartSendBit_cpu (b : Bool) (w : World) : (uartSendBit b w).cpuFreqMHz = w.cpuFreqMHz := by
  simp [uartSendBit, busyWaitUntil_cpu, emit_cpu]

theorem uartSendBit_trace (b : Bool) (w : World) :
    (uartSendBit b w).trace = w.trace ++ [Event.digitalWrite CRSF_TX_PIN (!b)] := by
  simp [uartSendBit, busyWaitUntil_trace, emit_trace]

theorem foldl_keeps {α : Type} (f : World → α → World)
    (hcpu : ∀ w x, (f w x).cpuFreqMHz = w.cpuFreqMHz)
    (htr : ∀ w x, w.trace.length ≤ (f w x).trace.length) (l : List α) (w : World) :
    (l.foldl f w).cpuFreqMHz = w.cpuFreqMHz ∧ w.trace.length ≤ (l.foldl f w).trace.length := by
  induction l generalizing w with
  | nil => simp
  | cons x xs ih =>
    rw [List.foldl_cons]
    obtain ⟨h1, h2⟩ := ih (f w x)
    exact ⟨h1.trans (hcpu w x), Nat.le_trans (htr w x) h2⟩

theorem softUartSendByte_keeps (data : Nat) (w : World) :
    (softUartSendByte data w).cpuFreqMHz = w.cpuFreqMHz ∧
      w.trace.length ≤ (softUartSendByte data w).trace.length := by
  have hf := foldl_keeps (fun w i => uartSendBit (decide (data &&& (1 <<< i) ≠ 0)) w)
    (fun w i => uartSendBit_cpu _ w)
    (fun w i => by rw [uartSendBit_trace]; simp) (List.range 8)
    (uartSendBit false (w.emit Event.noInterrupts))
  obtain ⟨h1, h2⟩ := hf
  unfold softUartSendByte
  simp only [emit_cpu, emit_trace, busyWaitUntil_cpu, busyWaitUntil_trace, uartSendBit_cpu,
    uartSendBit_trace, List.length_append, List.length_singleton] at h1 h2 ⊢
  exact ⟨h1, by omega⟩

theorem softUartSendBytes_keeps (data : List Nat) (len : Nat) (w : World) :
    (softUartSendBytes data len w).cpuFreqMHz = w.cpuFreqMHz ∧
      w.trace.length < (softUartSendBytes data len w).trace.length := by
  have hf := foldl_keeps (fun w i => softUartSendByte (data.getD i 0) w)
    (fun w i => (softUartSendByte_keeps _ w).1)
    (fun w i => (softUartSendByte_keeps _ w).2) (List.range len)
    (w.emit (Event.digitalWrite DEBUG_LED_PIN true))
  obtain ⟨h1, h2⟩ := hf
  unfold softUartSendBytes
  simp only [emit_cpu, emit_trace, List.length_append, List.length_singleton] at h1 h2 ⊢
  exact ⟨h1, by omega⟩

theorem sendSyncPreamble_keeps (w : World) :
    (sendSyncPreamble w).cpuFreqMHz = w.cpuFreqMHz ∧
      w.trace.length < (sendSyncPreamble w).trace.length := by
  obtain ⟨h1, h2⟩ := softUartSendBytes_keeps [0xFF, 0x00, 0xFF, 0x00] 4 w
  unfold sendSyncPreamble World.delayMicroseconds
  simp only [emit_cpu, emit_trace, List.length_append, List.length_singleton] at h1 h2 ⊢
  exact ⟨h1, by omega⟩

theorem sendRcChannelsPacket_keeps (self : CRSFModule) (w : World) :
    (self.sendRcChannelsPacket w).2.cpuFreqMHz = w.cpuFreqMHz ∧
      w.trace.length < (self.sendRcChannelsPacket w).2.trace.length := by
  obtain ⟨h1, h2⟩ := sendSyncPreamble_keeps w
  obtain ⟨h3, h4⟩ := softUartSendBytes_keeps
    (frameBytes (sendSyncPreamble w).stack self.channelManager.getChannelData)
    CRSF_FRAME_SIZE (sendSyncPreamble w)
  unfold CRSFModule.sendRcChannelsPacket
  simp only
  generalize softUartSendBytes
    (frameBytes (sendSyncPreamble w).stack self.channelManager.getChannelData)
    CRSF_FRAME_SIZE (sendSyncPreamble w) = x at h3 h4 ⊢
  generalize sendSyncPreamble w = y at h1 h2 h3 h4
  have hx : x.cpuFreqMHz = w.cpuFreqMHz := h3.trans h1
  have hl : w.trace.length < x.trace.length := Nat.lt_trans h2 h4
  split
  · split
    · dsimp only
      rw [emit_cpu, emit_trace, List.length_append, List.length_singleton]
      exact ⟨hx, by omega⟩
    · dsimp only
      exact ⟨hx, hl⟩
  · dsimp only
    exact ⟨hx, hl⟩

theorem millis_setClockMs (w : World) (t : Nat) (hcpu : 0 < w.cpuFreqMHz) (ht : t < 2 ^ 32) :
    (w.setClockMs t).millis = t := by
  unfold World.millis World.setClockMs
  simp only
  rw [Nat.mul_div_cancel _ (by positivity), Nat.mod_eq_of_lt ht]

/-- One call of `update()` at clock reading `t`: the frame goes out exactly
when the gate test succeeds, and only then the stored time becomes `t`. -/
theorem update_at (self : CRSFModule) (w : World) (t : Nat) (hcpu : 0 < w.cpuFreqMHz)
    (ht : t < 2 ^ 32) :
    (self.update (w.setClockMs t)).2.cpuFreqMHz = w.cpuFreqMHz ∧
      (if (t + 2 ^ 32 - self.lastUpdateTime) % 2 ^ 32 ≥ 20 then
        (self.update (w.setClockMs t)).1.lastUpdateTime = t ∧
          transmitted w (self.update (w.setClockMs t)).2 = true
      else
        (self.update (w.setClockMs t)).1.lastUpdateTime = self.lastUpdateTime ∧
          transmitted w (self.update (w.setClockMs t)).2 = false) := by
  have hm := millis_setClockMs w t hcpu ht
  obtain ⟨h1, h2⟩ := sendRcChannelsPacket_keeps self (w.setClockMs t)
  have hc : (w.setClockMs t).cpuFreqMHz = w.cpuFreqMHz := rfl
  have htr : (w.setClockMs t).trace = w.trace := rfl
  unfold CRSFModule.update
  simp only [hm]
  by_cases hg : (t + 2 ^ 32 - self.lastUpdateTime) % 2 ^ 32 ≥ 20
  · rw [if_pos hg, if_pos hg]
    refine ⟨h1.trans hc, rfl, ?_⟩
    rw [htr] at h2
    simp [transmitted, h2]
  · rw [if_neg hg, if_neg hg]
    exact ⟨hc, rfl, by simp [transmitted, htr]⟩

theorem txTimes_eq_gateTimes (ts : List Nat) (s : CRSFModule × World)
    (hcpu : 0 < s.2.cpuFreqMHz) (hts : ∀ t ∈ ts, t < 2 ^ 32) :
    txTimes ts s = gateTimes ts s.1.lastUpdateTime := by
  induction ts generalizing s with
  | nil => rfl
  | cons t ts ih =>
    have ht : t < 2 ^ 32 := hts t (by simp)
    have hts2 : ∀ x ∈ ts, x < 2 ^ 32 := fun x hx => hts x (by simp [hx])
    obtain ⟨h1, h2⟩ := update_at s.1 s.2 t hcpu ht
    rw [txTimes, gateTimes]
    have ih2 := ih (s.1.update (s.2.setClockMs t)) (by rw [h1]; exact hcpu) hts2
    by_cases hg : (t + 2 ^ 32 - s.1.lastUpdateTime) % 2 ^ 32 ≥ 20
    · rw [if_pos hg] at h2 ⊢
      rw [ih2, h2.1, h2.2]
      simp
    · rw [if_neg hg] at h2 ⊢
      rw [ih2, h2.1, h2.2]
      simp

theorem gateTimes_range_100 : gateTimes (List.range 100) 0 = [20, 40, 60, 80] := by
  rfl

/-! ### Corrupted and reordered buffers -/

theorem foldl_crcStep_set_ne (buf : List Nat) (i v : Nat) (hbuf : ∀ b ∈ buf, b < 256)
    (hi : i < buf.length) (hv : v < 256) (hne : v ≠ buf.getD i 0) :
    (buf.set i v).foldl crcStep 0 ≠ buf.foldl crcStep 0 := by
  have hset : buf.set i v = buf.take i ++ v :: buf.drop (i + 1) := by
    rw [List.set_eq_take_append_cons_drop, if_pos hi]
  have hsplit : buf = buf.take i ++ buf.getD i 0 :: buf.drop (i + 1) := by
    rw [List.getD_eq_getElem buf 0 hi, List.getElem_cons_drop, List.take_append_drop]
  have hx : buf.getD i 0 < 256 := by
    rw [List.getD_eq_getElem buf 0 hi]; exact hbuf _ (List.getElem_mem hi)
  have hpost : ∀ b ∈ buf.drop (i + 1), b < 256 := fun b hb => hbuf b (List.mem_of_mem_drop hb)
  intro heq
  rw [hset] at heq
  conv_rhs at heq => rw [hsplit]
  rw [List.foldl_append, List.foldl_append, List.foldl_cons, List.foldl_cons] at heq
  have hc := foldl_crcStep_lt (buf.take i) 0 (by omega)
  have h2 := foldl_crcStep_inj _ hpost (crcStep_lt _ _) (crcStep_lt _ _) heq
  exact hne (crcStep_inj_right hc hv hx h2)

theorem xor_swap_iff (x p q a b : Nat) :
    (x ^^^ p) ^^^ b = (x ^^^ q) ^^^ a ↔ p ^^^ q = a ^^^ b := by
  rw [← Nat.xor_eq_zero, ← Nat.xor_eq_zero (n := p ^^^ q)]
  have e : (x ^^^ p ^^^ b) ^^^ (x ^^^ q ^^^ a) = (p ^^^ q) ^^^ (a ^^^ b) := by
    simp only [Nat.xor_assoc, xor_left_comm x, Nat.xor_cancel_left]
    simp only [Nat.xor_comm, xor_left_comm]
  rw [e]

theorem foldl_crcStep_swap_iff (pre post : List Nat) (a b : Nat) (ha : a < 256) (hb : b < 256)
    (hpost : ∀ x ∈ post, x < 256) :
    (pre ++ b :: a :: post).foldl crcStep 0 = (pre ++ a :: b :: post).foldl crcStep 0 ↔
      (a = b ∨ a ^^^ b = 0xB3) := by
  rw [List.foldl_append, List.foldl_append, List.foldl_cons, List.foldl_cons, List.foldl_cons,
    List.foldl_cons]
  have hc := foldl_crcStep_lt pre 0 (by omega)
  generalize pre.foldl crcStep 0 = c at hc ⊢
  have hab : a ^^^ b < 256 := Nat.xor_lt_two_pow (n := 8) ha hb
  have key : crcStep (crcStep c b) a = crcStep (crcStep c a) b ↔ (a = b ∨ a ^^^ b = 0xB3) := by
    rw [crcStep_eq c b hc hb, crcStep_eq c a hc ha,
      crcStep_eq _ a (crcByte_lt _ (Nat.xor_lt_two_pow (n := 8) hc hb)) ha,
      crcStep_eq _ b (crcByte_lt _ (Nat.xor_lt_two_pow (n := 8) hc ha)) hb,
      crcByte_xor c b hc hb, crcByte_xor c a hc ha]
    have hl1 : (crcByte c ^^^ crcByte b) ^^^ a < 256 :=
      Nat.xor_lt_two_pow (n := 8)
        (Nat.xor_lt_two_pow (n := 8) (crcByte_lt c hc) (crcByte_lt b hb)) ha
    have hl2 : (crcByte c ^^^ crcByte a) ^^^ b < 256 :=
      Nat.xor_lt_two_pow (n := 8)
        (Nat.xor_lt_two_pow (n := 8) (crcByte_lt c hc) (crcByte_lt a ha)) hb
    have hfix := crcByte_fixed (a ^^^ b) hab
    rw [crcByte_xor a b ha hb] at hfix
    constructor
    · intro h
      have h2 := (crcByte_inj hl1 hl2 h).symm
      rw [xor_swap_iff] at h2
      rcases hfix.mp h2 with h0 | h0
      · exact Or.inl (Nat.xor_eq_zero.mp h0)
      · exact Or.inr h0
    · intro h
      have h2 : crcByte a ^^^ crcByte b = a ^^^ b := by
        apply hfix.mpr
        rcases h with h0 | h0
        · exact Or.inl (Nat.xor_eq_zero.mpr h0)
        · exact Or.inr h0
      have h3 := (xor_swap_iff (crcByte c) (crcByte a) (crcByte b) a b).mpr h2
      rw [h3]
  constructor
  · intro h
    exact key.mp (foldl_crcStep_inj post hpost (crcStep_lt _ _) (crcStep_lt _ _) h)
  · intro h
    rw [key.mpr h]

/-! ### The trace of the transmitter -/

theorem and_one_shiftLeft_ne_zero (d i : Nat) :
    decide (d &&& (1 <<< i) ≠ 0) = d.testBit i := by
  rw [Nat.one_shiftLeft]
  cases hb : d.testBit i
  · have hz : d &&& 2 ^ i = 0 := by
      apply Nat.eq_of_testBit_eq
      intro j
      rw [Nat.testBit_and, Nat.testBit_two_pow, Nat.zero_testBit]
      by_cases hij : i = j
      · subst hij; simp [hb]
      · simp [hij]
    simp [hz]
  · have hne : d &&& 2 ^ i ≠ 0 := by
      intro hz
      have h := Nat.testBit_and d (2 ^ i) i
      rw [hz, Nat.zero_testBit, hb, Nat.testBit_two_pow_self] at h
      simp at h
    simp [hne]

theorem emit_stack (w : World) (e : Event) : (w.emit e).stack = w.stack := rfl

theorem busyWaitUntil_stack (w : World) (target : Nat) :
    (w.busyWaitUntil target).stack = w.stack := by
  unfold World.busyWaitUntil; split <;> rfl

theorem uartSendBit_stack (b : Bool) (w : World) : (uartSendBit b w).stack = w.stack := by
  simp [uartSendBit, busyWaitUntil_stack, emit_stack]

theorem foldl_trace {α : Type} (f : World → α → World) (g : α → List Event)
    (hf : ∀ w x, (f w x).trace = w.trace ++ g x) (l : List α) (w : World) :
    (l.foldl f w).trace = w.trace ++ l.flatMap g := by
  induction l generalizing w with
  | nil => simp
  | cons x xs ih => rw [List.foldl_cons, ih, hf, List.flatMap_cons, List.append_assoc]

theorem foldl_stack {α : Type} (f : World → α → World)
    (hf : ∀ w x, (f w x).stack = w.stack) (l : List α) (w : World) :
    (l.foldl f w).stack = w.stack := by
  induction l generalizing w with
  | nil => rfl
  | cons x xs ih => rw [List.foldl_cons, ih, hf]

theorem flatMap_singleton_map {α : Type} (l : List α) (g : α → Event) :
    l.flatMap (fun x => [g x]) = l.map g := by
  induction l with
  | nil => rfl
  | cons x xs ih => rw [List.flatMap_cons, ih]; rfl

/-- One call of `softUartSendByte` appends exactly the framing of the byte. -/
theorem softUartSendByte_trace (data : Nat) (w : World) :
    (softUartSendByte data w).trace = w.trace ++ byteEvents data := by
  have hf := foldl_trace (fun w i => uartSendBit (decide (data &&& (1 <<< i) ≠ 0)) w)
    (fun i => [Event.digitalWrite CRSF_TX_PIN (!data.testBit i)])
    (fun w i => by rw [uartSendBit_trace, and_one_shiftLeft_ne_zero])
    (List.range 8) (uartSendBit false (w.emit Event.noInterrupts))
  rw [flatMap_singleton_map] at hf
  unfold softUartSendByte
  simp only [emit_trace, busyWaitUntil_trace, uartSendBit_trace]
  rw [hf, uartSendBit_trace, emit_trace]
  simp [byteEvents]

theorem softUartSendByte_stack (data : Nat) (w : World) :
    (softUartSendByte data w).stack = w.stack := by
  have hf := foldl_stack (fun w i => uartSendBit (decide (data &&& (1 <<< i) ≠ 0)) w)
    (fun w i => uartSendBit_stack _ w) (List.range 8)
    (uartSendBit false (w.emit Event.noInterrupts))
  unfold softUartSendByte
  simp only [emit_stack, busyWaitUntil_stack, uartSendBit_stack]
  rw [hf, uartSendBit_stack, emit_stack]

/-- One call of `softUartSendBytes(data, len)` appends the debug LED switch,
the framings of `data[0..len-1]` in order, and the return to idle. -/
theorem softUartSendBytes_trace (data : List Nat) (len : Nat) (w : World) :
    (softUartSendBytes data len w).trace =
      w.trace ++ bufferEvents ((List.range len).map (fun i => data.getD i 0)) := by
  have hf := foldl_trace (fun w i => softUartSendByte (data.getD i 0) w)
    (fun i => byteEvents (data.getD i 0))
    (fun w i => softUartSendByte_trace _ w) (List.range len)
    (w.emit (Event.digitalWrite DEBUG_LED_PIN true))
  unfold softUartSendBytes
  simp only [emit_trace]
  rw [hf, emit_trace]
  simp [bufferEvents, List.flatMap_map]

theorem softUartSendBytes_trace_full (data : List Nat) (w : World) :
    (softUartSendBytes data data.length w).trace = w.trace ++ bufferEvents data := by
  rw [softUartSendBytes_trace, map_getD_range]

theorem softUartSendBytes_stack (data : List Nat) (len : Nat) (w : World) :
    (softUartSendBytes data len w).stack = w.stack := by
  have hf := foldl_stack (fun w i => softUartSendByte (data.getD i 0) w)
    (fun w i => softUartSendByte_stack _ w) (List.range len)
    (w.emit (Event.digitalWrite DEBUG_LED_PIN true))
  unfold softUartSendBytes
  simp only [emit_stack]
  rw [hf, emit_stack]

theorem sendSyncPreamble_trace (w : World) :
    (sendSyncPreamble w).trace =
      w.trace ++ bufferEvents preambleBytes ++ [Event.delayMicroseconds 100] := by
  have h := softUartSendBytes_trace_full preambleBytes w
  unfold sendSyncPreamble World.delayMicroseconds
  simp only [emit_trace]
  exact congrArg (fun t => t ++ [Event.delayMicroseconds 100]) h

theorem sendSyncPreamble_stack (w : World) : (sendSyncPreamble w).stack = w.stack := by
  have h := softUartSendBytes_stack [0xFF, 0x00, 0xFF, 0x00] 4 w
  unfold sendSyncPreamble World.delayMicroseconds
  simp only [emit_stack]
  exact h

theorem frameBytes_length (stack : Nat → Nat) (channels : List Nat) :
    (frameBytes stack channels).length = CRSF_FRAME_SIZE := by
  simp [frameBytes, readBytes]

/-- The trace of one call of `sendRcChannelsPacket`: preamble buffer, gap,
frame buffer, and the debug print when it is due. -/
theorem sendRcChannelsPacket_trace (self : CRSFModule) (w : World) :
    ∃ tail : List Event, (tail = [] ∨ tail = [Event.serialPrint]) ∧
      (self.debugMode = false → tail = []) ∧
      (self.sendRcChannelsPacket w).2.trace =
        w.trace ++ bufferEvents preambleBytes ++ [Event.delayMicroseconds 100] ++
          bufferEvents (frameBytes w.stack self.channelManager.getChannelData) ++ tail := by
  have h1 := sendSyncPreamble_trace w
  have h2 := sendSyncPreamble_stack w
  have h3 := softUartSendBytes_trace_full
    (frameBytes (sendSyncPreamble w).stack self.channelManager.getChannelData)
    (sendSyncPreamble w)
  rw [frameBytes_length, h1, h2] at h3
  unfold CRSFModule.sendRcChannelsPacket
  simp only
  rw [h2]
  generalize softUartSendBytes (frameBytes w.stack self.channelManager.getChannelData)
    CRSF_FRAME_SIZE (sendSyncPreamble w) = x at h3 ⊢
  by_cases hd : self.debugMode = true
  · rw [if_pos hd]
    by_cases hp : (x.millis + 2 ^ 32 - self.lastDebugPrint) % 2 ^ 32 > 500
    · rw [if_pos hp]
      have hfalse : self.debugMode = false → [Event.serialPrint] = ([] : List Event) := by
        intro h; rw [h] at hd; cases hd
      refine ⟨[Event.serialPrint], Or.inr rfl, hfalse, ?_⟩
      dsimp only
      rw [emit_trace, h3]
    · rw [if_neg hp]
      refine ⟨[], Or.inl rfl, fun _ => rfl, ?_⟩
      dsimp only
      rw [h3, List.append_nil]
  · rw [if_neg hd]
    refine ⟨[], Or.inl rfl, fun _ => rfl, ?_⟩
    dsimp only
    rw [h3, List.append_nil]

/-! ### Line levels, decoded bytes and interrupt masking of a trace -/

theorem byteEvents_eq (b : Nat) :
    byteEvents b =
      [Event.noInterrupts, Event.digitalWrite CRSF_TX_PIN true,
        Event.digitalWrite CRSF_TX_PIN (!b.testBit 0),
        Event.digitalWrite CRSF_TX_PIN (!b.testBit 1),
        Event.digitalWrite CRSF_TX_PIN (!b.testBit 2),
        Event.digitalWrite CRSF_TX_PIN (!b.testBit 3),
        Event.digitalWrite CRSF_TX_PIN (!b.testBit 4),
        Event.digitalWrite CRSF_TX_PIN (!b.testBit 5),
        Event.digitalWrite CRSF_TX_PIN (!b.testBit 6),
        Event.digitalWrite CRSF_TX_PIN (!b.testBit 7),
        Event.digitalWrite CRSF_TX_PIN false, Event.interrupts] := rfl

theorem lineLevels_append (a b : List Event) :
    lineLevels (a ++ b) = lineLevels a ++ lineLevels b := by
  simp [lineLevels]

theorem lineLevels_byteEvents (b : Nat) :
    lineLevels (byteEvents b) =
      [true, !b.testBit 0, !b.testBit 1, !b.testBit 2, !b.testBit 3, !b.testBit 4,
        !b.testBit 5, !b.testBit 6, !b.testBit 7, false] := by
  rw [byteEvents_eq]
  simp [lineLevels, txLevel, List.filterMap_cons]

theorem lineLevels_bufferEvents (data : List Nat) :
    lineLevels (bufferEvents data) = lineLevels (data.flatMap byteEvents) ++ [false] := by
  unfold bufferEvents
  rw [lineLevels_append, lineLevels_append]
  simp [lineLevels, txLevel, List.filterMap_cons, DEBUG_LED_PIN, CRSF_TX_PIN]

theorem lineLevel_append_bufferEvents (t : List Event) (data : List Nat) :
    lineLevel (t ++ bufferEvents data) = some false := by
  unfold lineLevel
  rw [lineLevels_append, lineLevels_bufferEvents, ← List.append_assoc, List.getLast?_concat]

theorem lineLevel_append_serialPrint (t : List Event) :
    lineLevel (t ++ [Event.serialPrint]) = lineLevel t := by
  unfold lineLevel
  rw [lineLevels_append]
  simp [lineLevels, txLevel]

theorem decodeByte_levels : ∀ b < 256,
    decodeByte [true, !b.testBit 0, !b.testBit 1, !b.testBit 2, !b.testBit 3, !b.testBit 4,
      !b.testBit 5, !b.testBit 6, !b.testBit 7, false] = b := by
  decide

theorem sentBytes_cons_noInterrupts (rest : List Event) :
    sentBytes (Event.noInterrupts :: rest) =
      decodeByte (lineLevels (rest.take 10)) :: sentBytes rest := by
  rw [sentBytes]

theorem sentBytes_cons_digitalWrite (pin : Nat) (level : Bool) (rest : List Event) :
    sentBytes (Event.digitalWrite pin level :: rest) = sentBytes rest := by
  rw [sentBytes]
  intro h; cases h

theorem sentBytes_cons_interrupts (rest : List Event) :
    sentBytes (Event.interrupts :: rest) = sentBytes rest := by
  rw [sentBytes]
  intro h; cases h

theorem sentBytes_cons_delay (us : Nat) (rest : List Event) :
    sentBytes (Event.delayMicroseconds us :: rest) = sentBytes rest := by
  rw [sentBytes]
  intro h; cases h

theorem sentBytes_cons_serialPrint (rest : List Event) :
    sentBytes (Event.serialPrint :: rest) = sentBytes rest := by
  rw [sentBytes]
  intro h; cases h

theorem take_ten_cons (a0 a1 a2 a3 a4 a5 a6 a7 a8 a9 : Event) (l : List Event) :
    (a0 :: a1 :: a2 :: a3 :: a4 :: a5 :: a6 :: a7 :: a8 :: a9 :: l).take 10 =
      [a0, a1, a2, a3, a4, a5, a6, a7, a8, a9] := rfl

theorem sentBytes_byteEvents (b : Nat) (hb : b < 256) (rest : List Event) :
    sentBytes (byteEvents b ++ rest) = b :: sentBytes rest := by
  have hd := decodeByte_levels b hb
  have hl2 : lineLevels [Event.digitalWrite CRSF_TX_PIN true,
      Event.digitalWrite CRSF_TX_PIN (!b.testBit 0),
      Event.digitalWrite CRSF_TX_PIN (!b.testBit 1),
      Event.digitalWrite CRSF_TX_PIN (!b.testBit 2),
      Event.digitalWrite CRSF_TX_PIN (!b.testBit 3),
      Event.digitalWrite CRSF_TX_PIN (!b.testBit 4),
      Event.digitalWrite CRSF_TX_PIN (!b.testBit 5),
      Event.digitalWrite CRSF_TX_PIN (!b.testBit 6),
      Event.digitalWrite CRSF_TX_PIN (!b.testBit 7),
      Event.digitalWrite CRSF_TX_PIN false] =
      [true, !b.testBit 0, !b.testBit 1, !b.testBit 2, !b.testBit 3, !b.testBit 4,
        !b.testBit 5, !b.testBit 6, !b.testBit 7, false] := by
    simp [lineLevels, txLevel, List.filterMap_cons]
  rw [byteEvents_eq]
  simp only [List.cons_append, List.nil_append]
  rw [sentBytes_cons_noInterrupts, take_ten_cons, hl2, hd]
  simp only [sentBytes_cons_digitalWrite, sentBytes_cons_interrupts]

theorem sentBytes_flatMap (data : List Nat) (hdata : ∀ b ∈ data, b < 256) (rest : List Event) :
    sentBytes (data.flatMap byteEvents ++ rest) = data ++ sentBytes rest := by
  induction data with
  | nil => rfl
  | cons b bs ih =>
    have hb : b < 256 := hdata b (by simp)
    have hbs : ∀ x ∈ bs, x < 256 := fun x hx => hdata x (by simp [hx])
    rw [List.flatMap_cons, List.append_assoc, sentBytes_byteEvents b hb, ih hbs]
    rfl

theorem sentBytes_bufferEvents (data : List Nat) (hdata : ∀ b ∈ data, b < 256)
    (rest : List Event) :
    sentBytes (bufferEvents data ++ rest) = data ++ sentBytes rest := by
  unfold bufferEvents
  simp only [List.append_assoc, List.cons_append, List.nil_append]
  rw [sentBytes_cons_digitalWrite, sentBytes_flatMap data hdata, sentBytes_cons_digitalWrite,
    sentBytes_cons_digitalWrite]

theorem replayMasked_byteEvents (b : Nat) : replayMasked true (byteEvents b) = some true := by
  rw [byteEvents_eq]
  simp [replayMasked]

theorem frameBytes_lt (stack : Nat → Nat) (channels : List Nat) :
    ∀ b ∈ frameBytes stack channels, b < 256 := by
  intro b hb
  rw [rcChannelsFrame_bytes stack stack 3 channels] at hb
  simp only [List.mem_cons, List.mem_append, List.mem_singleton, List.not_mem_nil,
    or_false] at hb
  rcases hb with h | h | h | h | h
  · rw [h]; decide
  · rw [h]; decide
  · rw [h]; decide
  · exact packedPayload_lt stack 3 channels b h
  · rw [h]; exact crcCRSF_lt _ _

/-! ### The rate gate in general -/

theorem update_gated (self : CRSFModule) (w : World)
    (h : ¬ 20 ≤ (w.millis + 2 ^ 32 - self.lastUpdateTime) % 2 ^ 32) :
    self.update w = (self, w) := by
  unfold CRSFModule.update
  simp only
  rw [if_neg h]

theorem update_due (self : CRSFModule) (w : World)
    (h : 20 ≤ (w.millis + 2 ^ 32 - self.lastUpdateTime) % 2 ^ 32) :
    self.update w =
      ({ (self.sendRcChannelsPacket w).1 with lastUpdateTime := w.millis },
        (self.sendRcChannelsPacket w).2) := by
  unfold CRSFModule.update
  simp only
  rw [if_pos h]

theorem transmitted_update_iff (self : CRSFModule) (w : World) :
    transmitted w (self.update w).2 = true ↔
      20 ≤ (w.millis + 2 ^ 32 - self.lastUpdateTime) % 2 ^ 32 := by
  by_cases h : 20 ≤ (w.millis + 2 ^ 32 - self.lastUpdateTime) % 2 ^ 32
  · rw [update_due self w h]
    have h2 := (sendRcChannelsPacket_keeps self w).2
    generalize (self.sendRcChannelsPacket w) = r at h2 ⊢
    refine iff_of_true ?_ h
    simp [transmitted, h2]
  · rw [update_gated self w h]
    refine iff_of_false ?_ h
    simp [transmitted]

theorem millis_lt (w : World) : w.millis < 2 ^ 32 := by
  unfold World.millis
  exact Nat.mod_lt _ (by positivity)

theorem elapsed_eq_sub (now last : Nat) (h1 : last ≤ now) (h2 : now < 2 ^ 32) :
    (now + 2 ^ 32 - last) % 2 ^ 32 = now - last := by
  have e : now + 2 ^ 32 - last = (now - last) + 2 ^ 32 := by omega
  rw [e, Nat.add_mod_right, Nat.mod_eq_of_lt (by omega)]

theorem gateTimes_sublist (ts : List Nat) (last : Nat) : List.Sublist (gateTimes ts last) ts := by
  induction ts generalizing last with
  | nil => exact List.Sublist.slnil
  | cons t ts ih =>
    rw [gateTimes]
    split
    · exact List.Sublist.cons₂ t (ih t)
    · exact List.Sublist.cons t (ih last)

theorem gateTimes_spaced (ts : List Nat) (last : Nat) (hsorted : ts.Pairwise (fun a b => a ≤ b))
    (hlast : ∀ t ∈ ts, last ≤ t) (hts : ∀ t ∈ ts, t < 2 ^ 32) :
    (∀ y ∈ gateTimes ts last, last + 20 ≤ y) ∧
      List.Pairwise (fun a b => a + 20 ≤ b) (gateTimes ts last) := by
  induction ts generalizing last with
  | nil => exact ⟨fun y hy => (by cases hy), List.Pairwise.nil⟩
  | cons t ts ih =>
    have hlt : last ≤ t := hlast t (by simp)
    have ht : t < 2 ^ 32 := hts t (by simp)
    have hts2 : ∀ x ∈ ts, x < 2 ^ 32 := fun x hx => hts x (by simp [hx])
    obtain ⟨hhead, htail⟩ := List.pairwise_cons.mp hsorted
    rw [gateTimes, elapsed_eq_sub t last hlt ht]
    by_cases hg : t - last ≥ 20
    · rw [if_pos hg]
      obtain ⟨h1, h2⟩ := ih t htail hhead hts2
      constructor
      · intro y hy
        rcases List.mem_cons.mp hy with rfl | hy2
        · omega
        · have := h1 y hy2
          omega
      · exact List.pairwise_cons.mpr ⟨h1, h2⟩
    · rw [if_neg hg]
      exact ih last htail (fun x hx => hlast x (by simp [hx])) hts2

theorem delayMicroseconds_cycles (w : World) (us : Nat) :
    (w.delayMicroseconds us).cycles = w.cycles + us * w.cpuFreqMHz := rfl

theorem sendSyncPreamble_cycles (w : World) :
    (sendSyncPreamble w).cycles =
      (softUartSendBytes [0xFF, 0x00, 0xFF, 0x00] 4 w).cycles +
        100 * (softUartSendBytes [0xFF, 0x00, 0xFF, 0x00] 4 w).cpuFreqMHz := by
  unfold sendSyncPreamble
  simp only
  rw [delayMicroseconds_cycles]

/-! ### Channel values stay in range -/

theorem channel_value_mid : CHANNEL_VALUE_MID = 991 := by decide

theorem foldl_set_const (v : Nat) (n : Nat) (l : List Nat) :
    ((List.range n).foldl (fun cs i => cs.set i v) l).length = l.length ∧
      ∀ i, ((List.range n).foldl (fun cs i => cs.set i v) l).getD i 0 =
        if i < n ∧ i < l.length then v else l.getD i 0 := by
  induction n with
  | zero => simp
  | succ n ih =>
    obtain ⟨h1, h2⟩ := ih
    rw [List.range_succ, List.foldl_append, List.foldl_cons, List.foldl_nil]
    refine ⟨by rw [List.length_set, h1], fun i => ?_⟩
    rw [List.getD_eq_getElem?_getD, List.getElem?_set]
    by_cases hin : n = i
    · subst hin
      rw [if_pos rfl, h1]
      by_cases hl : n < l.length
      · simp [hl]
      · have hd : l[n]?.getD 0 = 0 := by
          rw [← List.getD_eq_getElem?_getD]
          exact List.getD_eq_default l 0 (by omega)
        simp [hl, hd]
    · rw [if_neg hin, ← List.getD_eq_getElem?_getD, h2 i]
      by_cases hl : i < l.length
      · by_cases hi : i < n
        · have : i < n + 1 := by omega
          simp [hl, hi, this]
        · have : ¬ i < n + 1 := by omega
          simp [hi, this]
      · simp [hl]

theorem resetChannels_eq (cm : ChannelManager) :
    cm.resetChannels.channels =
      (List.range 16).foldl (fun cs i => cs.set i 991) cm.channels := by
  have hv : CHANNEL_VALUE_MID % 65536 = 991 := by decide
  have hn : NUM_CHANNELS = 16 := by decide
  unfold ChannelManager.resetChannels
  simp only
  rw [hv, hn]

theorem resetChannels_channels (cm : ChannelManager) (hlen : cm.channels.length = NUM_CHANNELS) :
    cm.resetChannels.channels = List.replicate 16 991 := by
  have hlen2 : cm.channels.length = 16 := hlen
  rw [resetChannels_eq]
  generalize cm.channels = l at hlen2
  obtain ⟨h1, h2⟩ := foldl_set_const 991 16 l
  apply List.ext_getElem
  · rw [h1, hlen2]; simp
  · intro i hi1 hi2
    have hi : i < 16 := by rw [h1, hlen2] at hi1; exact hi1
    have hg := h2 i
    rw [if_pos ⟨hi, by omega⟩, List.getD_eq_getElem _ 0 hi1] at hg
    rw [hg, List.getElem_replicate]

theorem new_channels (raw : ChannelManager) (hlen : raw.channels.length = NUM_CHANNELS) :
    (ChannelManager.new raw).channels = List.replicate 16 991 := by
  have h := resetChannels_channels raw hlen
  unfold ChannelManager.new
  simp only
  exact h

theorem inRange_of_replicate (cm : ChannelManager) (h : cm.channels = List.replicate 16 991) :
    cm.InRange := by
  unfold ChannelManager.InRange
  rw [h]
  refine ⟨by simp [NUM_CHANNELS], fun v hv => ?_⟩
  rw [List.eq_of_mem_replicate hv]
  decide

theorem setChannel_inRange (cm : ChannelManager) (hcm : cm.InRange) (c v : Nat)
    (hv : 172 ≤ v ∧ v ≤ 1811) : (cm.setChannel c v).InRange := by
  unfold ChannelManager.setChannel
  split
  · obtain ⟨h1, h2⟩ := hcm
    refine ⟨by simpa using h1, fun x hx => ?_⟩
    rcases List.mem_or_eq_of_mem_set hx with h | h
    · exact h2 x h
    · have e : v % 65536 = v := Nat.mod_eq_of_lt (by omega)
      rw [h, e]
      simpa [CHANNEL_VALUE_MIN, CHANNEL_VALUE_MAX] using hv
  · exact hcm

theorem mapValueClamped_range (value from_min from_max to_min to_max : Int)
    (h : to_min ≤ to_max) :
    to_min ≤ mapValueClamped value from_min from_max to_min to_max ∧
      mapValueClamped value from_min from_max to_min to_max ≤ to_max := by
  simp only [mapValueClamped]
  split_ifs <;> omega

theorem toUint16_range (v : Int) (h1 : 172 ≤ v) (h2 : v ≤ 1811) :
    172 ≤ toUint16 v ∧ toUint16 v ≤ 1811 := by
  unfold toUint16
  omega

theorem stick_value_range (v a b : Int) :
    172 ≤ toUint16 (mapValueClamped v a b CHANNEL_VALUE_MIN CHANNEL_VALUE_MAX) ∧
      toUint16 (mapValueClamped v a b CHANNEL_VALUE_MIN CHANNEL_VALUE_MAX) ≤ 1811 := by
  have e1 : ((CHANNEL_VALUE_MIN : Nat) : Int) = 172 := rfl
  have e2 : ((CHANNEL_VALUE_MAX : Nat) : Int) = 1811 := rfl
  rw [e1, e2]
  obtain ⟨h1, h2⟩ := mapValueClamped_range v a b 172 1811 (by omega)
  exact toUint16_range _ h1 h2

theorem getValue_range (b : ButtonStateManager) (hb : b.Valid) :
    172 ≤ b.getValue ∧ b.getValue ≤ 1811 := by
  obtain ⟨h2, h0, hlt⟩ := hb
  have e1 : ((CHANNEL_VALUE_MIN : Nat) : Int) = 172 := rfl
  have e2 : ((CHANNEL_VALUE_MAX : Nat) : Int) = 1811 := rfl
  have e3 : ((CHANNEL_VALUE_MID : Nat) : Int) = 991 := rfl
  unfold ButtonStateManager.getValue
  rw [e1, e2, e3]
  split_ifs
  all_goals try omega
  have hpos : (0 : Int) < b.numStates - 1 := by omega
  have hnum : (0 : Int) ≤ (1811 - 172) * b.currentState := by
    have : (0 : Int) ≤ 1811 - 172 := by omega
    exact Int.mul_nonneg this h0
  rw [Int.tdiv_eq_ediv hnum (by omega)]
  have hlo : 0 ≤ ((1811 - 172) * b.currentState) / (b.numStates - 1) :=
    Int.ediv_nonneg hnum (by omega)
  have hhi : ((1811 - 172) * b.currentState) / (b.numStates - 1) ≤ 1639 := by
    apply Int.ediv_le_of_le_mul hpos
    have : b.currentState ≤ b.numStates - 1 := by omega
    nlinarith
  omega

theorem button_value_range (b : ButtonStateManager) (hb : b.Valid) :
    172 ≤ toUint16 b.getValue ∧ toUint16 b.getValue ≤ 1811 := by
  obtain ⟨h1, h2⟩ := getValue_range b hb
  exact toUint16_range _ h1 h2

theorem setNumStates_valid (b : ButtonStateManager) (n : Int) : (b.setNumStates n).Valid := by
  unfold ButtonStateManager.setNumStates ButtonStateManager.Valid
  simp only
  split_ifs <;> omega

theorem new_valid (n : Int) : (ButtonStateManager.new n).Valid :=
  setNumStates_valid _ n

theorem reset_valid (b : ButtonStateManager) (hb : b.Valid) : b.reset.Valid := by
  obtain ⟨h2, _, _⟩ := hb
  unfold ButtonStateManager.reset ButtonStateManager.Valid
  simp only
  omega

theorem update_valid (b : ButtonStateManager) (hb : b.Valid) (p : Bool) (t : Nat) :
    (b.update p t).Valid := by
  obtain ⟨h2, h0, hlt⟩ := hb
  have hm1 : 0 ≤ (b.currentState + 1).tmod b.numStates := by
    rw [Int.tmod_eq_emod (by omega) (by omega)]
    exact Int.emod_nonneg _ (by omega)
  have hm2 : (b.currentState + 1).tmod b.numStates < b.numStates := by
    rw [Int.tmod_eq_emod (by omega) (by omega)]
    exact Int.emod_lt_of_pos _ (by omega)
  unfold ButtonStateManager.update ButtonStateManager.Valid
  simp only
  split_ifs <;> first | omega | (simp only; omega)

theorem controller_new_valid (c : Bool) : (PS5Controller.new c).Valid := by
  unfold PS5Controller.new PS5Controller.Valid
  simp only
  exact ⟨new_valid _, new_valid _, new_valid _, new_valid _, new_valid _, new_valid _,
    new_valid _, new_valid _, new_valid _, new_valid _, new_valid _, new_valid _⟩

theorem resetAllButtons_valid (c : PS5Controller) (hc : c.Valid) : c.resetAllButtons.Valid := by
  obtain ⟨h1, h2, h3, h4, h5, h6, h7, h8, h9, h10, h11, h12⟩ := hc
  unfold PS5Controller.resetAllButtons PS5Controller.Valid
  simp only
  exact ⟨reset_valid _ h1, reset_valid _ h2, reset_valid _ h3, reset_valid _ h4,
    reset_valid _ h5, reset_valid _ h6, reset_valid _ h7, reset_valid _ h8, reset_valid _ h9,
    reset_valid _ h10, reset_valid _ h11, reset_valid _ h12⟩

theorem mapControllerToChannels_inRange (c : PS5Controller) (hc : c.Valid)
    (cm : ChannelManager) (hcm : cm.InRange) : (c.mapControllerToChannels cm).InRange := by
  obtain ⟨h1, h2, h3, h4, h5, h6, h7, h8, h9, h10, _, _⟩ := hc
  unfold PS5Controller.mapControllerToChannels
  simp only
  refine setChannel_inRange _ ?_ 15 _ (button_value_range _ h10)
  refine setChannel_inRange _ ?_ 14 _ (button_value_range _ h9)
  refine setChannel_inRange _ ?_ 13 _ (button_value_range _ h8)
  refine setChannel_inRange _ ?_ 12 _ (button_value_range _ h7)
  refine setChannel_inRange _ ?_ 11 _ (button_value_range _ h6)
  refine setChannel_inRange _ ?_ 10 _ (button_value_range _ h5)
  refine setChannel_inRange _ ?_ 9 _ (button_value_range _ h4)
  refine setChannel_inRange _ ?_ 8 _ (button_value_range _ h3)
  refine setChannel_inRange _ ?_ 7 _ (stick_value_range _ _ _)
  refine setChannel_inRange _ ?_ 6 _ (stick_value_range _ _ _)
  refine setChannel_inRange _ ?_ 5 _ (button_value_range _ h2)
  refine setChannel_inRange _ ?_ 4 _ (button_value_range _ h1)
  refine setChannel_inRange _ ?_ 3 _ (stick_value_range _ _ _)
  refine setChannel_inRange _ ?_ 2 _ (stick_value_range _ _ _)
  refine setChannel_inRange _ ?_ 1 _ (stick_value_range _ _ _)
  exact setChannel_inRange _ hcm 0 _ (stick_value_range _ _ _)

theorem readInputs_valid (c : PS5Controller) (hc : c.Valid) (inp : PS5Input) :
    (c.readInputs inp).Valid := by
  obtain ⟨h1, h2, h3, h4, h5, h6, h7, h8, h9, h10, h11, h12⟩ := hc
  exact ⟨update_valid _ h1 _ _, update_valid _ h2 _ _, update_valid _ h3 _ _,
    update_valid _ h4 _ _, update_valid _ h5 _ _, update_valid _ h6 _ _,
    update_valid _ h7 _ _, update_valid _ h8 _ _, update_valid _ h9 _ _,
    update_valid _ h10 _ _, update_valid _ h11 _ _, update_valid _ h12 _ _⟩

theorem connected_valid (c : PS5Controller) (hc : c.Valid) (b : Bool) :
    PS5Controller.Valid { c with connected := b } := hc

theorem noteConnection_valid (c : PS5Controller) (hc : c.Valid) (b : Bool) :
    (c.noteConnection b).Valid := by
  have hk := connected_valid c hc b
  have hr := resetAllButtons_valid _ hk
  unfold PS5Controller.noteConnection
  simp only
  split_ifs
  · exact hk
  · exact hr
  · exact hk

theorem controller_update_preserves (c : PS5Controller) (cm : ChannelManager)
    (inp : PS5Input) (hc : c.Valid) (hcm : cm.InRange) :
    (c.update cm inp).1.Valid ∧ (c.update cm inp).2.InRange := by
  have hd := noteConnection_valid c hc inp.isConnected
  unfold PS5Controller.update
  simp only
  generalize c.noteConnection inp.isConnected = d at hd ⊢
  by_cases hconn : d.connected = true
  · rw [if_pos hconn]
    exact ⟨readInputs_valid d hd inp,
      mapControllerToChannels_inRange _ (readInputs_valid d hd inp) cm hcm⟩
  · rw [if_neg hconn]
    exact ⟨hd, hcm⟩

theorem runController_preserves (inputs : List PS5Input) (s : PS5Controller × ChannelManager)
    (hc : s.1.Valid) (hcm : s.2.InRange) :
    (runController inputs s).1.Valid ∧ (runController inputs s).2.InRange := by
  unfold runController
  induction inputs generalizing s with
  | nil => exact ⟨hc, hcm⟩
  | cons inp rest ih =>
    rw [List.foldl_cons]
    obtain ⟨h1, h2⟩ := controller_update_preserves s.1 s.2 inp hc hcm
    exact ih _ h1 h2

theorem and_mask_of_le (v : Nat) (h : v ≤ 1811) : v &&& 0x7FF = v := by
  have h2 : v < 2 ^ 11 := by omega
  exact Nat.and_pow_two_sub_one_of_lt_two_pow h2

/-! ### Cycle counts of the transmitter -/

theorem emit_cycles (w : World) (e : Event) : (w.emit e).cycles = w.cycles := rfl

theorem bit_time_us : BIT_TIME_US = 2 := by decide

/-- The wait of `uartSendBit` in closed form: the full bit time when
`start + delta` stays below `2 ^ 32`, nothing when the sum wraps. -/
theorem uartSendBit_cycles (b : Bool) (w : World) :
    (uartSendBit b w).cycles =
      if w.cycles % 2 ^ 32 + (BIT_TIME_US * w.cpuFreqMHz) % 2 ^ 32 < 2 ^ 32 then
        w.cycles + (BIT_TIME_US * w.cpuFreqMHz) % 2 ^ 32
      else w.cycles := by
  unfold uartSendBit World.busyWaitUntil World.getCycleCount
  simp only [emit_cycles, emit_cpu]
  have hs : w.cycles % 2 ^ 32 < 2 ^ 32 := Nat.mod_lt _ (by positivity)
  have hd : (BIT_TIME_US * w.cpuFreqMHz) % 2 ^ 32 < 2 ^ 32 := Nat.mod_lt _ (by positivity)
  generalize w.cycles % 2 ^ 32 = s at hs ⊢
  generalize (BIT_TIME_US * w.cpuFreqMHz) % 2 ^ 32 = d at hd ⊢
  by_cases h : s + d < 2 ^ 32
  · rw [if_pos h, Nat.mod_eq_of_lt h]
    by_cases h0 : s < s + d
    · rw [if_pos h0]
      show w.cycles + (s + d - s) = _
      rw [Nat.add_sub_cancel_left]
    · rw [if_neg h0]
      have : d = 0 := by omega
      subst this
      rfl
  · rw [if_neg h]
    have e : (s + d) % 2 ^ 32 = s + d - 2 ^ 32 := by
      rw [Nat.mod_eq_sub_mod (by omega), Nat.mod_eq_of_lt (by omega)]
    rw [e, if_neg (by omega)]
    rfl

theorem uartSendBit_cycles_nowrap (b : Bool) (w : World)
    (h : w.cycles + 2 * w.cpuFreqMHz < 2 ^ 32) :
    (uartSendBit b w).cycles = w.cycles + 2 * w.cpuFreqMHz := by
  rw [uartSendBit_cycles, bit_time_us]
  have h1 : w.cycles % 2 ^ 32 = w.cycles := Nat.mod_eq_of_lt (by omega)
  have h2 : (2 * w.cpuFreqMHz) % 2 ^ 32 = 2 * w.cpuFreqMHz := Nat.mod_eq_of_lt (by omega)
  rw [h1, h2, if_pos h]

theorem foldl_cycles {α : Type} (f : World → α → World) (k : Nat)
    (hcpu : ∀ w x, (f w x).cpuFreqMHz = w.cpuFreqMHz)
    (hf : ∀ w x, w.cycles + k * w.cpuFreqMHz < 2 ^ 32 →
      (f w x).cycles = w.cycles + k * w.cpuFreqMHz) (l : List α) (w : World)
    (h : w.cycles + l.length * (k * w.cpuFreqMHz) < 2 ^ 32) :
    (l.foldl f w).cycles = w.cycles + l.length * (k * w.cpuFreqMHz) ∧
      (l.foldl f w).cpuFreqMHz = w.cpuFreqMHz := by
  induction l generalizing w with
  | nil => simp
  | cons x xs ih =>
    rw [List.length_cons, Nat.succ_mul] at h
    have h1 := hf w x (by omega)
    have h2 := hcpu w x
    rw [List.foldl_cons]
    obtain ⟨h3, h4⟩ := ih (f w x) (by rw [h1, h2]; omega)
    rw [h3, h4, h1, h2, List.length_cons, Nat.succ_mul]
    exact ⟨by omega, rfl⟩

/-- A byte sent while the cycle counter stays below `2 ^ 32` takes ten bit
times and the spacing wait: `21 * cpuFreqMHz` cycles. -/
theorem softUartSendByte_cycles (data : Nat) (w : World)
    (h : w.cycles + 21 * w.cpuFreqMHz < 2 ^ 32) :
    (softUartSendByte data w).cycles = w.cycles + 21 * w.cpuFreqMHz := by
  have h0 : (uartSendBit false (w.emit Event.noInterrupts)).cycles = w.cycles + 2 * w.cpuFreqMHz :=
    uartSendBit_cycles_nowrap _ _ (by rw [emit_cycles, emit_cpu]; omega)
  have c0 : (uartSendBit false (w.emit Event.noInterrupts)).cpuFreqMHz = w.cpuFreqMHz := by
    rw [uartSendBit_cpu, emit_cpu]
  obtain ⟨h1, c1⟩ := foldl_cycles (fun w i => uartSendBit (decide (data &&& (1 <<< i) ≠ 0)) w) 2
    (fun w i => uartSendBit_cpu _ w) (fun w i hw => uartSendBit_cycles_nowrap _ w hw)
    (List.range 8) (uartSendBit false (w.emit Event.noInterrupts))
    (by rw [h0, c0, List.length_range]; omega)
  rw [h0, c0, List.length_range] at h1
  rw [c0] at c1
  unfold softUartSendByte
  simp only [emit_cycles]
  generalize (List.range 8).foldl (fun w i => uartSendBit (decide (data &&& (1 <<< i) ≠ 0)) w)
    (uartSendBit false (w.emit Event.noInterrupts)) = w8 at h1 c1 ⊢
  have h2 : (uartSendBit true w8).cycles = w8.cycles + 2 * w8.cpuFreqMHz :=
    uartSendBit_cycles_nowrap _ _ (by rw [h1, c1]; omega)
  have c2 : (uartSendBit true w8).cpuFreqMHz = w8.cpuFreqMHz := uartSendBit_cpu _ _
  generalize uartSendBit true w8 = w9 at h2 c2 ⊢
  unfold World.busyWaitUntil World.getCycleCount
  have hb : BIT_TIME_US / 2 = 1 := by decide
  rw [hb, Nat.one_mul]
  have e1 : w9.cycles % 2 ^ 32 = w9.cycles := Nat.mod_eq_of_lt (by omega)
  have e2 : w9.cpuFreqMHz % 2 ^ 32 = w9.cpuFreqMHz := Nat.mod_eq_of_lt (by omega)
  have e3 : (w9.cycles + w9.cpuFreqMHz) % 2 ^ 32 = w9.cycles + w9.cpuFreqMHz :=
    Nat.mod_eq_of_lt (by omega)
  rw [e1, e2, e3]
  by_cases hz : w9.cycles < w9.cycles + w9.cpuFreqMHz
  · rw [if_pos hz]
    show w9.cycles + (w9.cycles + w9.cpuFreqMHz - w9.cycles) = _
    omega
  · rw [if_neg hz]
    omega

theorem softUartSendBytes_cycles (data : List Nat) (len : Nat) (w : World)
    (h : w.cycles + len * (21 * w.cpuFreqMHz) < 2 ^ 32) :
    (softUartSendBytes data len w).cycles = w.cycles + len * (21 * w.cpuFreqMHz) := by
  obtain ⟨h1, _⟩ := foldl_cycles (fun w i => softUartSendByte (data.getD i 0) w) 21
    (fun w i => (softUartSendByte_keeps _ w).1) (fun w i hw => softUartSendByte_cycles _ w hw)
    (List.range len) (w.emit (Event.digitalWrite DEBUG_LED_PIN true))
    (by rw [emit_cycles, emit_cpu, List.length_range]; exact h)
  rw [emit_cycles, emit_cpu, List.length_range] at h1
  unfold softUartSendBytes
  simp only [emit_cycles]
  exact h1

/-- A frame sent while the cycle counter stays below `2 ^ 32` takes 30 byte
times and the 100 microsecond gap: `730 * cpuFreqMHz` cycles. -/
theorem sendRcChannelsPacket_cycles (self : CRSFModule) (w : World)
    (h : w.cycles + 730 * w.cpuFreqMHz < 2 ^ 32) :
    (self.sendRcChannelsPacket w).2.cycles = w.cycles + 730 * w.cpuFreqMHz := by
  have h1 := sendSyncPreamble_cycles w
  rw [softUartSendBytes_cycles _ 4 w (by omega), (softUartSendBytes_keeps _ 4 w).1] at h1
  have c1 := (sendSyncPreamble_keeps w).1
  have hsz : CRSF_FRAME_SIZE = 26 := rfl
  unfold CRSFModule.sendRcChannelsPacket
  simp only
  generalize sendSyncPreamble w = w1 at h1 c1 ⊢
  have h2 := softUartSendBytes_cycles
    (frameBytes w1.stack self.channelManager.getChannelData) CRSF_FRAME_SIZE w1
    (by rw [h1, c1, hsz]; omega)
  rw [h1, c1, hsz] at h2
  rw [hsz]
  generalize softUartSendBytes (frameBytes w1.stack self.channelManager.getChannelData) 26 w1
    = w2 at h2 ⊢
  split
  · split
    · show w2.cycles = _
      omega
    · show w2.cycles = _
      omega
  · show w2.cycles = _
    omega

/-! ### The checksum of a buffer followed by its checksum -/

theorem crcStep_self (c : Nat) : crcStep c c = 0 := by
  have h : crcByte 0 = 0 := by decide
  rw [crcStep, Nat.xor_self, Nat.zero_mod, h]

/-- The checksum of the first `buf.length` bytes does not read what follows them. -/
theorem crcCRSF_prefix (buf extra : List Nat) (hlen : buf.length ≤ 255) :
    crcCRSF (buf ++ extra) buf.length = buf.foldl crcStep 0 := by
  rw [← crcCRSF_eq_fold buf hlen]
  unfold crcCRSF
  apply List.foldl_ext
  intro crc i hi
  rw [List.mem_range] at hi
  have hi2 : i < buf.length := lt_of_lt_of_le hi (Nat.mod_le _ _)
  rw [List.getD_append _ _ _ _ hi2]

theorem foldl_crcStep_append_self (m : List Nat) :
    (m ++ [m.foldl crcStep 0]).foldl crcStep 0 = 0 := by
  rw [List.foldl_append, List.foldl_cons, List.foldl_nil, crcStep_self]

/-! ### Sequences of calls on a button -/

theorem call_valid (b : ButtonStateManager) (hb : b.Valid) (c : ButtonCall) : (b.call c).Valid := by
  cases c with
  | setNumStates k => exact setNumStates_valid b k
  | update p t => exact update_valid b hb p t
  | reset => exact reset_valid b hb

theorem calls_valid (cs : List ButtonCall) (b : ButtonStateManager) (hb : b.Valid) :
    (b.calls cs).Valid := by
  induction cs generalizing b with
  | nil => exact hb
  | cons c cs ih => exact ih (b.call c) (call_valid b hb c)

theorem update_release (b : ButtonStateManager) (t : Nat) (hm : b.momentaryMode = false) :
    b.update false t = { b with wasPressed := false } := by
  unfold ButtonStateManager.update
  simp [hm]

theorem update_hold (b : ButtonStateManager) (t : Nat) (hm : b.momentaryMode = false)
    (hw : b.wasPressed = true) : b.update true t = b := by
  cases b
  simp only at hm hw
  subst hm hw
  simp [ButtonStateManager.update]

theorem update_press (b : ButtonStateManager) (t : Nat) (hm : b.momentaryMode = false)
    (hw : b.wasPressed = false) :
    b.update true t =
      { b with
        currentState :=
          if (t + 2 ^ 32 - b.lastPress) % 2 ^ 32 < DOUBLE_PRESS_TIME then 0
          else (b.currentState + 1).tmod b.numStates
        lastPress := t
        wasPressed := true } := by
  obtain ⟨n, s, wp, lp, mm⟩ := b
  simp only at hm hw
  subst hm hw
  unfold ButtonStateManager.update
  by_cases h : (t + 4294967296 - lp) % 4294967296 < DOUBLE_PRESS_TIME <;> simp [h]

/-- A press that `update` counts as single, followed by the release, moves a
toggle to the next position and records the press time. -/
theorem click_single (b : ButtonStateManager) (t : Nat × Nat) (hm : b.momentaryMode = false)
    (hw : b.wasPressed = false)
    (ht : DOUBLE_PRESS_TIME ≤ (t.1 + 2 ^ 32 - b.lastPress) % 2 ^ 32) :
    b.click t =
      { b with currentState := (b.currentState + 1).tmod b.numStates, lastPress := t.1 } := by
  have hlt : ¬ (t.1 + 2 ^ 32 - b.lastPress) % 2 ^ 32 < DOUBLE_PRESS_TIME := by omega
  unfold ButtonStateManager.click
  rw [update_press b t.1 hm hw, if_neg hlt]
  obtain ⟨n, s, wp, lp, mm⟩ := b
  simp only at hm hw
  subst hm hw
  exact update_release _ _ rfl

theorem clicks_single (ts : List (Nat × Nat)) (b : ButtonStateManager)
    (hm : b.momentaryMode = false) (hw : b.wasPressed = false) (hb : b.Valid)
    (hts : singlePresses b.lastPress ts = true) :
    (b.clicks ts).currentState = (b.currentState + ts.length) % b.numStates ∧
      (b.clicks ts).numStates = b.numStates := by
  induction ts generalizing b with
  | nil =>
    obtain ⟨h2, h0, hlt⟩ := hb
    refine ⟨?_, rfl⟩
    show b.currentState = (b.currentState + 0) % b.numStates
    rw [Int.add_zero, Int.emod_eq_of_lt h0 hlt]
  | cons t ts ih =>
    obtain ⟨h2, h0, hlt⟩ := hb
    unfold singlePresses at hts
    rw [Bool.and_eq_true, decide_eq_true_eq] at hts
    have hc := click_single b t hm hw hts.1
    have hmod : (b.currentState + 1).tmod b.numStates = (b.currentState + 1) % b.numStates :=
      Int.tmod_eq_emod (by omega) (by omega)
    have hv : (b.click t).Valid := by
      rw [hc]
      refine ⟨h2, ?_, ?_⟩
      · show 0 ≤ (b.currentState + 1).tmod b.numStates
        rw [hmod]; exact Int.emod_nonneg _ (by omega)
      · show (b.currentState + 1).tmod b.numStates < b.numStates
        rw [hmod]; exact Int.emod_lt_of_pos _ (by omega)
    obtain ⟨ih1, ih2⟩ := ih (b.click t) (by rw [hc]; exact hm) (by rw [hc]; exact hw) hv
      (by rw [hc]; exact hts.2)
    have e : b.clicks (t :: ts) = (b.click t).clicks ts := rfl
    rw [e, ih1, ih2, hc]
    refine ⟨?_, rfl⟩
    show ((b.currentState + 1).tmod b.numStates + (ts.length : Int)) % b.numStates = _
    rw [hmod, Int.emod_add_emod, List.length_cons]
    push_cast
    congr 1
    omega

/-! ### Values of buttons and sticks -/

/-- The value of a toggle in closed form. -/
theorem getValue_toggle (b : ButtonStateManager) (hm : b.momentaryMode = false) (hb : b.Valid) :
    b.getValue = 172 + 1639 * b.currentState / (b.numStates - 1) := by
  obtain ⟨h2, h0, hlt⟩ := hb
  have e1 : ((CHANNEL_VALUE_MIN : Nat) : Int) = 172 := rfl
  have e2 : ((CHANNEL_VALUE_MAX : Nat) : Int) = 1811 := rfl
  have e3 : ((CHANNEL_VALUE_MID : Nat) : Int) = 991 := rfl
  unfold ButtonStateManager.getValue
  rw [e1, e2, e3, if_neg (by rw [hm]; decide)]
  by_cases hn2 : b.numStates = 2
  · rw [if_pos hn2, hn2]
    by_cases hs : b.currentState = 0
    · rw [if_pos hs, hs]; decide
    · rw [if_neg hs]
      have : b.currentState = 1 := by omega
      rw [this]; decide
  · rw [if_neg hn2]
    by_cases h3 : b.numStates = 3 ∧ b.currentState = 1
    · rw [if_pos h3, h3.1, h3.2]; decide
    · rw [if_neg h3]
      have hnum : (0 : Int) ≤ (1811 - 172) * b.currentState :=
        Int.mul_nonneg (by omega) h0
      rw [Int.tdiv_eq_ediv hnum (by omega)]
      rfl

theorem spread_strictMono (n s1 s2 : Int) (hn : 2 ≤ n) (hn2 : n ≤ 1640) (h : s1 < s2) :
    1639 * s1 / (n - 1) < 1639 * s2 / (n - 1) := by
  have hd : (0 : Int) < n - 1 := by omega
  have h1 : 1639 * s1 + 1 * (n - 1) ≤ 1639 * s2 := by omega
  have h2 := Int.ediv_le_ediv hd h1
  rw [Int.add_mul_ediv_right _ _ (by omega)] at h2
  omega

theorem mapValueClamped_low (value from_min from_max to_min to_max : Int)
    (h1 : from_min < from_max) (h2 : to_min ≤ to_max) (hv : value ≤ from_min) :
    mapValueClamped value from_min from_max to_min to_max = to_min := by
  have e : (if value < from_min then from_min else value) = from_min := by
    split_ifs <;> omega
  unfold mapValueClamped
  simp only
  rw [e, if_neg (show ¬ from_min > from_max by omega), Int.sub_self, Int.zero_mul,
    Int.zero_tdiv, Int.zero_add]
  split_ifs <;> omega

theorem mapValueClamped_high (value from_min from_max to_min to_max : Int)
    (h1 : from_min < from_max) (h2 : to_min ≤ to_max) (hv : from_max ≤ value) :
    mapValueClamped value from_min from_max to_min to_max = to_max := by
  have e : (if (if value < from_min then from_min else value) > from_max then from_max
      else (if value < from_min then from_min else value)) = from_max := by
    split_ifs <;> omega
  unfold mapValueClamped
  simp only
  rw [e, Int.mul_tdiv_cancel_left _ (by omega)]
  split_ifs <;> omega

/-- When the arguments and the span product fit an `int`, no operation of
`mapValueClamped` is undefined and the result is that of the function. -/
theorem mapValueClampedChecked_eq (value from_min from_max to_min to_max : Int)
    (h1 : from_min < from_max) (h2 : to_min ≤ to_max)
    (hlo : -2147483648 ≤ to_min) (hhi : to_max ≤ 2147483647)
    (hd : from_max - from_min ≤ 2147483647)
    (hp : (from_max - from_min) * (to_max - to_min) ≤ 2147483647) :
    mapValueClampedChecked value from_min from_max to_min to_max =
      some (mapValueClamped value from_min from_max to_min to_max) := by
  unfold mapValueClampedChecked mapValueClamped
  simp only
  have hc : from_min ≤ (if (if value < from_min then from_min else value) > from_max then from_max
      else (if value < from_min then from_min else value)) ∧
      (if (if value < from_min then from_min else value) > from_max then from_max
      else (if value < from_min then from_min else value)) ≤ from_max := by
    split_ifs <;> omega
  generalize (if (if value < from_min then from_min else value) > from_max then from_max
      else (if value < from_min then from_min else value)) = c at hc ⊢
  have ha0 : 0 ≤ c - from_min := by omega
  have hb0 : 0 ≤ to_max - to_min := by omega
  have hab0 : 0 ≤ (c - from_min) * (to_max - to_min) := Int.mul_nonneg ha0 hb0
  have hab : (c - from_min) * (to_max - to_min) ≤ (from_max - from_min) * (to_max - to_min) :=
    Int.mul_le_mul_of_nonneg_right (by omega) hb0
  have hb : to_max - to_min ≤ (from_max - from_min) * (to_max - to_min) := by
    have := Int.mul_le_mul_of_nonneg_right (show (1 : Int) ≤ from_max - from_min by omega) hb0
    rwa [Int.one_mul] at this
  have hq : ((c - from_min) * (to_max - to_min)).tdiv (from_max - from_min) =
      ((c - from_min) * (to_max - to_min)) / (from_max - from_min) :=
    Int.tdiv_eq_ediv hab0 (by omega)
  have hq0 : 0 ≤ ((c - from_min) * (to_max - to_min)) / (from_max - from_min) :=
    Int.ediv_nonneg hab0 (by omega)
  have hq1 : ((c - from_min) * (to_max - to_min)) / (from_max - from_min) ≤ to_max - to_min := by
    apply Int.ediv_le_of_le_mul (by omega)
    rw [Int.mul_comm (to_max - to_min)]
    exact hab
  rw [hq]
  generalize ((c - from_min) * (to_max - to_min)) / (from_max - from_min) = q at hq0 hq1 ⊢
  generalize (c - from_min) * (to_max - to_min) = ab at hab0 hab ⊢
  rw [if_neg (by omega)]
  have hr : (inIntRange (c - from_min) && inIntRange (to_max - to_min) &&
      inIntRange (from_max - from_min) && inIntRange ab && inIntRange q &&
      inIntRange (q + to_min)) = true := by
    simp only [inIntRange, Bool.and_eq_true, decide_eq_true_eq]
    omega
  rw [if_pos hr]

/-- No stick reading maps to the centre value. -/
theorem stick_ne_mid (v : Int) : mapValueClamped v (-128) 127 172 1811 ≠ 991 := by
  unfold mapValueClamped
  simp only
  have hc : -128 ≤ (if (if v < -128 then -128 else v) > 127 then 127
      else (if v < -128 then -128 else v)) ∧
      (if (if v < -128 then -128 else v) > 127 then 127
      else (if v < -128 then -128 else v)) ≤ 127 := by
    split_ifs <;> omega
  generalize (if (if v < -128 then -128 else v) > 127 then 127
      else (if v < -128 then -128 else v)) = c at hc ⊢
  have hnum : (0 : Int) ≤ (c - -128) * (1811 - 172) := Int.mul_nonneg (by omega) (by omega)
  rw [Int.tdiv_eq_ediv hnum (by omega)]
  split_ifs <;> omega

/-! ### Reading back a channel that was set -/

theorem toUint16_lt (v : Int) : toUint16 v < 65536 := by
  unfold toUint16
  omega

theorem getChannel_setChannel_same (cm : ChannelManager) (c v : Nat) (hc : c < 16)
    (hlen : cm.channels.length = NUM_CHANNELS) :
    (cm.setChannel c v).getChannel c = v % 65536 := by
  have hn : NUM_CHANNELS = 16 := rfl
  have hcm : c % 256 = c := Nat.mod_eq_of_lt (by omega)
  unfold ChannelManager.setChannel ChannelManager.getChannel
  rw [hcm, hn, if_pos hc, if_pos hc]
  rw [hn] at hlen
  show (cm.channels.set c (v % 65536)).getD c 0 = _
  rw [List.getD_eq_getElem?_getD, List.getElem?_set_self (by omega)]
  rfl

theorem setChannel_length (cm : ChannelManager) (c v : Nat) :
    (cm.setChannel c v).channels.length = cm.channels.length := by
  unfold ChannelManager.setChannel
  split
  · show (cm.channels.set (c % 256) (v % 65536)).length = _
    rw [List.length_set]
  · rfl

theorem getChannel_setChannel_other (cm : ChannelManager) (c d v : Nat)
    (hcd : d % 256 ≠ c % 256) : (cm.setChannel d v).getChannel c = cm.getChannel c := by
  unfold ChannelManager.setChannel
  split
  · unfold ChannelManager.getChannel
    split
    · show (cm.channels.set (d % 256) (v % 65536)).getD (c % 256) 0 = _
      rw [List.getD_eq_getElem?_getD, List.getD_eq_getElem?_getD, List.getElem?_set_ne hcd]
    · rfl
  · rfl

/-- What `mapControllerToChannels` leaves in the stick channels 0, 1 and 3. -/
theorem mapControllerToChannels_sticks (c : PS5Controller) (cm : ChannelManager)
    (hlen : cm.channels.length = NUM_CHANNELS) :
    (c.mapControllerToChannels cm).getChannel 0 =
        toUint16 (mapValueClamped c.leftX (-128) 127 172 1811) ∧
      (c.mapControllerToChannels cm).getChannel 1 =
        toUint16 (mapValueClamped c.rightY (-128) 127 172 1811) ∧
      (c.mapControllerToChannels cm).getChannel 3 =
        toUint16 (mapValueClamped c.rightX (-128) 127 172 1811) := by
  have e1 : ((CHANNEL_VALUE_MIN : Nat) : Int) = 172 := rfl
  have e2 : ((CHANNEL_VALUE_MAX : Nat) : Int) = 1811 := rfl
  unfold PS5Controller.mapControllerToChannels
  simp only
  rw [e1, e2]
  have l0 := setChannel_length cm 0 (toUint16 (mapValueClamped c.leftX (-128) 127 172 1811))
  have h0 := getChannel_setChannel_same cm 0
    (toUint16 (mapValueClamped c.leftX (-128) 127 172 1811)) (by decide) hlen
  rw [Nat.mod_eq_of_lt (toUint16_lt _)] at h0
  generalize cm.setChannel 0 _ = cm0 at h0 l0 ⊢
  rw [hlen] at l0
  have l1 := setChannel_length cm0 1 (toUint16 (mapValueClamped c.rightY (-128) 127 172 1811))
  have h1 := getChannel_setChannel_same cm0 1
    (toUint16 (mapValueClamped c.rightY (-128) 127 172 1811)) (by decide) l0
  have h01 := getChannel_setChannel_other cm0 0 1
    (toUint16 (mapValueClamped c.rightY (-128) 127 172 1811)) (by decide)
  rw [Nat.mod_eq_of_lt (toUint16_lt _)] at h1
  rw [h0] at h01
  generalize cm0.setChannel 1 _ = cm1 at h1 h01 l1 ⊢
  rw [l0] at l1
  have l2 := setChannel_length cm1 2 (toUint16 (mapValueClamped c.leftY 0 127 172 1811))
  have h02 := getChannel_setChannel_other cm1 0 2
    (toUint16 (mapValueClamped c.leftY 0 127 172 1811)) (by decide)
  have h12 := getChannel_setChannel_other cm1 1 2
    (toUint16 (mapValueClamped c.leftY 0 127 172 1811)) (by decide)
  rw [h01] at h02
  rw [h1] at h12
  generalize cm1.setChannel 2 _ = cm2 at h02 h12 l2 ⊢
  rw [l1] at l2
  have h3 := getChannel_setChannel_same cm2 3
    (toUint16 (mapValueClamped c.rightX (-128) 127 172 1811)) (by decide) l2
  have h03 := getChannel_setChannel_other cm2 0 3
    (toUint16 (mapValueClamped c.rightX (-128) 127 172 1811)) (by decide)
  have h13 := getChannel_setChannel_other cm2 1 3
    (toUint16 (mapValueClamped c.rightX (-128) 127 172 1811)) (by decide)
  rw [Nat.mod_eq_of_lt (toUint16_lt _)] at h3
  rw [h02] at h03
  rw [h12] at h13
  generalize cm2.setChannel 3 _ = cm3 at h3 h03 h13 ⊢
  refine ⟨?_, ?_, ?_⟩
  · repeat rw [getChannel_setChannel_other _ 0 _ _ (by decide)]
    exact h03
  · repeat rw [getChannel_setChannel_other _ 1 _ _ (by decide)]
    exact h13
  · repeat rw [getChannel_setChannel_other _ 3 _ _ (by decide)]
    exact h3

/-! ### The wait loop of the source: what a run that ends leaves behind -/

theorem calls_append (a b : List Event) : calls (a ++ b) = calls a ++ calls b := by
  unfold calls
  rw [List.filter_append]

theorem appends_refl (w : World) : w.Appends w [] :=
  ⟨[], (List.append_nil _).symm, rfl, rfl, rfl, le_refl _⟩

theorem appends_trans {w w1 w2 : World} {a b : List Event} (h1 : w.Appends w1 a)
    (h2 : w1.Appends w2 b) : w.Appends w2 (a ++ b) := by
  obtain ⟨e1, t1, c1, f1, s1, y1⟩ := h1
  obtain ⟨e2, t2, c2, f2, s2, y2⟩ := h2
  refine ⟨e1 ++ e2, ?_, ?_, f2.trans f1, s2.trans s1, le_trans y1 y2⟩
  · rw [t2, t1, List.append_assoc]
  · rw [calls_append, c1, c2]

theorem appends_emit (w : World) (e : Event) (he : e.isRead = false) : w.Appends (w.emit e) [e] := by
  refine ⟨[e], rfl, ?_, rfl, rfl, le_refl _⟩
  unfold calls
  simp [he]

theorem appends_emit_read (w : World) (v : Nat) :
    w.Appends (w.emit (Event.getCycleCount v)) [] :=
  ⟨[Event.getCycleCount v], rfl, rfl, rfl, rfl, le_refl _⟩

theorem appends_delay (w : World) (us : Nat) :
    w.Appends (w.delayMicroseconds us) [Event.delayMicroseconds us] :=
  ⟨[Event.delayMicroseconds us], rfl, rfl, rfl, rfl, Nat.le_add_right _ _⟩

/-- A wait loop that ends has recorded its reads, all below the target but
the last, and changed nothing but the clock. -/
theorem busyWaitLoop_spec (poll target : Nat) : ∀ (fuel : Nat) (w w2 : World),
    w.busyWaitLoop poll fuel target = some w2 →
    ∃ reads : List Event, w2.trace = w.trace ++ reads ∧ waitReads target reads = true ∧
      calls reads = [] ∧ w2.cpuFreqMHz = w.cpuFreqMHz ∧ w2.stack = w.stack ∧
      w.cycles ≤ w2.cycles := by
  intro fuel
  induction fuel with
  | zero => intro w w2 h; simp [World.busyWaitLoop] at h
  | succ n ih =>
    intro w w2 h
    unfold World.busyWaitLoop at h
    simp only at h
    by_cases hlt : w.getCycleCount < target
    · rw [if_pos hlt] at h
      obtain ⟨reads, h1, h2, h3, h4, h5, h6⟩ := ih _ _ h
      refine ⟨Event.getCycleCount w.getCycleCount :: reads, ?_, ?_, ?_, h4, h5, ?_⟩
      · rw [h1]
        show (w.trace ++ [Event.getCycleCount w.getCycleCount]) ++ reads = _
        simp
      · unfold waitReads
        rw [if_pos hlt]
        exact h2
      · show calls ([Event.getCycleCount w.getCycleCount] ++ reads) = []
        rw [calls_append, h3]
        rfl
      · have : w.cycles + poll ≤ w2.cycles := h6
        omega
    · rw [if_neg hlt] at h
      cases h
      refine ⟨[Event.getCycleCount w.getCycleCount], rfl, ?_, rfl, rfl, rfl, le_refl _⟩
      unfold waitReads
      rw [if_neg hlt]
      rfl

/-- One bit with its loop: the level, then one completed wait of a bit time. -/
theorem uartSendBitLoop_spec (poll fuel : Nat) (b : Bool) (w w2 : World)
    (h : uartSendBitLoop poll fuel b w = some w2) :
    ∃ wait : List Event, w2.trace = w.trace ++ (Event.digitalWrite CRSF_TX_PIN (!b) :: wait) ∧
      isWait (BIT_TIME_US * w.cpuFreqMHz) wait = true ∧ calls wait = [] ∧
      w2.cpuFreqMHz = w.cpuFreqMHz ∧ w2.stack = w.stack ∧ w.cycles ≤ w2.cycles := by
  unfold uartSendBitLoop at h
  simp only at h
  obtain ⟨reads, h1, h2, h3, h4, h5, h6⟩ := busyWaitLoop_spec _ _ _ _ _ h
  refine ⟨Event.getCycleCount w.getCycleCount :: reads, ?_, h2, ?_, h4, h5, h6⟩
  · rw [h1]
    show ((w.trace ++ [Event.digitalWrite CRSF_TX_PIN (!b)]) ++
      [Event.getCycleCount w.getCycleCount]) ++ reads = _
    simp
  · show calls ([Event.getCycleCount w.getCycleCount] ++ reads) = []
    rw [calls_append, h3]
    rfl

theorem uartSendBitLoop_appends (poll fuel : Nat) (b : Bool) (w w2 : World)
    (h : uartSendBitLoop poll fuel b w = some w2) :
    w.Appends w2 [Event.digitalWrite CRSF_TX_PIN (!b)] := by
  obtain ⟨wait, h1, _, h3, h4, h5, h6⟩ := uartSendBitLoop_spec poll fuel b w w2 h
  refine ⟨Event.digitalWrite CRSF_TX_PIN (!b) :: wait, h1, ?_, h4, h5, h6⟩
  show calls ([Event.digitalWrite CRSF_TX_PIN (!b)] ++ wait) = _
  rw [calls_append, h3]
  rfl

theorem foldlM_appends {α : Type} (f : World → α → Option World) (g : α → List Event)
    (hf : ∀ w x w2, f w x = some w2 → w.Appends w2 (g x)) :
    ∀ (l : List α) (w w2 : World), l.foldlM f w = some w2 → w.Appends w2 (l.flatMap g) := by
  intro l
  induction l with
  | nil =>
    intro w w2 h
    simp only [List.foldlM_nil, pure, Option.some.injEq] at h
    subst h
    exact appends_refl w
  | cons x xs ih =>
    intro w w2 h
    simp only [List.foldlM_cons, bind, Option.bind_eq_some] at h
    obtain ⟨w1, h1, h2⟩ := h
    exact appends_trans (hf w x w1 h1) (ih w1 w2 h2)

/-- One byte with its loops, in full: interrupts off, the start bit and the
eight data bits with their waits, the stop level, the completed wait of the
stop bit, the completed spacing wait, interrupts on. -/
theorem softUartSendByteLoop_spec (poll fuel data : Nat) (w w2 : World)
    (h : softUartSendByteLoop poll fuel data w = some w2) :
    ∃ bits waitStop waitGap : List Event,
      w2.trace = w.trace ++ ([Event.noInterrupts] ++ bits ++
        [Event.digitalWrite CRSF_TX_PIN false] ++ waitStop ++ waitGap ++ [Event.interrupts]) ∧
      calls bits = Event.digitalWrite CRSF_TX_PIN true ::
        (List.range 8).map (fun i => Event.digitalWrite CRSF_TX_PIN (!data.testBit i)) ∧
      isWait (BIT_TIME_US * w.cpuFreqMHz) waitStop = true ∧ calls waitStop = [] ∧
      isWait (BIT_TIME_US / 2 * w.cpuFreqMHz) waitGap = true ∧ calls waitGap = [] ∧
      w2.cpuFreqMHz = w.cpuFreqMHz ∧ w2.stack = w.stack ∧ w.cycles ≤ w2.cycles := by
  unfold softUartSendByteLoop at h
  simp only [bind, Option.bind_eq_some, Option.some.injEq] at h
  obtain ⟨w1, h1, w9, h9, w10, h10, w11, h11, hw2⟩ := h
  have a1 := uartSendBitLoop_appends _ _ _ _ _ h1
  have a9 := foldlM_appends
    (fun w i => uartSendBitLoop poll fuel (decide (data &&& (1 <<< i) ≠ 0)) w)
    (fun i => [Event.digitalWrite CRSF_TX_PIN (!data.testBit i)])
    (fun w i w2 hh => by
      have := uartSendBitLoop_appends _ _ _ _ _ hh
      rwa [and_one_shiftLeft_ne_zero] at this) _ _ _ h9
  rw [flatMap_singleton_map] at a9
  obtain ⟨bits, tb, cb, fb, sb, yb⟩ := appends_trans a1 a9
  obtain ⟨waitStop, t10, i10, c10, f10, s10, y10⟩ := uartSendBitLoop_spec _ _ _ _ _ h10
  obtain ⟨reads, t11, r11, c11, f11, s11, y11⟩ := busyWaitLoop_spec _ _ _ _ _ h11
  have fe : (w.emit Event.noInterrupts).cpuFreqMHz = w.cpuFreqMHz := rfl
  have f9 : w9.cpuFreqMHz = w.cpuFreqMHz := fb.trans fe
  have f10b : w10.cpuFreqMHz = w.cpuFreqMHz := f10.trans f9
  subst hw2
  refine ⟨bits, waitStop, Event.getCycleCount w10.getCycleCount :: reads, ?_, cb, ?_, c10, ?_, ?_,
    ?_, ?_, ?_⟩
  · show w11.trace ++ [Event.interrupts] = _
    rw [t11]
    show ((w10.trace ++ [Event.getCycleCount w10.getCycleCount]) ++ reads) ++ [Event.interrupts]
      = _
    rw [t10, tb]
    show ((((w.trace ++ [Event.noInterrupts]) ++ bits) ++
      (Event.digitalWrite CRSF_TX_PIN (!true) :: waitStop) ++
      [Event.getCycleCount w10.getCycleCount]) ++ reads) ++ [Event.interrupts] = _
    simp
  · rw [← f9]; exact i10
  · have e : (w10.emit (Event.getCycleCount w10.getCycleCount)).cpuFreqMHz = w.cpuFreqMHz :=
      f10b
    rw [e] at r11
    exact r11
  · show calls ([Event.getCycleCount w10.getCycleCount] ++ reads) = []
    rw [calls_append, c11]
    rfl
  · exact (f11.trans f10b)
  · exact s11.trans (s10.trans sb)
  · have y0 : w.cycles ≤ w9.cycles := yb
    have y1 : w10.cycles ≤ w11.cycles := y11
    show w.cycles ≤ w11.cycles
    omega

theorem softUartSendByteLoop_appends (poll fuel data : Nat) (w w2 : World)
    (h : softUartSendByteLoop poll fuel data w = some w2) : w.Appends w2 (byteEvents data) := by
  obtain ⟨bits, waitStop, waitGap, t, cb, _, cs, _, cg, f, s, y⟩ :=
    softUartSendByteLoop_spec poll fuel data w w2 h
  refine ⟨_, t, ?_, f, s, y⟩
  simp only [calls_append, cb, cs, cg, byteEvents_eq]
  rfl

theorem softUartSendBytesLoop_appends (poll fuel : Nat) (data : List Nat) (len : Nat)
    (w w2 : World) (h : softUartSendBytesLoop poll fuel data len w = some w2) :
    w.Appends w2 (bufferEvents ((List.range len).map (fun i => data.getD i 0))) := by
  unfold softUartSendBytesLoop at h
  simp only [bind, Option.bind_eq_some, Option.some.injEq] at h
  obtain ⟨w1, h1, hw2⟩ := h
  have a1 := foldlM_appends (fun w i => softUartSendByteLoop poll fuel (data.getD i 0) w)
    (fun i => byteEvents (data.getD i 0))
    (fun w i w2 hh => softUartSendByteLoop_appends _ _ _ _ _ hh) _ _ _ h1
  subst hw2
  have a := appends_trans (appends_trans (appends_trans
    (appends_emit w (Event.digitalWrite DEBUG_LED_PIN true) rfl) a1)
    (appends_emit w1 (Event.digitalWrite CRSF_TX_PIN false) rfl))
    (appends_emit (w1.emit (Event.digitalWrite CRSF_TX_PIN false))
      (Event.digitalWrite DEBUG_LED_PIN false) rfl)
  have e : bufferEvents ((List.range len).map (fun i => data.getD i 0)) =
      [Event.digitalWrite DEBUG_LED_PIN true] ++
        (List.range len).flatMap (fun i => byteEvents (data.getD i 0)) ++
        [Event.digitalWrite CRSF_TX_PIN false] ++ [Event.digitalWrite DEBUG_LED_PIN false] := by
    unfold bufferEvents
    rw [List.flatMap_map]
    simp
  rw [e]
  exact a

theorem sendSyncPreambleLoop_appends (poll fuel : Nat) (w w2 : World)
    (h : sendSyncPreambleLoop poll fuel w = some w2) :
    w.Appends w2 (bufferEvents preambleBytes ++ [Event.delayMicroseconds 100]) := by
  unfold sendSyncPreambleLoop at h
  simp only [bind, Option.bind_eq_some, Option.some.injEq] at h
  obtain ⟨w1, h1, hw2⟩ := h
  subst hw2
  exact appends_trans (softUartSendBytesLoop_appends _ _ _ _ _ _ h1) (appends_delay w1 100)

/-- A call of `sendRcChannelsPacket` with the loops that returns has made,
the reads of the counter left out, the calls of the preamble buffer, the gap,
the frame buffer, and at most one debug print. -/
theorem sendRcChannelsPacketLoop_appends (poll fuel : Nat) (self : CRSFModule) (w : World)
    (r : CRSFModule × World) (h : self.sendRcChannelsPacketLoop poll fuel w = some r) :
    ∃ tail : List Event, (tail = [] ∨ tail = [Event.serialPrint]) ∧
      w.Appends r.2 (bufferEvents preambleBytes ++ [Event.delayMicroseconds 100] ++
        bufferEvents (frameBytes w.stack self.channelManager.getChannelData) ++ tail) := by
  unfold CRSFModule.sendRcChannelsPacketLoop at h
  simp only [bind, Option.bind_eq_some] at h
  obtain ⟨w1, h1, w2, h2, h3⟩ := h
  have a1 := sendSyncPreambleLoop_appends _ _ _ _ h1
  have a2 := softUartSendBytesLoop_appends _ _ _ _ _ _ h2
  have s1 : w1.stack = w.stack := by
    obtain ⟨_, _, _, _, s, _⟩ := a1
    exact s
  have hsz : CRSF_FRAME_SIZE = (frameBytes w.stack self.channelManager.getChannelData).length :=
    (frameBytes_length _ _).symm
  rw [s1] at a2
  have e : (List.range CRSF_FRAME_SIZE).map
      (fun i => (frameBytes w.stack self.channelManager.getChannelData).getD i 0) =
      frameBytes w.stack self.channelManager.getChannelData := by
    conv_lhs => rw [hsz]
    exact map_getD_range _
  rw [e] at a2
  have a12 := appends_trans a1 a2
  split at h3
  · split at h3
    · simp only [Option.some.injEq] at h3
      subst h3
      exact ⟨[Event.serialPrint], Or.inr rfl,
        appends_trans a12 (appends_emit w2 Event.serialPrint rfl)⟩
    · simp only [Option.some.injEq] at h3
      subst h3
      refine ⟨[], Or.inl rfl, ?_⟩
      rw [List.append_nil]
      exact a12
  · simp only [Option.some.injEq] at h3
    subst h3
    refine ⟨[], Or.inl rfl, ?_⟩
    rw [List.append_nil]
    exact a12

/-! ### Readers of the trace do not look at the reads of the counter -/

theorem calls_cons_read (v : Nat) (es : List Event) :
    calls (Event.getCycleCount v :: es) = calls es := rfl

theorem calls_cons_call (e : Event) (es : List Event) (he : e.isRead = false) :
    calls (e :: es) = e :: calls es := by
  unfold calls
  simp [List.filter_cons, he]

theorem lineLevels_calls (t : List Event) : lineLevels (calls t) = lineLevels t := by
  induction t with
  | nil => rfl
  | cons e es ih =>
    by_cases he : e.isRead = true
    · cases e <;> first | exact Bool.noConfusion he | skip
      rw [calls_cons_read, ih]
      rfl
    · rw [calls_cons_call e es (by simpa using he)]
      unfold lineLevels at ih ⊢
      rw [List.filterMap_cons, List.filterMap_cons, ih]

theorem replayMasked_calls (t : List Event) (en : Bool) :
    replayMasked en (calls t) = replayMasked en t := by
  induction t generalizing en with
  | nil => rfl
  | cons e es ih =>
    cases e with
    | getCycleCount v =>
      rw [calls_cons_read, ih]
      rfl
    | pinMode pin =>
      rw [calls_cons_call (Event.pinMode pin) es rfl]
      show replayMasked en (calls es) = replayMasked en es
      exact ih en
    | digitalWrite pin level =>
      rw [calls_cons_call (Event.digitalWrite pin level) es rfl]
      show (if pin = CRSF_TX_PIN ∧ en then none else replayMasked en (calls es)) =
        (if pin = CRSF_TX_PIN ∧ en then none else replayMasked en es)
      rw [ih]
    | noInterrupts =>
      rw [calls_cons_call Event.noInterrupts es rfl]
      show (if en then replayMasked false (calls es) else none) =
        (if en then replayMasked false es else none)
      rw [ih]
    | interrupts =>
      rw [calls_cons_call Event.interrupts es rfl]
      show (if en then none else replayMasked true (calls es)) =
        (if en then none else replayMasked true es)
      rw [ih]
    | delayMicroseconds us =>
      rw [calls_cons_call (Event.delayMicroseconds us) es rfl]
      show replayMasked en (calls es) = replayMasked en es
      exact ih en
    | serialPrint =>
      rw [calls_cons_call Event.serialPrint es rfl]
      show replayMasked en (calls es) = replayMasked en es
      exact ih en

theorem count_calls (t : List Event) (e : Event) (he : e.isRead = false) :
    (calls t).count e = t.count e := by
  induction t with
  | nil => rfl
  | cons x xs ih =>
    unfold calls at ih ⊢
    by_cases hx : x.isRead = true
    · have hne : x ≠ e := by
        intro hxe
        rw [hxe, he] at hx
        exact Bool.noConfusion hx
      simp [List.filter_cons, hx, List.count_cons, hne, ih]
    · simp [List.filter_cons, hx, List.count_cons, ih]

/-! ### The wait loop of the source: when it ends, and when -/

/-- A wait started below the target ends when a read falls into the window
from the target to the wrap of the counter; this is certain when the window
is at least `poll` wide.  The loop then lasts until the first read at or
after the target. -/
theorem busyWaitLoop_returns (poll target : Nat) (hp : 1 ≤ poll) (ht : target + poll ≤ 2 ^ 32) :
    ∀ (fuel : Nat) (w : World), w.getCycleCount < target + poll →
      target - w.getCycleCount < fuel →
      ∃ w2, w.busyWaitLoop poll fuel target = some w2 ∧
        w.cycles + (target - w.getCycleCount) ≤ w2.cycles ∧
        w2.cycles + w.getCycleCount < w.cycles + target + poll := by
  intro fuel
  induction fuel with
  | zero => intro w _ hf; omega
  | succ n ih =>
    intro w hc hf
    unfold World.busyWaitLoop
    simp only
    by_cases hlt : w.getCycleCount < target
    · rw [if_pos hlt]
      have hreg : ({ w.emit (Event.getCycleCount w.getCycleCount) with
          cycles := (w.emit (Event.getCycleCount w.getCycleCount)).cycles + poll } :
            World).getCycleCount = w.getCycleCount + poll := by
        show (w.cycles + poll) % 2 ^ 32 = w.cycles % 2 ^ 32 + poll
        have : w.cycles % 2 ^ 32 < target := hlt
        omega
      obtain ⟨w2, h1, h2, h3⟩ := ih _ (by rw [hreg]; omega) (by rw [hreg]; omega)
      refine ⟨w2, h1, ?_, ?_⟩
      · rw [hreg] at h2
        have : w.cycles + poll + (target - (w.getCycleCount + poll)) ≤ w2.cycles := h2
        omega
      · rw [hreg] at h3
        have : w2.cycles + (w.getCycleCount + poll) < w.cycles + poll + target + poll := h3
        omega
    · rw [if_neg hlt]
      refine ⟨_, rfl, ?_, ?_⟩
      · show w.cycles + (target - w.getCycleCount) ≤ w.cycles
        omega
      · show w.cycles + w.getCycleCount < w.cycles + target + poll
        omega

/-- With one cycle between two reads the loop ends exactly where the closed
form `World.busyWaitUntil` puts the clock. -/
theorem busyWaitLoop_one (target fuel : Nat) (w : World) (ht : target < 2 ^ 32)
    (hf : target - w.getCycleCount < fuel) :
    ∃ w2, w.busyWaitLoop 1 fuel target = some w2 ∧
      w2.cycles = (w.busyWaitUntil target).cycles ∧ calls w2.trace = calls w.trace ∧
      w2.cpuFreqMHz = w.cpuFreqMHz ∧ w2.stack = w.stack := by
  by_cases hlt : w.getCycleCount < target
  · obtain ⟨w2, h1, h2, h3⟩ := busyWaitLoop_returns 1 target (le_refl 1) (by omega) fuel w
      (by omega) hf
    obtain ⟨reads, t, _, c, f, s, _⟩ := busyWaitLoop_spec _ _ _ _ _ h1
    refine ⟨w2, h1, ?_, ?_, f, s⟩
    · unfold World.busyWaitUntil
      rw [if_pos hlt]
      show w2.cycles = w.cycles + (target - w.getCycleCount)
      omega
    · rw [t, calls_append, c, List.append_nil]
  · cases fuel with
    | zero => omega
    | succ n =>
      refine ⟨w.emit (Event.getCycleCount w.getCycleCount), ?_, ?_, ?_, rfl, rfl⟩
      · unfold World.busyWaitLoop
        simp only
        rw [if_neg hlt]
      · unfold World.busyWaitUntil
        rw [if_neg hlt]
        rfl
      · show calls (w.trace ++ [Event.getCycleCount w.getCycleCount]) = _
        rw [calls_append]
        simp [calls, Event.isRead]

/-- A wait never ends when every read it makes lies below the target. -/
theorem busyWaitLoop_none (poll target : Nat) (inv : Nat → Prop)
    (hinv : ∀ c, inv c → c % 2 ^ 32 < target ∧ inv (c + poll)) :
    ∀ (fuel : Nat) (w : World), inv w.cycles → w.busyWaitLoop poll fuel target = none := by
  intro fuel
  induction fuel with
  | zero => intro w _; rfl
  | succ n ih =>
    intro w hw
    unfold World.busyWaitLoop
    simp only
    have h1 : w.getCycleCount < target := (hinv _ hw).1
    rw [if_pos h1]
    exact ih _ (hinv _ hw).2

/-- The same with a bound: no read among the first `fuel` ones reaches the
target when the reads `k, k + 1, ..., bound - 1` all lie below it. -/
theorem busyWaitLoop_none_bounded (poll target base bound : Nat)
    (hlow : ∀ k, k < bound → (base + poll * k) % 2 ^ 32 < target) :
    ∀ (fuel k : Nat) (w : World), w.cycles = base + poll * k → k + fuel ≤ bound →
      w.busyWaitLoop poll fuel target = none := by
  intro fuel
  induction fuel with
  | zero => intro k w _ _; rfl
  | succ n ih =>
    intro k w hw hk
    unfold World.busyWaitLoop
    simp only
    have h1 : w.getCycleCount < target := by
      unfold World.getCycleCount
      rw [hw]
      exact hlow k (by omega)
    rw [if_pos h1]
    refine ih (k + 1) _ ?_ (by omega)
    show w.cycles + poll = base + poll * (k + 1)
    rw [hw, Nat.mul_add, Nat.mul_one, Nat.add_assoc]

/-! ### The transmitter with its loops returns while the counter does not wrap -/

theorem takes_register {w w2 : World} {lo hi extra : Nat} (h : w.Takes w2 lo hi)
    (hw : w.getCycleCount + (hi + extra) < 2 ^ 32) : w2.getCycleCount + extra < 2 ^ 32 := by
  obtain ⟨_, h1, h2⟩ := h
  unfold World.getCycleCount at hw ⊢
  omega

theorem takes_trans {w w1 w2 : World} {lo1 hi1 lo2 hi2 : Nat} (h1 : w.Takes w1 lo1 hi1)
    (h2 : w1.Takes w2 lo2 hi2) : w.Takes w2 (lo1 + lo2) (hi1 + hi2) := by
  obtain ⟨f1, a1, b1⟩ := h1
  obtain ⟨f2, a2, b2⟩ := h2
  exact ⟨f2.trans f1, by omega, by omega⟩

theorem takes_emit (w : World) (e : Event) : w.Takes (w.emit e) 0 0 :=
  ⟨rfl, le_refl _, le_refl _⟩

/-- A wait of `delta` cycles that starts at least `delta + poll` cycles
before the counter wraps ends, after `delta` to `delta + poll - 1` cycles. -/
theorem wait_returns (poll fuel delta : Nat) (w : World) (hp : 1 ≤ poll)
    (hw : w.getCycleCount + (delta + (poll - 1)) < 2 ^ 32) (hf : delta < fuel) :
    ∃ w2, (w.emit (Event.getCycleCount w.getCycleCount)).busyWaitLoop poll fuel
        ((w.getCycleCount + delta % 2 ^ 32) % 2 ^ 32) = some w2 ∧
      w.Takes w2 delta (delta + (poll - 1)) := by
  have hd : delta % 2 ^ 32 = delta := Nat.mod_eq_of_lt (by omega)
  have ht : (w.getCycleCount + delta) % 2 ^ 32 = w.getCycleCount + delta :=
    Nat.mod_eq_of_lt (by omega)
  rw [hd, ht]
  have hreg : (w.emit (Event.getCycleCount w.getCycleCount)).getCycleCount = w.getCycleCount :=
    rfl
  obtain ⟨w2, h1, h2, h3⟩ := busyWaitLoop_returns poll (w.getCycleCount + delta) hp (by omega)
    fuel (w.emit (Event.getCycleCount w.getCycleCount)) (by rw [hreg]; omega)
    (by rw [hreg]; omega)
  obtain ⟨_, _, _, _, f, _, _⟩ := busyWaitLoop_spec _ _ _ _ _ h1
  rw [hreg] at h2 h3
  refine ⟨w2, h1, f, ?_, ?_⟩
  · have : w.cycles + (w.getCycleCount + delta - w.getCycleCount) ≤ w2.cycles := h2
    omega
  · have : w2.cycles + w.getCycleCount < w.cycles + (w.getCycleCount + delta) + poll := h3
    omega

theorem uartSendBitLoop_returns (poll fuel : Nat) (b : Bool) (w : World) (hp : 1 ≤ poll)
    (hw : w.getCycleCount + (2 * w.cpuFreqMHz + (poll - 1)) < 2 ^ 32)
    (hf : 2 * w.cpuFreqMHz < fuel) :
    ∃ w2, uartSendBitLoop poll fuel b w = some w2 ∧
      w.Takes w2 (2 * w.cpuFreqMHz) (2 * w.cpuFreqMHz + (poll - 1)) := by
  unfold uartSendBitLoop
  simp only
  rw [bit_time_us]
  exact wait_returns poll fuel (2 * w.cpuFreqMHz) (w.emit (Event.digitalWrite CRSF_TX_PIN (!b)))
    hp hw hf

theorem foldlM_returns {α : Type} (f : World → α → Option World) (lo hi cpu : Nat)
    (hf : ∀ w x, w.cpuFreqMHz = cpu → w.getCycleCount + hi < 2 ^ 32 →
      ∃ w2, f w x = some w2 ∧ w.Takes w2 lo hi) :
    ∀ (l : List α) (w : World), w.cpuFreqMHz = cpu →
      w.getCycleCount + l.length * hi < 2 ^ 32 →
      ∃ w2, l.foldlM f w = some w2 ∧ w.Takes w2 (l.length * lo) (l.length * hi) := by
  intro l
  induction l with
  | nil =>
    intro w _ _
    exact ⟨w, rfl, rfl, by simp, by simp⟩
  | cons x xs ih =>
    intro w hc hw
    rw [List.length_cons, Nat.succ_mul] at hw
    obtain ⟨w1, h1, t1⟩ := hf w x hc (by omega)
    have hw1 : w1.getCycleCount + xs.length * hi < 2 ^ 32 :=
      takes_register t1 (by omega)
    obtain ⟨w2, h2, t2⟩ := ih w1 (t1.1.trans hc) hw1
    refine ⟨w2, ?_, ?_⟩
    · simp only [List.foldlM_cons, bind, Option.bind_eq_some]
      exact ⟨w1, h1, h2⟩
    · have t := takes_trans t1 t2
      rw [List.length_cons, Nat.succ_mul, Nat.succ_mul, Nat.add_comm (xs.length * lo),
        Nat.add_comm (xs.length * hi)]
      exact t

/-- A byte sent while the counter stays away from its wrap returns, after
ten bit times and the spacing (21 microseconds of cycles) and at most 11
overshoots of less than `poll` cycles. -/
theorem softUartSendByteLoop_returns (poll fuel data : Nat) (w : World) (hp : 1 ≤ poll)
    (hw : w.getCycleCount + (21 * w.cpuFreqMHz + 11 * (poll - 1)) < 2 ^ 32)
    (hf : 2 * w.cpuFreqMHz < fuel) :
    ∃ w2, softUartSendByteLoop poll fuel data w = some w2 ∧
      w.Takes w2 (21 * w.cpuFreqMHz) (21 * w.cpuFreqMHz + 11 * (poll - 1)) := by
  have hreg0 : (w.emit Event.noInterrupts).getCycleCount = w.getCycleCount := rfl
  have hcpu0 : (w.emit Event.noInterrupts).cpuFreqMHz = w.cpuFreqMHz := rfl
  obtain ⟨w1, h1, t1⟩ := uartSendBitLoop_returns poll fuel false (w.emit Event.noInterrupts) hp
    (by rw [hreg0, hcpu0]; omega) (by rw [hcpu0]; exact hf)
  rw [hcpu0] at t1
  have t01 : w.Takes w1 (2 * w.cpuFreqMHz) (2 * w.cpuFreqMHz + (poll - 1)) := t1
  have c1 : w1.cpuFreqMHz = w.cpuFreqMHz := t01.1
  have r1 : w1.getCycleCount + (19 * w.cpuFreqMHz + 10 * (poll - 1)) < 2 ^ 32 :=
    takes_register t01 (by omega)
  obtain ⟨w9, h9, t9⟩ := foldlM_returns
    (fun w i => uartSendBitLoop poll fuel (decide (data &&& (1 <<< i) ≠ 0)) w)
    (2 * w.cpuFreqMHz) (2 * w.cpuFreqMHz + (poll - 1)) w.cpuFreqMHz
    (fun v i hv hr => by
      have := uartSendBitLoop_returns poll fuel (decide (data &&& (1 <<< i) ≠ 0)) v hp
        (by rw [hv]; exact hr) (by rw [hv]; exact hf)
      rwa [hv] at this)
    (List.range 8) w1 c1 (by rw [List.length_range]; omega)
  rw [List.length_range] at t9
  have c9 : w9.cpuFreqMHz = w.cpuFreqMHz := t9.1.trans c1
  have r9 : w9.getCycleCount + (3 * w.cpuFreqMHz + 2 * (poll - 1)) < 2 ^ 32 :=
    takes_register t9 (by omega)
  obtain ⟨w10, h10, t10⟩ := uartSendBitLoop_returns poll fuel true w9 hp
    (by rw [c9]; omega) (by rw [c9]; exact hf)
  rw [c9] at t10
  have c10 : w10.cpuFreqMHz = w.cpuFreqMHz := t10.1.trans c9
  have r10 : w10.getCycleCount + (w.cpuFreqMHz + (poll - 1)) < 2 ^ 32 :=
    takes_register t10 (by omega)
  obtain ⟨w11, h11, t11⟩ := wait_returns poll fuel w.cpuFreqMHz w10 hp r10 (by omega)
  have hb : BIT_TIME_US / 2 = 1 := by decide
  refine ⟨w11.emit Event.interrupts, ?_, ?_⟩
  · unfold softUartSendByteLoop
    simp only [bind, Option.bind_eq_some, Option.some.injEq]
    refine ⟨w1, h1, w9, h9, w10, h10, w11, ?_, rfl⟩
    rw [hb, Nat.one_mul]
    show (w10.emit (Event.getCycleCount w10.getCycleCount)).busyWaitLoop poll fuel
      ((w10.getCycleCount + w10.cpuFreqMHz % 2 ^ 32) % 2 ^ 32) = some w11
    rw [c10]
    exact h11
  · obtain ⟨f1, a1, b1⟩ := t01
    obtain ⟨f9, a9, b9⟩ := t9
    obtain ⟨f10, a10, b10⟩ := t10
    obtain ⟨f11, a11, b11⟩ := t11
    refine ⟨?_, ?_, ?_⟩
    · show w11.cpuFreqMHz = w.cpuFreqMHz
      exact f11.trans c10
    · show w.cycles + 21 * w.cpuFreqMHz ≤ w11.cycles
      omega
    · show w11.cycles ≤ w.cycles + (21 * w.cpuFreqMHz + 11 * (poll - 1))
      omega

theorem softUartSendBytesLoop_returns (poll fuel : Nat) (data : List Nat) (len : Nat)
    (w : World) (hp : 1 ≤ poll)
    (hw : w.getCycleCount + len * (21 * w.cpuFreqMHz + 11 * (poll - 1)) < 2 ^ 32)
    (hf : 2 * w.cpuFreqMHz < fuel) :
    ∃ w2, softUartSendBytesLoop poll fuel data len w = some w2 ∧
      w.Takes w2 (len * (21 * w.cpuFreqMHz)) (len * (21 * w.cpuFreqMHz + 11 * (poll - 1))) := by
  obtain ⟨w1, h1, t1⟩ := foldlM_returns
    (fun w i => softUartSendByteLoop poll fuel (data.getD i 0) w)
    (21 * w.cpuFreqMHz) (21 * w.cpuFreqMHz + 11 * (poll - 1)) w.cpuFreqMHz
    (fun v i hv hr => by
      have := softUartSendByteLoop_returns poll fuel (data.getD i 0) v hp
        (by rw [hv]; exact hr) (by rw [hv]; exact hf)
      rwa [hv] at this)
    (List.range len) (w.emit (Event.digitalWrite DEBUG_LED_PIN true)) rfl
    (by rw [List.length_range]; exact hw)
  rw [List.length_range] at t1
  refine ⟨(w1.emit (Event.digitalWrite CRSF_TX_PIN false)).emit
    (Event.digitalWrite DEBUG_LED_PIN false), ?_, t1⟩
  unfold softUartSendBytesLoop
  simp only [bind, Option.bind_eq_some, Option.some.injEq]
  exact ⟨w1, h1, rfl⟩

/-- A frame sent while the counter stays away from its wrap returns, after
730 microseconds of cycles and at most 330 overshoots of less than `poll`
cycles. -/
theorem sendRcChannelsPacketLoop_returns (poll fuel : Nat) (self : CRSFModule) (w : World)
    (hp : 1 ≤ poll)
    (hw : w.getCycleCount + (730 * w.cpuFreqMHz + 330 * (poll - 1)) < 2 ^ 32)
    (hf : 2 * w.cpuFreqMHz < fuel) :
    ∃ r, self.sendRcChannelsPacketLoop poll fuel w = some r ∧
      w.Takes r.2 (730 * w.cpuFreqMHz) (730 * w.cpuFreqMHz + 330 * (poll - 1)) := by
  obtain ⟨w1, h1, t1⟩ := softUartSendBytesLoop_returns poll fuel [0xFF, 0x00, 0xFF, 0x00] 4 w hp
    (by omega) hf
  have c1 : w1.cpuFreqMHz = w.cpuFreqMHz := t1.1
  have td : w1.Takes (w1.delayMicroseconds 100) (100 * w.cpuFreqMHz) (100 * w.cpuFreqMHz) := by
    refine ⟨rfl, ?_, ?_⟩
    · show w1.cycles + 100 * w.cpuFreqMHz ≤ w1.cycles + 100 * w1.cpuFreqMHz
      rw [c1]
    · show w1.cycles + 100 * w1.cpuFreqMHz ≤ w1.cycles + 100 * w.cpuFreqMHz
      rw [c1]
  have t2 := takes_trans t1 td
  have c2 : (w1.delayMicroseconds 100).cpuFreqMHz = w.cpuFreqMHz := t2.1
  have r2 : (w1.delayMicroseconds 100).getCycleCount +
      (26 * (21 * w.cpuFreqMHz + 11 * (poll - 1))) < 2 ^ 32 :=
    takes_register t2 (by omega)
  have hsz : CRSF_FRAME_SIZE = 26 := rfl
  obtain ⟨w3, h3, t3⟩ := softUartSendBytesLoop_returns poll fuel
    (frameBytes (w1.delayMicroseconds 100).stack self.channelManager.getChannelData)
    CRSF_FRAME_SIZE (w1.delayMicroseconds 100) hp (by rw [c2, hsz]; exact r2)
    (by rw [c2]; exact hf)
  rw [c2, hsz] at t3
  have t := takes_trans t2 t3
  have tk : w.Takes w3 (730 * w.cpuFreqMHz) (730 * w.cpuFreqMHz + 330 * (poll - 1)) := by
    obtain ⟨f, a, b⟩ := t
    exact ⟨f, by omega, by omega⟩
  have hpre : sendSyncPreambleLoop poll fuel w = some (w1.delayMicroseconds 100) := by
    unfold sendSyncPreambleLoop
    simp only [bind, Option.bind_eq_some, Option.some.injEq]
    exact ⟨w1, h1, rfl⟩
  unfold CRSFModule.sendRcChannelsPacketLoop
  simp only [bind, Option.bind_eq_some]
  by_cases hdm : self.debugMode = true
  · by_cases hdp : (w3.millis + 2 ^ 32 - self.lastDebugPrint) % 2 ^ 32 > 500
    · refine ⟨({ self with lastDebugPrint := (w3.emit Event.serialPrint).millis },
        w3.emit Event.serialPrint), ⟨_, hpre, w3, h3, ?_⟩, ?_⟩
      · rw [if_pos hdm, if_pos hdp]
      · exact tk
    · refine ⟨(self, w3), ⟨_, hpre, w3, h3, ?_⟩, tk⟩
      rw [if_pos hdm, if_neg hdp]
  · refine ⟨(self, w3), ⟨_, hpre, w3, h3, ?_⟩, tk⟩
    rw [if_neg hdm]

/-! ### Waits that step over their target next to the wrap of the counter -/

theorem foldlM_none_head {α : Type} (f : World → α → Option World) (x : α) (xs : List α)
    (w : World) (h : f w x = none) : (x :: xs).foldlM f w = none := by
  simp only [List.foldlM_cons, bind, h, Option.none_bind]

/-- With 64 cycles between two reads, a bit started 500 cycles before the
wrap at 240 MHz never ends: the reads go 52 below the wrap, then 12 past it,
and stay 12 modulo 64, while the target is 20 below the wrap. -/
theorem uartSendBitLoop_hangs (fuel : Nat) (b : Bool) (w : World) (hc : w.cycles = 4294966796)
    (hf : w.cpuFreqMHz = 240) : uartSendBitLoop 64 fuel b w = none := by
  unfold uartSendBitLoop
  simp only
  have hs : (w.emit (Event.digitalWrite CRSF_TX_PIN (!b))).getCycleCount = 4294966796 := by
    show w.cycles % 2 ^ 32 = 4294966796
    rw [hc]
    decide
  have hf2 : ((w.emit (Event.digitalWrite CRSF_TX_PIN (!b))).emit
      (Event.getCycleCount (w.emit (Event.digitalWrite CRSF_TX_PIN (!b))).getCycleCount)).cpuFreqMHz
      = 240 := hf
  rw [hf2, hs]
  have ht : (4294966796 + BIT_TIME_US * 240 % 2 ^ 32) % 2 ^ 32 = 4294967276 := by decide
  rw [ht]
  refine busyWaitLoop_none 64 4294967276 (fun c => c % 64 = 12) (fun c h => ?_) fuel _ ?_
  · constructor
    · have h12 : c % 64 = 12 := h
      omega
    · show (c + 64) % 64 = 12
      have h12 : c % 64 = 12 := h
      omega
  · show w.cycles % 64 = 12
    rw [hc]

/-- Reads that are 7 cycles apart and start 481 below the wrap do not return
`2 ^ 32 - 1` before read number 3681400608. -/
theorem step_over_reads (k : Nat) (hk : k < 3681400608) :
    (4294966815 + 7 * k) % 4294967296 < 4294967295 := by
  by_contra hne
  have hlt : (4294966815 + 7 * k) % 4294967296 < 4294967296 := Nat.mod_lt _ (by decide)
  generalize hx : (4294966815 + 7 * k) % 4294967296 = x at hlt hne
  have heq : x = 4294967295 := Nat.le_antisymm (Nat.le_of_lt_succ hlt) (Nat.not_lt.mp hne)
  subst heq
  have h7 : (7 * k) % 4294967296 = 480 := by
    have e1 : 7 * k + 4294967296 = (4294966815 + 7 * k) + 481 := by ring
    have e2 : (7 * k + 4294967296) % 4294967296 = (7 * k) % 4294967296 :=
      Nat.add_mod_right _ _
    rw [← e2, e1, Nat.add_mod, hx]
  have hmul : (3067833783 * (7 * k)) % 4294967296 =
      (3067833783 % 4294967296 * 480) % 4294967296 := by
    rw [Nat.mul_mod, h7]
  have hid : 3067833783 * (7 * k) = k + 4294967296 * (5 * k) := by ring
  rw [hid, Nat.add_mul_mod_self_left] at hmul
  have hnum : (3067833783 % 4294967296 * 480) % 4294967296 = 3681400608 := by norm_num
  rw [hnum] at hmul
  have hle := Nat.mod_le k 4294967296
  rw [hmul] at hle
  exact absurd hk (Nat.not_lt.mpr hle)
/-- With 7 cycles between two reads, a bit started 481 cycles before the
wrap at 240 MHz steps over its target `2 ^ 32 - 1`: the reads go 5 below the
wrap, then 2 past it, and none of the first 3681400608 reads (107 seconds)
returns `2 ^ 32 - 1`. -/
theorem uartSendBitLoop_steps_over (fuel : Nat) (b : Bool) (w : World)
    (hc : w.cycles = 4294966815) (hf : w.cpuFreqMHz = 240) (hfuel : fuel ≤ 3681400608) :
    uartSendBitLoop 7 fuel b w = none := by
  unfold uartSendBitLoop
  simp only
  have hs : (w.emit (Event.digitalWrite CRSF_TX_PIN (!b))).getCycleCount = 4294966815 := by
    show w.cycles % 2 ^ 32 = 4294966815
    rw [hc]
    decide
  have hf2 : ((w.emit (Event.digitalWrite CRSF_TX_PIN (!b))).emit
      (Event.getCycleCount (w.emit (Event.digitalWrite CRSF_TX_PIN (!b))).getCycleCount)).cpuFreqMHz
      = 240 := hf
  rw [hf2, hs]
  have ht : (4294966815 + BIT_TIME_US * 240 % 2 ^ 32) % 2 ^ 32 = 4294967295 := by decide
  rw [ht]
  have hlow : ∀ k, k < 3681400608 → (4294966815 + 7 * k) % 2 ^ 32 < 4294967295 :=
    fun k hk => step_over_reads k hk
  refine busyWaitLoop_none_bounded 7 4294967295 4294966815 3681400608 hlow fuel 0 _ ?_
    (by rw [Nat.zero_add]; exact hfuel)
  show w.cycles = 4294966815 + 7 * 0
  rw [hc]

theorem softUartSendByteLoop_none (poll fuel data : Nat) (w : World)
    (h : uartSendBitLoop poll fuel false (w.emit Event.noInterrupts) = none) :
    softUartSendByteLoop poll fuel data w = none := by
  unfold softUartSendByteLoop
  simp only [bind, h, Option.none_bind]

theorem softUartSendBytesLoop_none (poll fuel : Nat) (data : List Nat) (len : Nat) (w : World)
    (h : uartSendBitLoop poll fuel false ((w.emit (Event.digitalWrite DEBUG_LED_PIN true)).emit
      Event.noInterrupts) = none) :
    softUartSendBytesLoop poll fuel data (len + 1) w = none := by
  unfold softUartSendBytesLoop
  have e : List.range (len + 1) = 0 :: (List.range len).map Nat.succ := List.range_succ_eq_map len
  rw [e]
  simp only [bind]
  rw [foldlM_none_head _ _ _ _ (softUartSendByteLoop_none poll fuel _ _ h)]
  rfl

/-- A frame whose first wait does not end within the fuel does not return. -/
theorem sendRcChannelsPacketLoop_none (poll fuel : Nat) (self : CRSFModule) (w : World)
    (h : uartSendBitLoop poll fuel false ((w.emit (Event.digitalWrite DEBUG_LED_PIN true)).emit
      Event.noInterrupts) = none) :
    self.sendRcChannelsPacketLoop poll fuel w = none := by
  have h1 : sendSyncPreambleLoop poll fuel w = none := by
    unfold sendSyncPreambleLoop
    simp only [bind]
    rw [softUartSendBytesLoop_none poll fuel _ 3 w h]
    rfl
  unfold CRSFModule.sendRcChannelsPacketLoop
  simp only [bind]
  rw [h1]
  rfl

/-! ### The clock does not run backwards -/

theorem busyWaitUntil_cycles_le (w : World) (target : Nat) :
    w.cycles ≤ (w.busyWaitUntil target).cycles := by
  unfold World.busyWaitUntil
  split
  · exact Nat.le_add_right _ _
  · exact le_refl _

theorem uartSendBit_cycles_le (b : Bool) (w : World) : w.cycles ≤ (uartSendBit b w).cycles := by
  unfold uartSendBit
  simp only
  exact busyWaitUntil_cycles_le (w.emit (Event.digitalWrite CRSF_TX_PIN (!b))) _

theorem foldl_cycles_le {α : Type} (f : World → α → World)
    (hf : ∀ w x, w.cycles ≤ (f w x).cycles) (l : List α) (w : World) :
    w.cycles ≤ (l.foldl f w).cycles := by
  induction l generalizing w with
  | nil => exact le_refl _
  | cons x xs ih => rw [List.foldl_cons]; exact le_trans (hf w x) (ih _)

theorem softUartSendByte_cycles_le (data : Nat) (w : World) :
    w.cycles ≤ (softUartSendByte data w).cycles := by
  have h1 := uartSendBit_cycles_le false (w.emit Event.noInterrupts)
  have h2 := foldl_cycles_le (fun w i => uartSendBit (decide (data &&& (1 <<< i) ≠ 0)) w)
    (fun w i => uartSendBit_cycles_le _ w) (List.range 8)
    (uartSendBit false (w.emit Event.noInterrupts))
  unfold softUartSendByte
  simp only [emit_cycles]
  generalize (List.range 8).foldl (fun w i => uartSendBit (decide (data &&& (1 <<< i) ≠ 0)) w)
    (uartSendBit false (w.emit Event.noInterrupts)) = w8 at h2 ⊢
  have h3 := uartSendBit_cycles_le true w8
  generalize uartSendBit true w8 = w9 at h3 ⊢
  have h4 := busyWaitUntil_cycles_le w9
    ((w9.getCycleCount + (BIT_TIME_US / 2 * w9.cpuFreqMHz) % 2 ^ 32) % 2 ^ 32)
  have h0 : (w.emit Event.noInterrupts).cycles = w.cycles := rfl
  omega

theorem softUartSendBytes_cycles_le (data : List Nat) (len : Nat) (w : World) :
    w.cycles ≤ (softUartSendBytes data len w).cycles := by
  have h := foldl_cycles_le (fun w i => softUartSendByte (data.getD i 0) w)
    (fun w i => softUartSendByte_cycles_le _ w) (List.range len)
    (w.emit (Event.digitalWrite DEBUG_LED_PIN true))
  unfold softUartSendBytes
  simp only [emit_cycles]
  exact h

theorem sendRcChannelsPacket_cycles_le (self : CRSFModule) (w : World) :
    w.cycles ≤ (self.sendRcChannelsPacket w).2.cycles := by
  have h1 := softUartSendBytes_cycles_le [0xFF, 0x00, 0xFF, 0x00] 4 w
  have h2 : (softUartSendBytes [0xFF, 0x00, 0xFF, 0x00] 4 w).cycles ≤
      (sendSyncPreamble w).cycles := by
    rw [sendSyncPreamble_cycles]
    exact Nat.le_add_right _ _
  unfold CRSFModule.sendRcChannelsPacket
  simp only
  generalize sendSyncPreamble w = w1 at h2 ⊢
  have h3 := softUartSendBytes_cycles_le
    (frameBytes w1.stack self.channelManager.getChannelData) CRSF_FRAME_SIZE w1
  generalize softUartSendBytes (frameBytes w1.stack self.channelManager.getChannelData)
    CRSF_FRAME_SIZE w1 = w2 at h3 ⊢
  split
  · split
    · show w.cycles ≤ w2.cycles
      omega
    · show w.cycles ≤ w2.cycles
      omega
  · show w.cycles ≤ w2.cycles
    omega

/-- What `update` with the loops does when a frame is due: the frame is sent
and the reading taken on entry is stored. -/
theorem updateLoop_due (poll fuel : Nat) (self : CRSFModule) (w : World)
    (h : 20 ≤ (w.millis + 2 ^ 32 - self.lastUpdateTime) % 2 ^ 32) :
    self.updateLoop poll fuel w =
      (self.sendRcChannelsPacketLoop poll fuel w).bind
        (fun r => some ({ r.1 with lastUpdateTime := w.millis }, r.2)) := by
  unfold CRSFModule.updateLoop
  simp only [bind]
  rw [if_pos h]

/-! ## The claims -/

/-- C1: for every byte buffer of length 0..255, `crcCRSF(buf, len)` equals the
standard CRC-8 with polynomial 0xD5, initial value 0, no reflection and no
final XOR: it is the remainder `crc8Spec buf` of the message polynomial times
`x^8` modulo `x^8+x^7+x^6+x^4+x^2+1` over GF(2) computed by long division most
significant bit first, it has degree below 8 and differs from the dividend by
a multiple of the generator; the empty buffer gives 0 and the ASCII bytes of
"123456789" give 0xBC. -/
theorem crcCRSF_is_standard_crc8 (buf : List Nat) (hlen : buf.length ≤ 255)
    (hbuf : ∀ b ∈ buf, b < 256) :
    crcCRSF buf buf.length = crc8Spec buf ∧
      crcCRSF buf buf.length < 2 ^ 8 ∧
      (∃ q, msgPoly buf * 2 ^ 8 = gf2Mul q crc8Poly ^^^ crcCRSF buf buf.length) ∧
      crcCRSF [] 0 = 0 ∧ crcCRSF checkString 9 = 0xBC := by
  refine ⟨crcCRSF_eq_crc8Spec buf hlen hbuf, ?_, ?_, by decide, by decide⟩
  · rw [crcCRSF_eq_fold buf hlen]; exact (crc_fold_cong buf hbuf).2
  · rw [crcCRSF_eq_fold buf hlen]; exact (crc_fold_cong buf hbuf).1

/-- C1 at the check string "123456789". -/
theorem crcCRSF_is_standard_crc8_witness :
    checkString.length ≤ 255 ∧ (∀ b ∈ checkString, b < 256) ∧
      crcCRSF checkString checkString.length = crc8Spec checkString :=
  ⟨by decide, by decide, (crcCRSF_is_standard_crc8 checkString (by decide) (by decide)).1⟩

/-- C2: for every array of 16 channel values (any naturals, in particular any
`uint16_t`), whatever the buffer held before and wherever it lies,
`packRcChannels` leaves a 22-byte payload in which bit `k mod 8` of byte
`k div 8` is bit `k mod 11` of channel `k div 11`, for every `k` in 0..175:
channels in order, 11 bits each, least significant bit first, no padding, the
16 fields ending exactly at bit 176 = 8 * 22. -/
theorem packRcChannels_bit_layout (mem : Nat → Nat) (buffer : Nat) (channels : List Nat)
    (hlen : channels.length = NUM_CHANNELS) :
    (packedPayload mem buffer channels).length = 22 ∧
      (∀ k, k < 176 →
        ((packedPayload mem buffer channels).getD (k / 8) 0).testBit (k % 8) =
          (channels.getD (k / 11) 0).testBit (k % 11)) ∧
      (∀ b ∈ packedPayload mem buffer channels, b < 256) ∧
      channels.length * 11 = 176 ∧ 176 = 8 * 22 := by
  refine ⟨packedPayload_length mem buffer channels,
    fun k hk => packedPayload_testBit mem buffer channels k hk,
    packedPayload_lt mem buffer channels, ?_, rfl⟩
  rw [hlen]; rfl

/-- C2 at a snapshot with all 16 bits in use. -/
theorem packRcChannels_bit_layout_witness :
    wideChannels.length = NUM_CHANNELS ∧
      ∀ k, k < 176 →
        ((packedPayload (fun _ => 0xAA) 3 wideChannels).getD (k / 8) 0).testBit (k % 8) =
          (wideChannels.getD (k / 11) 0).testBit (k % 11) :=
  ⟨by decide, (packRcChannels_bit_layout (fun _ => 0xAA) 3 wideChannels (by decide)).2.1⟩

/-- C3: for every 16-value channel snapshot and every initial content of the
stack, the frame built by `sendRcChannelsPacket` is exactly 26 bytes with
byte 0 = 0xEE, byte 1 = 24, byte 2 = 0x16, bytes 3..24 the payload of
`packRcChannels` and byte 25 = `crcCRSF` over the 23 bytes at offsets 2..24;
bytes 0, 1 and 2 are the same for every snapshot. -/
theorem sendRcChannelsPacket_frame_layout (stack : Nat → Nat) (channels : List Nat)
    (_hlen : channels.length = NUM_CHANNELS) :
    (frameBytes stack channels).length = 26 ∧
      (frameBytes stack channels).getD 0 0 = 0xEE ∧
      (frameBytes stack channels).getD 1 0 = 24 ∧
      (frameBytes stack channels).getD 2 0 = 0x16 ∧
      (∀ (mem : Nat → Nat) (buffer : Nat),
        ((frameBytes stack channels).drop 3).take 22 = packedPayload mem buffer channels) ∧
      (frameBytes stack channels).getD 25 0 =
        crcCRSF (((frameBytes stack channels).drop 2).take 23) 23 ∧
      (∀ (stack2 : Nat → Nat) (channels2 : List Nat), channels2.length = NUM_CHANNELS →
        (frameBytes stack2 channels2).take 3 = (frameBytes stack channels).take 3) := by
  have hb := rcChannelsFrame_bytes stack stack 3 channels
  have hl := packedPayload_length stack 3 channels
  have hdrop3 : (frameBytes stack channels).drop 3 = packedPayload stack 3 channels ++
      [crcCRSF (0x16 :: packedPayload stack 3 channels) 23] := by
    rw [hb]; rfl
  have hdrop2 : (frameBytes stack channels).drop 2 = 0x16 :: (packedPayload stack 3 channels ++
      [crcCRSF (0x16 :: packedPayload stack 3 channels) 23]) := by
    rw [hb]; rfl
  have h25 : (frameBytes stack channels).getD 25 0 =
      crcCRSF (0x16 :: packedPayload stack 3 channels) 23 := by
    rw [hb]
    exact getD_append_length _ _ 22 hl
  refine ⟨by simp [frameBytes, readBytes, CRSF_FRAME_SIZE], by rw [hb]; rfl, by rw [hb]; rfl,
    by rw [hb]; rfl, ?_, ?_, ?_⟩
  · intro mem buffer
    rw [hdrop3, packedPayload_indep mem stack buffer 3 channels]
    exact take_append_length _ _ 22 hl
  · rw [h25, hdrop2]
    have e : List.take 23 (0x16 :: (packedPayload stack 3 channels ++
        [crcCRSF (0x16 :: packedPayload stack 3 channels) 23])) =
        0x16 :: packedPayload stack 3 channels := by
      rw [show (23 : Nat) = 22 + 1 from rfl, List.take_succ_cons,
        take_append_length _ _ 22 hl]
    rw [e]
  · intro stack2 channels2 _
    rw [hb, rcChannelsFrame_bytes stack2 stack2 3 channels2, take_three_cons, take_three_cons]

/-- C3 at the all-zero snapshot. -/
theorem sendRcChannelsPacket_frame_layout_witness :
    zeroChannels.length = NUM_CHANNELS ∧ (frameBytes (fun _ => 0x55) zeroChannels).length = 26 ∧
      (frameBytes (fun _ => 0x55) zeroChannels).getD 1 0 = 24 :=
  ⟨by decide,
    (sendRcChannelsPacket_frame_layout (fun _ => 0x55) zeroChannels (by decide)).1,
    (sendRcChannelsPacket_frame_layout (fun _ => 0x55) zeroChannels (by decide)).2.2.1⟩

/-- C4: round trip.  For every array of 16 values each in [0, 2047], decoding
the packed payload with the inverse decoder (16 consecutive 11-bit fields read
least significant bit first from the 22 bytes) gives the array back; hence
`packRcChannels` is injective on arrays of 11-bit values. -/
theorem unpack_pack_roundtrip (mem : Nat → Nat) (buffer : Nat) (channels : List Nat)
    (hlen : channels.length = NUM_CHANNELS) (hv : ∀ v ∈ channels, v ≤ 2047) :
    unpackRcChannels (packedPayload mem buffer channels) = channels ∧
      ∀ (mem2 : Nat → Nat) (buffer2 : Nat) (channels2 : List Nat),
        channels2.length = NUM_CHANNELS → (∀ v ∈ channels2, v ≤ 2047) →
        packedPayload mem2 buffer2 channels2 = packedPayload mem buffer channels →
        channels2 = channels := by
  have h1 := unpack_pack mem buffer channels hlen (fun v hv2 => Nat.lt_succ_of_le (hv v hv2))
  refine ⟨h1, ?_⟩
  intro mem2 buffer2 channels2 hlen2 hv2 heq
  have h2 := unpack_pack mem2 buffer2 channels2 hlen2
    (fun v hv3 => Nat.lt_succ_of_le (hv2 v hv3))
  rw [← h1, ← h2, heq]

/-- C4 at a sample snapshot. -/
theorem unpack_pack_roundtrip_witness :
    sampleChannels.length = NUM_CHANNELS ∧ (∀ v ∈ sampleChannels, v ≤ 2047) ∧
      unpackRcChannels (packedPayload (fun _ => 0) 0 sampleChannels) = sampleChannels :=
  ⟨by decide, by decide,
    (unpack_pack_roundtrip (fun _ => 0) 0 sampleChannels (by decide) (by decide)).1⟩

/-- C5: the checksum detects every single-byte corruption.  For every buffer
of length `n` with `1 <= n <= 255`, every index `i < n` and every byte `v`
different from `buf[i]`, `crcCRSF` of the buffer with byte `i` replaced by `v`
differs from `crcCRSF` of the original buffer. -/
theorem crcCRSF_detects_single_byte (buf : List Nat) (i v : Nat) (_h1 : 1 ≤ buf.length)
    (hlen : buf.length ≤ 255) (hbuf : ∀ b ∈ buf, b < 256) (hi : i < buf.length)
    (hv : v < 256) (hne : v ≠ buf.getD i 0) :
    crcCRSF (buf.set i v) buf.length ≠ crcCRSF buf buf.length := by
  have e : crcCRSF (buf.set i v) buf.length = (buf.set i v).foldl crcStep 0 := by
    have h := crcCRSF_eq_fold (buf.set i v) (by rw [List.length_set]; exact hlen)
    rwa [List.length_set] at h
  rw [e, crcCRSF_eq_fold buf hlen]
  exact foldl_crcStep_set_ne buf i v hbuf hi hv hne

/-- C5 on the 23 covered bytes of the all-zero frame, payload byte 5 flipped
to 1. -/
theorem crcCRSF_detects_single_byte_witness :
    (1 ≤ zeroCovered.length ∧ zeroCovered.length ≤ 255 ∧ (∀ b ∈ zeroCovered, b < 256) ∧
      6 < zeroCovered.length ∧ 1 < 256 ∧ 1 ≠ zeroCovered.getD 6 0) ∧
      crcCRSF (zeroCovered.set 6 1) zeroCovered.length ≠ crcCRSF zeroCovered zeroCovered.length :=
  ⟨⟨by decide, by decide, by decide, by decide, by decide, by decide⟩,
    crcCRSF_detects_single_byte zeroCovered 6 1 (by decide) (by decide) (by decide) (by decide)
      (by decide) (by decide)⟩

/-- C6, refuted as stated: the two-byte buffers `[0x00, 0xB3]` and
`[0xB3, 0x00]` are reorderings of each other, are different byte sequences,
and have the same `crcCRSF`. -/
theorem crcCRSF_reorder_collision :
    List.Perm [0xB3, 0x00] [0x00, 0xB3] ∧ ([0xB3, 0x00] : List Nat) ≠ [0x00, 0xB3] ∧
      crcCRSF [0xB3, 0x00] 2 = crcCRSF [0x00, 0xB3] 2 :=
  ⟨List.Perm.swap 0x00 0xB3 [], by decide, by decide⟩

/-- C6, amended: the checksum depends on the order of the bytes, but not every
reordering changes it.  Swapping two adjacent bytes `a`, `b` anywhere in a
buffer leaves `crcCRSF` unchanged exactly when `a = b` or `a XOR b = 0xB3`;
every other adjacent swap changes the checksum. -/
theorem crcCRSF_adjacent_swap (pre post : List Nat) (a b : Nat)
    (hlen : (pre ++ a :: b :: post).length ≤ 255)
    (hbuf : ∀ x ∈ pre ++ a :: b :: post, x < 256) :
    crcCRSF (pre ++ b :: a :: post) (pre ++ b :: a :: post).length =
        crcCRSF (pre ++ a :: b :: post) (pre ++ a :: b :: post).length ↔
      (a = b ∨ a ^^^ b = 0xB3) := by
  have ha : a < 256 := hbuf a (by simp)
  have hb : b < 256 := hbuf b (by simp)
  have hpost : ∀ x ∈ post, x < 256 := fun x hx => hbuf x (by simp [hx])
  have hlen2 : (pre ++ b :: a :: post).length ≤ 255 := by
    simpa using hlen
  rw [crcCRSF_eq_fold _ hlen, crcCRSF_eq_fold _ hlen2]
  exact foldl_crcStep_swap_iff pre post a b ha hb hpost

/-- C6 amended, at the buffer `[0x16, 1, 2, 0]` with the bytes 1 and 2
swapped: the swap is detected. -/
theorem crcCRSF_adjacent_swap_witness :
    (([0x16] ++ 1 :: 2 :: [0] : List Nat).length ≤ 255 ∧
      (∀ x ∈ ([0x16] ++ 1 :: 2 :: [0] : List Nat), x < 256)) ∧
      (crcCRSF ([0x16] ++ 2 :: 1 :: [0]) ([0x16] ++ 2 :: 1 :: [0] : List Nat).length =
          crcCRSF ([0x16] ++ 1 :: 2 :: [0]) ([0x16] ++ 1 :: 2 :: [0] : List Nat).length ↔
        ((1 : Nat) = 2 ∨ 1 ^^^ 2 = 0xB3)) :=
  ⟨⟨by decide, by decide⟩, crcCRSF_adjacent_swap [0x16] [0] 1 2 (by decide) (by decide)⟩

/-- C7: checksum golden vector.  `crcCRSF` over the 23 bytes 0x16 followed by
22 zero bytes is 0xEF, and the frame built for the all-zero channel snapshot
has byte 25 = 0xEF, whatever the stack held. -/
theorem crcCRSF_golden_vector :
    crcCRSF (0x16 :: List.replicate 22 0) 23 = 0xEF ∧
      ∀ stack : Nat → Nat, (frameBytes stack (List.replicate 16 0)).getD 25 0 = 0xEF ∧
        rcChannelsFrame stack (List.replicate 16 0) 25 = 0xEF := by
  have hcrc : crcCRSF (0x16 :: List.replicate 22 0) 23 = 0xEF := by decide
  refine ⟨hcrc, fun stack => ?_⟩
  have hb := rcChannelsFrame_bytes stack stack 3 (List.replicate 16 0)
  rw [packedPayload_zero, hcrc] at hb
  have h25 : (frameBytes stack (List.replicate 16 0)).getD 25 0 = 0xEF := by
    rw [hb]; rfl
  refine ⟨h25, ?_⟩
  have hg := getD_readBytes (rcChannelsFrame stack (List.replicate 16 0)) 0 CRSF_FRAME_SIZE 25
    (by decide)
  rw [Nat.zero_add] at hg
  rw [← hg]
  exact h25

/-- C8: bit-order example.  Packing channel 0 = 992 (0x3E0) with channels
1..15 = 0 yields payload byte 0 = 0xE0, byte 1 = 0x03 and the remaining 20
bytes 0, whatever the buffer held before. -/
theorem packRcChannels_ch0_992 (mem : Nat → Nat) (buffer : Nat) :
    packedPayload mem buffer (992 :: List.replicate 15 0) =
      0xE0 :: 0x03 :: List.replicate 20 0 := by
  rw [packedPayload, packRcChannels_bytes]
  decide

/-- C9: out-of-range inputs are truncated, not rejected.  For every array of
16 values, the payload equals the payload of the array with every value
masked by 0x7FF; more generally two arrays that agree in the low 11 bits of
every channel give the same payload, so bits 11..15 of a channel influence no
output byte. -/
theorem packRcChannels_truncates (mem : Nat → Nat) (buffer : Nat) (values : List Nat)
    (_hlen : values.length = NUM_CHANNELS) :
    packedPayload mem buffer values =
        packedPayload mem buffer (values.map (fun v => v &&& 0x7FF)) ∧
      ∀ values2 : List Nat, values2.length = NUM_CHANNELS →
        (∀ i, i < 16 → values2.getD i 0 &&& 0x7FF = values.getD i 0 &&& 0x7FF) →
        packedPayload mem buffer values2 = packedPayload mem buffer values := by
  constructor
  · apply packedPayload_congr
    intro i _
    rw [getD_map_mask, and_2047_mod]
  · intro values2 _ h
    apply packedPayload_congr
    intro i hi
    rw [← and_2047_mod (values2.getD i 0), ← and_2047_mod (values.getD i 0), h i hi]

/-- C9 at a snapshot with bits 11..15 set in several channels. -/
theorem packRcChannels_truncates_witness :
    wideChannels.length = NUM_CHANNELS ∧
      packedPayload (fun _ => 0) 0 wideChannels =
        packedPayload (fun _ => 0) 0 (wideChannels.map (fun v => v &&& 0x7FF)) :=
  ⟨by decide, (packRcChannels_truncates (fun _ => 0) 0 wideChannels (by decide)).1⟩

/-- C10, refuted as stated: with the clock starting at 0, a freshly constructed
driver and `update()` called at t = 0, 1, ..., 99 ms, the transmissions happen
at t = 20, 40, 60 and 80 ms only: there are 4 of them, not 5, and none at
t = 0. -/
theorem rate_gate_not_five :
    txTimes (List.range 100) (CRSFModule.new freshChannels, bootWorld) = [20, 40, 60, 80] ∧
      (txTimes (List.range 100) (CRSFModule.new freshChannels, bootWorld)).length ≠ 5 ∧
      txTimes (List.range 100) (CRSFModule.new freshChannels, bootWorld) ≠
        [0, 20, 40, 60, 80] := by
  have h := txTimes_eq_gateTimes (List.range 100) (CRSFModule.new freshChannels, bootWorld)
    (by decide) (fun t ht => by
      have := List.mem_range.mp ht
      omega)
  have h2 : txTimes (List.range 100) (CRSFModule.new freshChannels, bootWorld) =
      [20, 40, 60, 80] := h.trans gateTimes_range_100
  rw [h2]
  exact ⟨rfl, by decide, by decide⟩

/-- C10, amended: with a simulated millisecond clock starting at 0 and a
freshly constructed driver (`lastUpdateTime = 0`), calling `update()` once
every 1 ms for t = 0, 1, ..., 99 triggers exactly 4 transmissions, at
t = 20, 40, 60 and 80 ms, and never more; the call at t = 0 is gated because
0 ms have elapsed since the initial `lastUpdateTime`. -/
theorem rate_gate_scenario (cm : ChannelManager) (w : World) (hcpu : 0 < w.cpuFreqMHz) :
    txTimes (List.range 100) (CRSFModule.new cm, w) = [20, 40, 60, 80] := by
  have h := txTimes_eq_gateTimes (List.range 100) (CRSFModule.new cm, w) hcpu
    (fun t ht => by
      have := List.mem_range.mp ht
      omega)
  exact h.trans gateTimes_range_100

/-- C10 amended, on a board just booted at 240 MHz. -/
theorem rate_gate_scenario_witness :
    0 < bootWorld.cpuFreqMHz ∧
      txTimes (List.range 100) (CRSFModule.new freshChannels, bootWorld) = [20, 40, 60, 80] :=
  ⟨by decide, rate_gate_scenario freshChannels bootWorld (by decide)⟩

/-- C11: `update()` triggers a frame transmission if and only if at least 20 ms
have elapsed since the stored last-send time (elapsed time as the code
measures it, `millis() - lastUpdateTime` on 32 bits, which is the plain
difference when the clock has not wrapped).  A call made sooner is a no-op:
the driver and the board, trace included, are unchanged.  A call that
triggers stores the clock reading and does exactly one
`sendRcChannelsPacket`, and the next call triggers if and only if 20 ms have
elapsed since that reading. -/
theorem update_gate (self : CRSFModule) (w : World) :
    (transmitted w (self.update w).2 = true ↔
        20 ≤ (w.millis + 2 ^ 32 - self.lastUpdateTime) % 2 ^ 32) ∧
      (¬ 20 ≤ (w.millis + 2 ^ 32 - self.lastUpdateTime) % 2 ^ 32 →
        self.update w = (self, w)) ∧
      (20 ≤ (w.millis + 2 ^ 32 - self.lastUpdateTime) % 2 ^ 32 →
        (self.update w).1.lastUpdateTime = w.millis ∧
          (self.update w).2 = (self.sendRcChannelsPacket w).2) ∧
      (self.lastUpdateTime ≤ w.millis →
        (w.millis + 2 ^ 32 - self.lastUpdateTime) % 2 ^ 32 =
          w.millis - self.lastUpdateTime) ∧
      (20 ≤ (w.millis + 2 ^ 32 - self.lastUpdateTime) % 2 ^ 32 →
        ∀ w2 : World, (transmitted w2 ((self.update w).1.update w2).2 = true ↔
          20 ≤ (w2.millis + 2 ^ 32 - w.millis) % 2 ^ 32)) := by
  refine ⟨transmitted_update_iff self w, update_gated self w, ?_,
    fun h => elapsed_eq_sub _ _ h (millis_lt w), ?_⟩
  · intro h
    rw [update_due self w h]
    exact ⟨rfl, rfl⟩
  · intro h w2
    have h2 := transmitted_update_iff (self.update w).1 w2
    rw [update_due self w h] at h2 ⊢
    exact h2

/-- C12: no catch-up or burst.  For every sequence of `update()` calls at
non-decreasing clock readings (below 2^32, none before the stored last-send
time), the readings of any two triggering calls, consecutive ones in
particular, differ by at least 20 ms, every triggering call comes at least 20 ms after the stored
time, the triggering readings are a subsequence of the calls, and a single
call leaves the board either untouched or as one `sendRcChannelsPacket`
leaves it: never two frames in one call, however long the pause before it. -/
theorem update_no_burst (ts : List Nat) (s : CRSFModule × World) (hcpu : 0 < s.2.cpuFreqMHz)
    (hsorted : ts.Pairwise (fun a b => a ≤ b)) (hlast : ∀ t ∈ ts, s.1.lastUpdateTime ≤ t)
    (hts : ∀ t ∈ ts, t < 2 ^ 32) :
    List.Pairwise (fun a b => a + 20 ≤ b) (txTimes ts s) ∧
      (∀ t ∈ txTimes ts s, s.1.lastUpdateTime + 20 ≤ t) ∧
      List.Sublist (txTimes ts s) ts ∧
      (∀ (self : CRSFModule) (w : World),
        (self.update w).2 = w ∨ (self.update w).2 = (self.sendRcChannelsPacket w).2) := by
  rw [txTimes_eq_gateTimes ts s hcpu hts]
  obtain ⟨h1, h2⟩ := gateTimes_spaced ts s.1.lastUpdateTime hsorted hlast hts
  refine ⟨h2, h1, gateTimes_sublist ts _, fun self w => ?_⟩
  by_cases h : 20 ≤ (w.millis + 2 ^ 32 - self.lastUpdateTime) % 2 ^ 32
  · rw [update_due self w h]; exact Or.inr rfl
  · rw [update_gated self w h]; exact Or.inl rfl

/-- C12 for a caller that polls irregularly and pauses for 960 ms and 3980 ms. -/
theorem update_no_burst_witness :
    (0 < bootWorld.cpuFreqMHz ∧ sampleReadings.Pairwise (fun a b => a ≤ b) ∧
      (∀ t ∈ sampleReadings, (CRSFModule.new freshChannels).lastUpdateTime ≤ t) ∧
      (∀ t ∈ sampleReadings, t < 2 ^ 32)) ∧
      List.Pairwise (fun a b => a + 20 ≤ b)
        (txTimes sampleReadings (CRSFModule.new freshChannels, bootWorld)) :=
  ⟨⟨by decide, by decide, by decide, by decide⟩,
    (update_no_burst sampleReadings (CRSFModule.new freshChannels, bootWorld) (by decide)
      (by decide) (by decide) (by decide)).1⟩

/-- C13: per-byte framing.  For every byte `b`, `softUartSendByte` appends the
framing `byteEvents b` to the trace and drives exactly 10 line levels, in this
order: HIGH (start bit), the complements of bits 0..7 of `b` (least
significant first), LOW (stop bit); each level is the complement of the
logical bit sent (0, the data bits, 1). -/
theorem softUartSendByte_framing (b : Nat) (w : World) :
    (softUartSendByte b w).trace = w.trace ++ byteEvents b ∧
      lineLevels (softUartSendByte b w).trace = lineLevels w.trace ++ lineLevels (byteEvents b) ∧
      lineLevels (byteEvents b) =
        [true, !b.testBit 0, !b.testBit 1, !b.testBit 2, !b.testBit 3, !b.testBit 4,
          !b.testBit 5, !b.testBit 6, !b.testBit 7, false] ∧
      lineLevels (byteEvents b) =
        ([false] ++ (List.range 8).map (fun i => b.testBit i) ++ [true]).map (fun v => !v) ∧
      (lineLevels (byteEvents b)).length = 10 := by
  have ht := softUartSendByte_trace b w
  have hl := lineLevels_byteEvents b
  refine ⟨ht, by rw [ht, lineLevels_append], hl, ?_, by rw [hl]; rfl⟩
  rw [hl]
  rfl

/-- C14: idle restoration.  For every buffer and every length (0 included),
the last level `softUartSendBytes` drives onto the TX line is LOW; the same
holds after every `sendRcChannelsPacket` (debug output or not) and after
`begin()`. -/
theorem softUartSendBytes_idle (data : List Nat) (len : Nat) (self : CRSFModule) (w : World) :
    lineLevel (softUartSendBytes data len w).trace = some false ∧
      lineLevel (softUartSendBytes data 0 w).trace = some false ∧
      lineLevel (self.sendRcChannelsPacket w).2.trace = some false ∧
      lineLevel (CRSFModule.begin w).trace = some false := by
  refine ⟨?_, ?_, ?_, ?_⟩
  · rw [softUartSendBytes_trace]; exact lineLevel_append_bufferEvents _ _
  · rw [softUartSendBytes_trace]; exact lineLevel_append_bufferEvents _ _
  · obtain ⟨tail, h1, _, h3⟩ := sendRcChannelsPacket_trace self w
    rw [h3]
    rcases h1 with h | h
    · rw [h, List.append_nil]; exact lineLevel_append_bufferEvents _ _
    · rw [h, lineLevel_append_serialPrint]; exact lineLevel_append_bufferEvents _ _
  · unfold CRSFModule.begin
    simp only [emit_trace]
    simp [lineLevel, lineLevels, txLevel, List.filterMap_append, CRSF_TX_PIN, DEBUG_LED_PIN]

/-- C15, refuted as stated: on a board just booted, `sendSyncPreamble` drives
41 levels onto the TX line, not the four levels high, low, high, low. -/
theorem preamble_not_four_levels :
    (lineLevels (sendSyncPreamble bootWorld).trace).length = 41 ∧
      lineLevels (sendSyncPreamble bootWorld).trace ≠ [true, false, true, false] := by
  rw [sendSyncPreamble_trace, lineLevels_append, lineLevels_append]
  decide

/-- C15, amended: before each frame the transmitter sends the four preamble
bytes 0xFF, 0x00, 0xFF, 0x00 through the byte transmitter, each framed with
start, data and stop bits: 40 line levels and the return to idle, which form
four HIGH pulses each followed by LOW (level runs high, low, high, low, high,
low, high, low).  Then comes a fixed gap of 100 microseconds (100 times the
CPU frequency in MHz cycles), and only then the frame buffer with the first
frame byte. -/
theorem preamble_then_gap_then_frame (self : CRSFModule) (w : World) :
    (sendSyncPreamble w).trace =
        w.trace ++ bufferEvents [0xFF, 0x00, 0xFF, 0x00] ++ [Event.delayMicroseconds 100] ∧
      lineLevels (bufferEvents [0xFF, 0x00, 0xFF, 0x00]) =
        [true, false, false, false, false, false, false, false, false, false,
          true, true, true, true, true, true, true, true, true, false,
          true, false, false, false, false, false, false, false, false, false,
          true, true, true, true, true, true, true, true, true, false, false] ∧
      (lineLevels (bufferEvents [0xFF, 0x00, 0xFF, 0x00])).destutter (fun a b => a ≠ b) =
        [true, false, true, false, true, false, true, false] ∧
      (sendSyncPreamble w).cycles =
        (softUartSendBytes [0xFF, 0x00, 0xFF, 0x00] 4 w).cycles +
          100 * (softUartSendBytes [0xFF, 0x00, 0xFF, 0x00] 4 w).cpuFreqMHz ∧
      (∃ tail : List Event, (self.sendRcChannelsPacket w).2.trace =
        (sendSyncPreamble w).trace ++
          bufferEvents (frameBytes w.stack self.channelManager.getChannelData) ++ tail) := by
  have hlev : lineLevels (bufferEvents [0xFF, 0x00, 0xFF, 0x00]) =
      [true, false, false, false, false, false, false, false, false, false,
        true, true, true, true, true, true, true, true, true, false,
        true, false, false, false, false, false, false, false, false, false,
        true, true, true, true, true, true, true, true, true, false, false] := by decide
  refine ⟨sendSyncPreamble_trace w, hlev, by rw [hlev]; decide, sendSyncPreamble_cycles w, ?_⟩
  obtain ⟨tail, _, _, h3⟩ := sendRcChannelsPacket_trace self w
  exact ⟨tail, by rw [h3, sendSyncPreamble_trace]⟩

/-- Transmission order with the waits in closed form.  One call of
`sendRcChannelsPacket` appends to the trace, in this order, the preamble
buffer, the gap, the frame buffer, and at most one debug print; the bytes
handed to the byte transmitter, read back from those events, are exactly the
four preamble bytes followed by frame bytes 0, 1, ..., 25 in increasing index
order, each once (30 bytes); the line ends at idle.  Whether the call
returns is settled with the loops of the source, in
`sendRcChannelsPacket_completion`. -/
theorem sendRcChannelsPacket_order (self : CRSFModule) (w : World) :
    ∃ tail : List Event, (tail = [] ∨ tail = [Event.serialPrint]) ∧
      (self.sendRcChannelsPacket w).2.trace =
        w.trace ++ (bufferEvents preambleBytes ++ [Event.delayMicroseconds 100] ++
          bufferEvents (frameBytes w.stack self.channelManager.getChannelData) ++ tail) ∧
      sentBytes (bufferEvents preambleBytes ++ [Event.delayMicroseconds 100] ++
          bufferEvents (frameBytes w.stack self.channelManager.getChannelData) ++ tail) =
        [0xFF, 0x00, 0xFF, 0x00] ++ frameBytes w.stack self.channelManager.getChannelData ∧
      (frameBytes w.stack self.channelManager.getChannelData).length = 26 ∧
      (∀ i, i < 26 →
        (sentBytes (bufferEvents preambleBytes ++ [Event.delayMicroseconds 100] ++
          bufferEvents (frameBytes w.stack self.channelManager.getChannelData) ++
            tail)).getD (4 + i) 0 =
          rcChannelsFrame w.stack self.channelManager.getChannelData i) ∧
      lineLevel (self.sendRcChannelsPacket w).2.trace = some false := by
  obtain ⟨tail, h1, _, h3⟩ := sendRcChannelsPacket_trace self w
  have hpre : ∀ b ∈ preambleBytes, b < 256 := by decide
  have hfr := frameBytes_lt w.stack self.channelManager.getChannelData
  have htail : sentBytes tail = [] := by
    rcases h1 with h | h
    · rw [h]; rfl
    · rw [h, sentBytes_cons_serialPrint]; rfl
  have hsent : sentBytes (bufferEvents preambleBytes ++ [Event.delayMicroseconds 100] ++
      bufferEvents (frameBytes w.stack self.channelManager.getChannelData) ++ tail) =
      [0xFF, 0x00, 0xFF, 0x00] ++ frameBytes w.stack self.channelManager.getChannelData := by
    rw [List.append_assoc, List.append_assoc, sentBytes_bufferEvents _ hpre]
    simp only [List.cons_append, List.nil_append]
    rw [sentBytes_cons_delay, sentBytes_bufferEvents _ hfr, htail, List.append_nil]
    rfl
  have hidle : lineLevel (self.sendRcChannelsPacket w).2.trace = some false := by
    rw [h3]
    rcases h1 with h | h
    · rw [h, List.append_nil]; exact lineLevel_append_bufferEvents _ _
    · rw [h, lineLevel_append_serialPrint]; exact lineLevel_append_bufferEvents _ _
  refine ⟨tail, h1, ?_, hsent, frameBytes_length _ _, ?_, hidle⟩
  · rw [h3]; simp only [List.append_assoc]
  · intro i hi
    rw [hsent]
    have e : ([0xFF, 0x00, 0xFF, 0x00] ++
        frameBytes w.stack self.channelManager.getChannelData).getD (4 + i) 0 =
        (frameBytes w.stack self.channelManager.getChannelData).getD i 0 := by
      simp only [List.cons_append, List.nil_append]
      rw [show 4 + i = i + 1 + 1 + 1 + 1 by omega]
      rfl
    rw [e]
    unfold frameBytes
    rw [getD_readBytes _ _ _ _ (by simpa [CRSF_FRAME_SIZE] using hi), Nat.zero_add]

/-- Order of the calls of one byte with the waits in closed form.  The
events `softUartSendByte` appends start with `noInterrupts` and end with
`interrupts`, each occurring once; replayed with interrupts enabled at entry,
every one of the 10 line writes happens while interrupts are disabled and
interrupts are enabled at return.  Where the waits lie among these calls is
settled with the loops of the source, in `softUartSendByteLoop_atomic`. -/
theorem softUartSendByte_atomic (b : Nat) (w : World) :
    (softUartSendByte b w).trace = w.trace ++ byteEvents b ∧
      replayMasked true (byteEvents b) = some true ∧
      (byteEvents b).head? = some Event.noInterrupts ∧
      (byteEvents b).getLast? = some Event.interrupts ∧
      (byteEvents b).count Event.noInterrupts = 1 ∧
      (byteEvents b).count Event.interrupts = 1 ∧
      ((byteEvents b).drop 1).take 10 =
        (lineLevels (byteEvents b)).map (fun v => Event.digitalWrite CRSF_TX_PIN v) ∧
      (∃ wStop : World, wStop.trace ++ [Event.interrupts] = w.trace ++ byteEvents b ∧
        softUartSendByte b w =
          (wStop.busyWaitUntil ((wStop.getCycleCount +
            (BIT_TIME_US / 2 * wStop.cpuFreqMHz) % 2 ^ 32) % 2 ^ 32)).emit Event.interrupts) := by
  have ht := softUartSendByte_trace b w
  have hl := lineLevels_byteEvents b
  refine ⟨ht, replayMasked_byteEvents b, rfl, ?_, ?_, ?_, ?_, ?_⟩
  · rw [byteEvents_eq]; rfl
  · rw [byteEvents_eq]; simp [List.count_cons]
  · rw [byteEvents_eq]; simp [List.count_cons]
  · rw [hl, byteEvents_eq]; rfl
  · refine ⟨uartSendBit true ((List.range 8).foldl
      (fun w i => uartSendBit (decide (b &&& (1 <<< i) ≠ 0)) w)
      (uartSendBit false (w.emit Event.noInterrupts))), ?_, rfl⟩
    rw [← ht]
    unfold softUartSendByte
    simp only [emit_trace, busyWaitUntil_trace]

/-- C19: channel range invariant.  Starting from a freshly constructed
`ChannelManager` and `PS5Controller` (L1 a 2-state toggle, R1 a 3-state
toggle, the other buttons momentary), after every sequence of controller
updates with arbitrary stick and trigger readings, button readings and clock
readings, the frame builder reads 16 channel values, each in [172, 1811], and
masking with 0x7FF changes none of them. -/
theorem channels_stay_in_range (raw : ChannelManager)
    (hraw : raw.channels.length = NUM_CHANNELS) (connected : Bool) (inputs : List PS5Input) :
    (runController inputs
        (PS5Controller.new connected, ChannelManager.new raw)).2.getChannelData.length = 16 ∧
      (∀ v ∈ (runController inputs
          (PS5Controller.new connected, ChannelManager.new raw)).2.getChannelData,
        172 ≤ v ∧ v ≤ 1811 ∧ v &&& 0x7FF = v) ∧
      (runController inputs
          (PS5Controller.new connected, ChannelManager.new raw)).2.getChannelData.map
        (fun v => v &&& 0x7FF) =
        (runController inputs
          (PS5Controller.new connected, ChannelManager.new raw)).2.getChannelData := by
  have h0 : (ChannelManager.new raw).InRange :=
    inRange_of_replicate _ (new_channels raw hraw)
  obtain ⟨_, h2⟩ := runController_preserves inputs
    (PS5Controller.new connected, ChannelManager.new raw) (controller_new_valid connected) h0
  generalize (runController inputs (PS5Controller.new connected, ChannelManager.new raw)).2 = cm
    at h2
  obtain ⟨hlen, hr⟩ := h2
  have hr2 : ∀ v ∈ cm.getChannelData, 172 ≤ v ∧ v ≤ 1811 ∧ v &&& 0x7FF = v := by
    intro v hv
    have h := hr v hv
    have h1 : 172 ≤ v := h.1
    have h3 : v ≤ 1811 := h.2
    exact ⟨h1, h3, and_mask_of_le v h3⟩
  refine ⟨hlen, hr2, ?_⟩
  conv_rhs => rw [← List.map_id cm.getChannelData]
  apply List.map_congr_left
  intro v hv
  exact (hr2 v hv).2.2

/-- C19 on a raw manager and three readings of the controller. -/
theorem channels_stay_in_range_witness :
    rawChannels.channels.length = NUM_CHANNELS ∧
      ∀ v ∈ (runController [sampleInput, sampleInput, sampleInput]
          (PS5Controller.new false, ChannelManager.new rawChannels)).2.getChannelData,
        172 ≤ v ∧ v ≤ 1811 ∧ v &&& 0x7FF = v :=
  ⟨by decide,
    (channels_stay_in_range rawChannels (by decide) false
      [sampleInput, sampleInput, sampleInput]).2.1⟩

/-- C20: centre default.  `CHANNEL_VALUE_MID` is 991; after the constructor of
`ChannelManager`, and after `resetChannels()` on any manager, the channel
array holds 16 values all equal to 991, and `getChannel` returns 991 for
every index. -/
theorem centre_default (cm : ChannelManager) (hlen : cm.channels.length = NUM_CHANNELS) :
    CHANNEL_VALUE_MID = 991 ∧
      (ChannelManager.new cm).getChannelData = List.replicate 16 991 ∧
      cm.resetChannels.getChannelData = List.replicate 16 991 ∧
      (∀ c : Nat, (ChannelManager.new cm).getChannel c = 991) ∧
      (∀ c : Nat, cm.resetChannels.getChannel c = 991) := by
  have h1 := new_channels cm hlen
  have h2 := resetChannels_channels cm hlen
  have hg : ∀ (m : ChannelManager), m.channels = List.replicate 16 991 →
      ∀ c : Nat, m.getChannel c = 991 := by
    intro m hm c
    unfold ChannelManager.getChannel
    rw [hm]
    split
    · next hc =>
      have hc2 : c % 256 < 16 := hc
      rw [List.getD_eq_getElem _ 0 (by simpa using hc2), List.getElem_replicate]
    · decide
  exact ⟨channel_value_mid, h1, h2, hg _ h1, hg _ h2⟩

/-- C20 on a raw manager with arbitrary array contents. -/
theorem centre_default_witness :
    rawChannels.channels.length = NUM_CHANNELS ∧
      (ChannelManager.new rawChannels).getChannelData = List.replicate 16 991 :=
  ⟨by decide, (centre_default rawChannels (by decide)).2.1⟩

/-- C21: channel index guard.  For every index `c` in 0..255 and every 16-bit
value `v`: `setChannel(c, v)` with `c >= 16` changes nothing; with `c < 16` it
stores `v` in channel `c` and leaves the other 15 channels, the length of the
array and `prevChannels` as they were; `getChannel(c)` is the stored value for
`c < 16` and 991 for `c >= 16`; and neither call reaches outside the
16-element array: the versions with the array bound checked never fail and
give the same results. -/
theorem setChannel_getChannel_guard (cm : ChannelManager) (c v : Nat)
    (hlen : cm.channels.length = NUM_CHANNELS) (hc : c < 256) (hv : v < 65536) :
    (16 ≤ c → cm.setChannel c v = cm ∧ cm.getChannel c = 991) ∧
      (c < 16 →
        (cm.setChannel c v).channels.getD c 0 = v ∧
          (∀ i, i ≠ c → (cm.setChannel c v).channels.getD i 0 = cm.channels.getD i 0) ∧
          (cm.setChannel c v).channels.length = NUM_CHANNELS ∧
          (cm.setChannel c v).prevChannels = cm.prevChannels ∧
          cm.getChannel c = cm.channels.getD c 0) ∧
      cm.setChannelChecked c v = some (cm.setChannel c v) ∧
      cm.getChannelChecked c = some (cm.getChannel c) := by
  have hn : NUM_CHANNELS = 16 := rfl
  have hcm : c % 256 = c := Nat.mod_eq_of_lt hc
  have hvm : v % 65536 = v := Nat.mod_eq_of_lt hv
  have hmid : CHANNEL_VALUE_MID % 65536 = 991 := by decide
  unfold ChannelManager.setChannelChecked ChannelManager.getChannelChecked
    ChannelManager.setChannel ChannelManager.getChannel
  rw [hcm, hvm, hn, hmid]
  rw [hn] at hlen
  by_cases h16 : c < 16
  · have hcl : c < cm.channels.length := by omega
    simp only [if_pos h16, if_pos hcl]
    refine ⟨fun h => absurd h16 (by omega), fun _ => ⟨?_, ?_, ?_, trivial, trivial⟩, trivial, ?_⟩
    · rw [List.getD_eq_getElem?_getD, List.getElem?_set_self hcl]
      rfl
    · intro i hi
      rw [List.getD_eq_getElem?_getD, List.getD_eq_getElem?_getD,
        List.getElem?_set_ne (fun h => hi h.symm)]
    · rw [List.length_set]
      exact hlen
    · rw [List.getD_eq_getElem?_getD, List.getElem?_eq_getElem hcl]
      rfl
  · simp only [if_neg h16]
    exact ⟨fun _ => ⟨trivial, trivial⟩, fun h => absurd h h16, trivial, trivial⟩

/-- C21 on a raw manager: a store to channel 3, a store to index 200. -/
theorem setChannel_getChannel_guard_witness :
    rawChannels.channels.length = NUM_CHANNELS ∧
      (rawChannels.setChannel 3 1500).channels.getD 3 0 = 1500 ∧
      rawChannels.setChannel 200 1500 = rawChannels ∧ rawChannels.getChannel 200 = 991 :=
  ⟨by decide,
    ((setChannel_getChannel_guard rawChannels 3 1500 (by decide) (by decide) (by decide)).2.1
      (by decide)).1,
    (setChannel_getChannel_guard rawChannels 200 1500 (by decide) (by decide) (by decide)).1
      (by decide)⟩

/-- C22, refuted as stated: on a board at 240 MHz whose clock reads 20 ms and
is one cycle short of 21 ms, `update()` on a fresh driver transmits, stores
20 as the time of the last send, and returns when the clock reads 21 ms. -/
theorem lastUpdateTime_not_completion_time :
    lateWorld.millis = 20 ∧
      transmitted lateWorld ((CRSFModule.new freshChannels).update lateWorld).2 = true ∧
      ((CRSFModule.new freshChannels).update lateWorld).1.lastUpdateTime = 20 ∧
      ((CRSFModule.new freshChannels).update lateWorld).2.millis = 21 := by
  have hms : lateWorld.millis = 20 := by decide
  have hdue : 20 ≤ (lateWorld.millis + 2 ^ 32 - (CRSFModule.new freshChannels).lastUpdateTime)
      % 2 ^ 32 := by rw [hms]; decide
  have htr := (transmitted_update_iff (CRSFModule.new freshChannels) lateWorld).mpr hdue
  have hcy := sendRcChannelsPacket_cycles (CRSFModule.new freshChannels) lateWorld (by decide)
  have hcpu := (sendRcChannelsPacket_keeps (CRSFModule.new freshChannels) lateWorld).1
  refine ⟨hms, htr, ?_, ?_⟩
  · rw [update_due _ _ hdue]
    exact hms
  · rw [update_due _ _ hdue]
    show ((CRSFModule.new freshChannels).sendRcChannelsPacket lateWorld).2.millis = 21
    unfold World.millis
    rw [hcy, hcpu]
    decide

/-- C22, amended: after a call of `update()` that transmits, the stored time
of the last send is the clock value sampled on entry, before the blocking
transmission, whatever the value of the cycle counter; the clock does not
run backwards during the call.  This holds with the waits in closed form and
with the wait loops of the source, whenever the call returns.  With the
loops, the call returns when the 32-bit counter does not come near its wrap
during the transmission, and the transmission then takes at least
`730 * cpuFreqMHz` cycles (730 microseconds), so the clock may read more
than the stored value when it completes. -/
theorem lastUpdateTime_is_entry_time (self : CRSFModule) (w : World)
    (hdue : 20 ≤ (w.millis + 2 ^ 32 - self.lastUpdateTime) % 2 ^ 32) :
    (self.update w).1.lastUpdateTime = w.millis ∧
      w.cycles ≤ (self.update w).2.cycles ∧
      (∀ (poll fuel : Nat) (r : CRSFModule × World), self.updateLoop poll fuel w = some r →
        r.1.lastUpdateTime = w.millis ∧ w.cycles ≤ r.2.cycles ∧
          w.trace.length < r.2.trace.length) ∧
      (∀ poll fuel : Nat, 1 ≤ poll →
        w.getCycleCount + (730 * w.cpuFreqMHz + 330 * (poll - 1)) < 2 ^ 32 →
        2 * w.cpuFreqMHz < fuel →
        ∃ r, self.updateLoop poll fuel w = some r ∧ r.1.lastUpdateTime = w.millis ∧
          w.cycles + 730 * w.cpuFreqMHz ≤ r.2.cycles ∧
          r.2.cycles ≤ w.cycles + (730 * w.cpuFreqMHz + 330 * (poll - 1))) := by
  refine ⟨?_, ?_, fun poll fuel r hr => ?_, fun poll fuel hp hw hf => ?_⟩
  · rw [update_due _ _ hdue]
  · rw [update_due _ _ hdue]
    exact sendRcChannelsPacket_cycles_le self w
  · rw [updateLoop_due poll fuel self w hdue] at hr
    simp only [Option.bind_eq_some, Option.some.injEq] at hr
    obtain ⟨r0, h0, hr0⟩ := hr
    obtain ⟨tail, _, evs, ht, hc, _, _, hy⟩ :=
      sendRcChannelsPacketLoop_appends poll fuel self w r0 h0
    subst hr0
    refine ⟨rfl, hy, ?_⟩
    show w.trace.length < r0.2.trace.length
    rw [ht, List.length_append]
    have h1 : (calls evs).length ≤ evs.length := List.length_filter_le _ _
    have h2 : 0 < (calls evs).length := by
      rw [hc]
      simp [bufferEvents]
    omega
  · obtain ⟨r0, h0, _, a, b⟩ := sendRcChannelsPacketLoop_returns poll fuel self w hp hw hf
    refine ⟨({ r0.1 with lastUpdateTime := w.millis }, r0.2), ?_, rfl, a, b⟩
    rw [updateLoop_due poll fuel self w hdue, h0]
    rfl

/-- C22 amended, on a fresh driver at 20 ms after boot, 240 MHz, with 7
cycles between two reads of the counter. -/
theorem lastUpdateTime_is_entry_time_witness :
    20 ≤ ((bootWorld.setClockMs 20).millis + 2 ^ 32 - (CRSFModule.new freshChannels).lastUpdateTime)
        % 2 ^ 32 ∧
      ((CRSFModule.new freshChannels).update (bootWorld.setClockMs 20)).1.lastUpdateTime =
        (bootWorld.setClockMs 20).millis ∧
      ∃ r, (CRSFModule.new freshChannels).updateLoop 7 481 (bootWorld.setClockMs 20) = some r ∧
        r.1.lastUpdateTime = (bootWorld.setClockMs 20).millis ∧
        (bootWorld.setClockMs 20).cycles + 730 * (bootWorld.setClockMs 20).cpuFreqMHz
          ≤ r.2.cycles ∧
        r.2.cycles ≤ (bootWorld.setClockMs 20).cycles +
          (730 * (bootWorld.setClockMs 20).cpuFreqMHz + 330 * (7 - 1)) :=
  ⟨by decide,
    (lastUpdateTime_is_entry_time (CRSFModule.new freshChannels) (bootWorld.setClockMs 20)
      (by decide)).1,
    (lastUpdateTime_is_entry_time (CRSFModule.new freshChannels) (bootWorld.setClockMs 20)
      (by decide)).2.2.2 7 481 (by decide) (by decide) (by decide)⟩

/-- C23: near the wrap of the 32-bit cycle counter the wait of `uartSendBit`
ends at once.  When `start + BIT_TIME_US * cpuFreqMHz` does not fit 32 bits,
`target` wraps to a value below `start`, the loop condition is false on its
first test and the call returns with the counter where it was; the bit time
is positive, so the counter has not advanced by it. -/
theorem uartSendBit_returns_early_on_wrap (b : Bool) (w : World)
    (hcpu : 0 < w.cpuFreqMHz)
    (hwrap : 2 ^ 32 ≤ w.getCycleCount + (BIT_TIME_US * w.cpuFreqMHz) % 2 ^ 32) :
    (uartSendBit b w).cycles = w.cycles ∧
      (uartSendBit b w).cycles < w.cycles + BIT_TIME_US * w.cpuFreqMHz := by
  have h : (uartSendBit b w).cycles = w.cycles := by
    rw [uartSendBit_cycles, if_neg (by unfold World.getCycleCount at hwrap; omega)]
  refine ⟨h, ?_⟩
  rw [h, bit_time_us]
  omega

/-- C23 at 240 MHz with the counter 100 cycles below `2 ^ 32`: the bit time
is 480 cycles and the call returns after none. -/
theorem uartSendBit_returns_early_on_wrap_witness :
    wrapWorld.getCycleCount = 2 ^ 32 - 100 ∧ BIT_TIME_US * wrapWorld.cpuFreqMHz = 480 ∧
      (uartSendBit true wrapWorld).cycles = wrapWorld.cycles :=
  ⟨by decide, by decide,
    (uartSendBit_returns_early_on_wrap true wrapWorld (by decide) (by decide)).1⟩

/-- C24, refuted as stated: a freshly constructed 3-position toggle starts in
state 0 with the recorded press time 0.  Three presses at 100, 700 and 1300 ms
(600 ms apart, each released in between) leave it in state 2, not in the
starting state: the first press comes less than 500 ms after the recorded
time 0 and counts as a double press. -/
theorem toggle_first_press_counts_as_double :
    (ButtonStateManager.new 3).momentaryMode = false ∧
      (ButtonStateManager.new 3).numStates = 3 ∧
      (ButtonStateManager.new 3).currentState = 0 ∧
      singlePresses 100 [(700, 800), (1300, 1400)] = true ∧
      ((ButtonStateManager.new 3).clicks [(100, 200), (700, 800), (1300, 1400)]).currentState
        = 2 := by
  decide

/-- C24, amended: the transition rule of a toggle with `n >= 2` states.  On a
rising edge the state becomes 0 when the 32-bit time difference to the
recorded press is below 500 ms and `(state + 1) mod n` otherwise, and the
press time is recorded in both cases; holding the button changes nothing and
releasing it changes neither the state nor the recorded time.  Presses that
are each at least 500 ms after the recorded press before them, the first of
them after the press time the button holds at the start (0 after
construction), advance the state by one each, so `n` of them return the
toggle to its starting state. -/
theorem toggle_transition_rule (b : ButtonStateManager) (t : Nat)
    (hm : b.momentaryMode = false) (hb : b.Valid) :
    (b.wasPressed = false →
        (b.update true t).currentState =
          (if (t + 2 ^ 32 - b.lastPress) % 2 ^ 32 < 500 then 0
            else (b.currentState + 1) % b.numStates) ∧
          (b.update true t).lastPress = t) ∧
      (b.wasPressed = true → b.update true t = b) ∧
      ((b.update false t).currentState = b.currentState ∧
        (b.update false t).lastPress = b.lastPress) ∧
      (∀ ts : List (Nat × Nat), b.wasPressed = false → singlePresses b.lastPress ts = true →
        (b.clicks ts).currentState = (b.currentState + ts.length) % b.numStates ∧
          ((ts.length : Int) = b.numStates → (b.clicks ts).currentState = b.currentState)) := by
  obtain ⟨h2, h0, hlt⟩ := hb
  refine ⟨fun hw => ?_, fun hw => update_hold b t hm hw, ?_, fun ts hw hts => ?_⟩
  · rw [update_press b t hm hw]
    refine ⟨?_, rfl⟩
    show (if (t + 2 ^ 32 - b.lastPress) % 2 ^ 32 < DOUBLE_PRESS_TIME then (0 : Int)
      else (b.currentState + 1).tmod b.numStates) = _
    rw [Int.tmod_eq_emod (by omega) (by omega)]
    rfl
  · rw [update_release b t hm]
    exact ⟨rfl, rfl⟩
  · have h := (clicks_single ts b hm hw ⟨h2, h0, hlt⟩ hts).1
    refine ⟨h, fun hn => ?_⟩
    rw [h, hn, Int.add_emod_self, Int.emod_eq_of_lt h0 hlt]

/-- C24 amended, on a fresh 3-position toggle pressed at 600, 1200 and 1800 ms. -/
theorem toggle_transition_rule_witness :
    (ButtonStateManager.new 3).momentaryMode = false ∧ (ButtonStateManager.new 3).Valid ∧
      ((ButtonStateManager.new 3).clicks [(600, 700), (1200, 1300), (1800, 1900)]).currentState
        = (ButtonStateManager.new 3).currentState :=
  ⟨by decide, new_valid 3,
    ((toggle_transition_rule (ButtonStateManager.new 3) 0 (by decide) (new_valid 3)).2.2.2
      [(600, 700), (1200, 1300), (1800, 1900)] (by decide) (by decide)).2 (by decide)⟩

/-- C25: button state invariant.  After the constructor with any `stateCount`
and any sequence of `setNumStates(k)`, `update(pressed)` at any times and
`reset()` calls, `0 <= currentState <= numStates - 1` and `numStates >= 2`.
A count `<= 1` selects momentary mode with `numStates = 2`, a larger count a
toggle with exactly that many positions; `update` and `reset` keep the mode
and the number of positions; in momentary mode the state after `update` is 1
exactly when the button was pressed; `setNumStates` and `reset` set the state
to 0. -/
theorem button_state_invariant (k : Int) (cs : List ButtonCall) (b : ButtonStateManager)
    (p : Bool) (t : Nat) :
    (2 ≤ ((ButtonStateManager.new k).calls cs).numStates ∧
        0 ≤ ((ButtonStateManager.new k).calls cs).currentState ∧
        ((ButtonStateManager.new k).calls cs).currentState ≤
          ((ButtonStateManager.new k).calls cs).numStates - 1) ∧
      ((ButtonStateManager.new k).momentaryMode = decide (k ≤ 1) ∧
        (ButtonStateManager.new k).numStates = (if k ≤ 1 then 2 else k) ∧
        (ButtonStateManager.new k).currentState = 0) ∧
      ((b.setNumStates k).momentaryMode = decide (k ≤ 1) ∧
        (b.setNumStates k).numStates = (if k ≤ 1 then 2 else k) ∧
        (b.setNumStates k).currentState = 0) ∧
      ((b.update p t).momentaryMode = b.momentaryMode ∧
        (b.update p t).numStates = b.numStates ∧
        b.reset.momentaryMode = b.momentaryMode ∧ b.reset.numStates = b.numStates) ∧
      (b.momentaryMode = true → ((b.update p t).currentState = 1 ↔ p = true)) ∧
      b.reset.currentState = 0 := by
  have hset : ∀ c : ButtonStateManager, (c.setNumStates k).momentaryMode = decide (k ≤ 1) ∧
      (c.setNumStates k).numStates = (if k ≤ 1 then 2 else k) ∧
      (c.setNumStates k).currentState = 0 := by
    intro c
    refine ⟨rfl, ?_, rfl⟩
    show (if decide (k ≤ 1) = true then (2 : Int) else max 2 k) = _
    by_cases hk : k ≤ 1
    · rw [if_pos hk, if_pos (by simpa using hk)]
    · rw [if_neg hk, if_neg (by simpa using hk)]
      exact max_eq_right (by omega)
  obtain ⟨h2, h0, hlt⟩ := calls_valid cs (ButtonStateManager.new k) (new_valid k)
  refine ⟨⟨h2, h0, by omega⟩, hset _, hset b, ?_, ?_, rfl⟩
  · refine ⟨?_, ?_, rfl, rfl⟩
    · unfold ButtonStateManager.update
      simp only
      split_ifs <;> rfl
    · unfold ButtonStateManager.update
      simp only
      split_ifs <;> rfl
  · intro hmm
    unfold ButtonStateManager.update
    simp only [hmm, if_true]
    cases p <;> simp

/-- C25 after a sample sequence of calls on a 2-position toggle, and on a
momentary button that is pressed. -/
theorem button_state_invariant_witness :
    (ButtonStateManager.new 0).momentaryMode = true ∧
      ((ButtonStateManager.new 0).update true 7).currentState = 1 ∧
      2 ≤ ((ButtonStateManager.new 2).calls sampleCalls).numStates :=
  ⟨by decide,
    ((button_state_invariant 2 sampleCalls (ButtonStateManager.new 0) true 7).2.2.2.2.1
      (by decide)).mpr rfl,
    (button_state_invariant 2 sampleCalls (ButtonStateManager.new 0) true 7).1.1⟩

/-- C26: `getValue` spreads the states evenly between MIN and MAX.  A
momentary button yields 1811 when its state is not 0, which after `update` is
when it is pressed, and 172 otherwise.  A toggle with `n` states,
`2 <= n <= 1000`, in state `s` yields `172 + floor(1639 * s / (n - 1))`:
172 in state 0, 1811 in state `n - 1`, 991 in the middle of a 3-position
toggle; the value lies in [172, 1811] and is strictly increasing in `s`. -/
theorem getValue_even_spread (b : ButtonStateManager) (p : Bool) (t : Nat) :
    (b.momentaryMode = true →
        b.getValue = (if b.currentState ≠ 0 then 1811 else 172) ∧
          (b.update p t).getValue = (if p then 1811 else 172)) ∧
      (b.momentaryMode = false → 2 ≤ b.numStates → b.numStates ≤ 1000 →
        0 ≤ b.currentState → b.currentState < b.numStates →
        b.getValue = 172 + 1639 * b.currentState / (b.numStates - 1) ∧
          172 ≤ b.getValue ∧ b.getValue ≤ 1811 ∧
          (b.currentState = 0 → b.getValue = 172) ∧
          (b.currentState = b.numStates - 1 → b.getValue = 1811) ∧
          (b.numStates = 3 → b.currentState = 1 → b.getValue = 991) ∧
          (∀ s2 : Int, b.currentState < s2 → s2 < b.numStates →
            b.getValue < ({ b with currentState := s2 } : ButtonStateManager).getValue)) := by
  have e1 : ((CHANNEL_VALUE_MIN : Nat) : Int) = 172 := rfl
  have e2 : ((CHANNEL_VALUE_MAX : Nat) : Int) = 1811 := rfl
  refine ⟨fun hmm => ⟨?_, ?_⟩, fun hm h2 hn h0 hlt => ?_⟩
  · unfold ButtonStateManager.getValue
    rw [if_pos hmm, e1, e2]
  · unfold ButtonStateManager.getValue ButtonStateManager.update
    simp only [hmm, if_true, e1, e2]
    cases p <;> simp
  · have hv := getValue_toggle b hm ⟨h2, h0, hlt⟩
    have hr := getValue_range b ⟨h2, h0, hlt⟩
    refine ⟨hv, hr.1, hr.2, fun hs => ?_, fun hs => ?_, fun h3 hs => ?_, fun s2 hs1 hs2 => ?_⟩
    · rw [hv, hs, Int.mul_zero, Int.zero_ediv]
      rfl
    · rw [hv, hs, Int.mul_ediv_cancel _ (by omega)]
      rfl
    · rw [hv, h3, hs]
      decide
    · have hv2 := getValue_toggle ({ b with currentState := s2 } : ButtonStateManager) hm
        ⟨h2, by show (0 : Int) ≤ s2; omega, hs2⟩
      rw [hv, hv2]
      have := spread_strictMono b.numStates b.currentState s2 h2 (by omega) hs1
      show 172 + 1639 * b.currentState / (b.numStates - 1) <
        172 + 1639 * s2 / (b.numStates - 1)
      omega

/-- C26 on a 5-position toggle in state 2, and on a momentary button. -/
theorem getValue_even_spread_witness :
    (((ButtonStateManager.new 5).click (600, 700)).click (1200, 1300)).getValue = 991 ∧
      ((ButtonStateManager.new 0).update true 3).getValue = 1811 :=
  ⟨by
      have h := (getValue_even_spread (((ButtonStateManager.new 5).click (600, 700)).click
        (1200, 1300)) true 0).2 (by decide) (by decide) (by decide) (by decide) (by decide)
      rw [h.1]
      decide,
    ((getValue_even_spread (ButtonStateManager.new 0) true 3).1 (by decide)).2⟩

/-- C27: `mapValueClamped` converts with clamping.  For all integers with
`from_min < from_max` and `to_min <= to_max` the result lies in
`[to_min, to_max]`, every value `<= from_min` maps to `to_min` and every
value `>= from_max` to `to_max`, and the divisor `from_max - from_min` is not
zero; when moreover the bounds of the output, the input span and the product
of the two spans fit an `int`, no operation leaves the range of `int` and
the result is the one computed without wrap-around. -/
theorem mapValueClamped_clamps (value from_min from_max to_min to_max : Int)
    (h1 : from_min < from_max) (h2 : to_min ≤ to_max) :
    (to_min ≤ mapValueClamped value from_min from_max to_min to_max ∧
        mapValueClamped value from_min from_max to_min to_max ≤ to_max) ∧
      (value ≤ from_min → mapValueClamped value from_min from_max to_min to_max = to_min) ∧
      (from_max ≤ value → mapValueClamped value from_min from_max to_min to_max = to_max) ∧
      from_max - from_min ≠ 0 ∧
      (-2147483648 ≤ to_min → to_max ≤ 2147483647 → from_max - from_min ≤ 2147483647 →
        (from_max - from_min) * (to_max - to_min) ≤ 2147483647 →
        mapValueClampedChecked value from_min from_max to_min to_max =
          some (mapValueClamped value from_min from_max to_min to_max)) :=
  ⟨mapValueClamped_range value from_min from_max to_min to_max h2,
    mapValueClamped_low value from_min from_max to_min to_max h1 h2,
    mapValueClamped_high value from_min from_max to_min to_max h1 h2,
    by omega,
    mapValueClampedChecked_eq value from_min from_max to_min to_max h1 h2⟩

/-- C27 for the trigger mapping `0..255` to `172..1811`, at the readings 300,
-3 and 128. -/
theorem mapValueClamped_clamps_witness :
    mapValueClamped 300 0 255 172 1811 = 1811 ∧ mapValueClamped (-3) 0 255 172 1811 = 172 ∧
      mapValueClampedChecked 128 0 255 172 1811 = some (mapValueClamped 128 0 255 172 1811) :=
  ⟨(mapValueClamped_clamps 300 0 255 172 1811 (by decide) (by decide)).2.2.1 (by decide),
    (mapValueClamped_clamps (-3) 0 255 172 1811 (by decide) (by decide)).2.1 (by decide),
    (mapValueClamped_clamps 128 0 255 172 1811 (by decide) (by decide)).2.2.2.2
      (by decide) (by decide) (by decide) (by decide)⟩

/-- C28: every built frame passes the check of the receiver.  For every byte
buffer `m` of length at most 254, `crcCRSF` over `m` followed by `crcCRSF(m)`
is 0; for every channel snapshot and every initial content of the frame
array, `crcCRSF` over the 24 frame bytes at offsets 2..25 is 0, and
`crcCRSF` over offsets 2..24 is byte 25. -/
theorem crcCRSF_residue_zero (m : List Nat) (stack : Nat → Nat) (channels : List Nat) :
    (m.length ≤ 254 → crcCRSF (m ++ [crcCRSF m m.length]) (m.length + 1) = 0) ∧
      crcCRSF ((frameBytes stack channels).drop 2) 24 = 0 ∧
      crcCRSF ((frameBytes stack channels).drop 2) 23 = (frameBytes stack channels).getD 25 0 := by
  have key : ∀ l : List Nat, l.length ≤ 254 →
      crcCRSF (l ++ [crcCRSF l l.length]) (l.length + 1) = 0 := by
    intro l hl
    have h := crcCRSF_eq_fold (l ++ [crcCRSF l l.length]) (by simp; omega)
    rw [List.length_append, List.length_singleton] at h
    rw [h, crcCRSF_eq_fold l (by omega), foldl_crcStep_append_self]
  have hp := packedPayload_length stack 3 channels
  have hb := rcChannelsFrame_bytes stack stack 3 channels
  generalize packedPayload stack 3 channels = pl at hp hb
  have hlen : (0x16 :: pl).length = 23 := by rw [List.length_cons, hp]
  have hd : (frameBytes stack channels).drop 2 = (0x16 :: pl) ++ [crcCRSF (0x16 :: pl) 23] := by
    rw [hb]
    rfl
  refine ⟨key m, ?_, ?_⟩
  · have h := key (0x16 :: pl) (by omega)
    rw [hlen] at h
    rw [hd]
    exact h
  · have h := crcCRSF_prefix (0x16 :: pl) [crcCRSF (0x16 :: pl) 23] (by omega)
    have h2 := crcCRSF_eq_fold (0x16 :: pl) (by omega)
    rw [hlen] at h h2
    rw [hd, h, ← h2, hb]
    have e : (0xEE :: 24 :: 0x16 :: (pl ++ [crcCRSF (0x16 :: pl) 23])).getD 25 0 =
        (pl ++ [crcCRSF (0x16 :: pl) 23]).getD 22 0 := rfl
    rw [e, getD_append_length pl _ 22 hp]

/-- C28 on the check string "123456789". -/
theorem crcCRSF_residue_zero_witness :
    checkString.length ≤ 254 ∧
      crcCRSF (checkString ++ [crcCRSF checkString checkString.length])
        (checkString.length + 1) = 0 :=
  ⟨by decide, (crcCRSF_residue_zero checkString (fun _ => 0) zeroChannels).1 (by decide)⟩

/-- C29: `packRcChannels` fully overwrites its output.  For every channel
array and every two initial contents of the memory, the 22 bytes it leaves
at the destination are the same, and every byte outside the 22 destination
bytes keeps its value; so the 26 frame bytes `sendRcChannelsPacket` builds
in its uninitialised stack array depend only on the channel values. -/
theorem packRcChannels_overwrites (mem mem2 stack stack2 : Nat → Nat) (buffer : Nat)
    (channels : List Nat) :
    packedPayload mem buffer channels = packedPayload mem2 buffer channels ∧
      (∀ x, x < buffer ∨ buffer + 22 ≤ x → packRcChannels mem buffer channels x = mem x) ∧
      frameBytes stack channels = frameBytes stack2 channels := by
  refine ⟨packedPayload_indep mem mem2 buffer buffer channels,
    fun x hx => packRcChannels_outside mem buffer channels x hx, ?_⟩
  rw [rcChannelsFrame_bytes stack mem buffer channels,
    rcChannelsFrame_bytes stack2 mem buffer channels]

/-- C29 at the frame array: the header byte before the payload and the
checksum cell after it are not written by the packer. -/
theorem packRcChannels_overwrites_witness :
    packRcChannels (fun a => a + 1) 3 sampleChannels 2 = 3 ∧
      packRcChannels (fun a => a + 1) 3 sampleChannels 25 = 26 :=
  ⟨(packRcChannels_overwrites (fun a => a + 1) (fun _ => 0) (fun _ => 0) (fun _ => 0) 3
      sampleChannels).2.1 2 (by decide),
    (packRcChannels_overwrites (fun a => a + 1) (fun _ => 0) (fun _ => 0) (fun _ => 0) 3
      sampleChannels).2.1 25 (by decide)⟩

/-- C30: stick mapping at neutral.  With the mapping
`mapValueClamped(v, -128, 127, 172, 1811)`, which `mapControllerToChannels`
applies to the stick readings of channels 0, 1 and 3, the reading -128 gives
172, 127 gives 1811, 0 gives 994 and -1 gives 988; no integer reading gives
the centre value 991. -/
theorem stick_mapping_neutral (c : PS5Controller) (cm : ChannelManager) (v : Int) :
    mapValueClamped (-128) (-128) 127 172 1811 = 172 ∧
      mapValueClamped 127 (-128) 127 172 1811 = 1811 ∧
      mapValueClamped 0 (-128) 127 172 1811 = 994 ∧
      mapValueClamped (-1) (-128) 127 172 1811 = 988 ∧
      mapValueClamped v (-128) 127 172 1811 ≠ 991 ∧
      CHANNEL_VALUE_MID = 991 ∧
      (cm.channels.length = NUM_CHANNELS →
        (c.mapControllerToChannels cm).getChannel 0 =
            toUint16 (mapValueClamped c.leftX (-128) 127 172 1811) ∧
          (c.mapControllerToChannels cm).getChannel 1 =
            toUint16 (mapValueClamped c.rightY (-128) 127 172 1811) ∧
          (c.mapControllerToChannels cm).getChannel 3 =
            toUint16 (mapValueClamped c.rightX (-128) 127 172 1811)) :=
  ⟨by decide, by decide, by decide, by decide, stick_ne_mid v, by decide,
    mapControllerToChannels_sticks c cm⟩

/-- C30 for a controller with centred sticks: channel 0 receives 994. -/
theorem stick_mapping_neutral_witness :
    rawChannels.channels.length = NUM_CHANNELS ∧ (PS5Controller.new false).leftX = 0 ∧
      ((PS5Controller.new false).mapControllerToChannels rawChannels).getChannel 0 = 994 :=
  ⟨by decide, rfl,
    ((stick_mapping_neutral (PS5Controller.new false) rawChannels 0).2.2.2.2.2.2
      (by decide)).1⟩

/-- C16: transmission order, and completion.  With the wait loops of the
source (any number `poll` of cycles between two reads of the counter, any
bound `fuel` on the reads of one wait): a call of `sendRcChannelsPacket` that
returns has made, in this order, the calls of the preamble buffer, the gap,
the frame buffer and at most one debug print; the bytes handed to the byte
transmitter are the four preamble bytes followed by frame bytes 0, 1, ...,
25, each once, and the line ends at idle.  The call returns when the counter
does not come near its wrap during the call, after 730 microseconds of
cycles and at most 330 overshoots.  It does not always return: at 240 MHz
with 7 cycles between reads and the counter 481 below the wrap, the first
wait steps over its target and is still running after 3681400608 reads (107
seconds); with 64 cycles between reads and the counter 500 below the wrap
the first wait never ends. -/
theorem sendRcChannelsPacket_completion (self : CRSFModule) (w : World) (poll fuel : Nat) :
    (∀ r, self.sendRcChannelsPacketLoop poll fuel w = some r →
      ∃ evs tail : List Event, (tail = [] ∨ tail = [Event.serialPrint]) ∧
        r.2.trace = w.trace ++ evs ∧
        calls evs = bufferEvents preambleBytes ++ [Event.delayMicroseconds 100] ++
          bufferEvents (frameBytes w.stack self.channelManager.getChannelData) ++ tail ∧
        sentBytes (calls evs) =
          [0xFF, 0x00, 0xFF, 0x00] ++ frameBytes w.stack self.channelManager.getChannelData ∧
        (frameBytes w.stack self.channelManager.getChannelData).length = 26 ∧
        (∀ i, i < 26 → (sentBytes (calls evs)).getD (4 + i) 0 =
          rcChannelsFrame w.stack self.channelManager.getChannelData i) ∧
        lineLevel r.2.trace = some false) ∧
      (1 ≤ poll → w.getCycleCount + (730 * w.cpuFreqMHz + 330 * (poll - 1)) < 2 ^ 32 →
        2 * w.cpuFreqMHz < fuel →
        ∃ r, self.sendRcChannelsPacketLoop poll fuel w = some r ∧
          w.cycles + 730 * w.cpuFreqMHz ≤ r.2.cycles ∧
          r.2.cycles ≤ w.cycles + (730 * w.cpuFreqMHz + 330 * (poll - 1))) ∧
      (fuel ≤ 3681400608 → self.sendRcChannelsPacketLoop 7 fuel stepOverWorld = none) ∧
      self.sendRcChannelsPacketLoop 64 fuel hangWorld = none := by
  refine ⟨fun r hr => ?_, fun hp hw hf => ?_, fun hfuel => ?_, ?_⟩
  · obtain ⟨tail, h1, evs, ht, hc, _, _, _⟩ :=
      sendRcChannelsPacketLoop_appends poll fuel self w r hr
    have hpre : ∀ b ∈ preambleBytes, b < 256 := by decide
    have hfr := frameBytes_lt w.stack self.channelManager.getChannelData
    have htail : sentBytes tail = [] := by
      rcases h1 with h | h
      · rw [h]; rfl
      · rw [h, sentBytes_cons_serialPrint]; rfl
    have hsent : sentBytes (calls evs) =
        [0xFF, 0x00, 0xFF, 0x00] ++ frameBytes w.stack self.channelManager.getChannelData := by
      rw [hc, List.append_assoc, List.append_assoc, sentBytes_bufferEvents _ hpre]
      simp only [List.cons_append, List.nil_append]
      rw [sentBytes_cons_delay, sentBytes_bufferEvents _ hfr, htail, List.append_nil]
      rfl
    have hidle : lineLevel r.2.trace = some false := by
      have hl : lineLevels r.2.trace = lineLevels (w.trace ++ calls evs) := by
        rw [ht, lineLevels_append, lineLevels_append, lineLevels_calls]
      have hl2 : lineLevel r.2.trace = lineLevel (w.trace ++ calls evs) := by
        unfold lineLevel
        rw [hl]
      have e : w.trace ++ (bufferEvents preambleBytes ++ [Event.delayMicroseconds 100] ++
          bufferEvents (frameBytes w.stack self.channelManager.getChannelData) ++ tail) =
          (w.trace ++ (bufferEvents preambleBytes ++ [Event.delayMicroseconds 100]) ++
            bufferEvents (frameBytes w.stack self.channelManager.getChannelData)) ++ tail := by
        simp only [List.append_assoc]
      rw [hl2, hc, e]
      rcases h1 with h | h
      · rw [h, List.append_nil]
        exact lineLevel_append_bufferEvents _ _
      · rw [h, lineLevel_append_serialPrint]
        exact lineLevel_append_bufferEvents _ _
    refine ⟨evs, tail, h1, ht, hc, hsent, frameBytes_length _ _, ?_, hidle⟩
    intro i hi
    rw [hsent]
    have e : ([0xFF, 0x00, 0xFF, 0x00] ++
        frameBytes w.stack self.channelManager.getChannelData).getD (4 + i) 0 =
        (frameBytes w.stack self.channelManager.getChannelData).getD i 0 := by
      simp only [List.cons_append, List.nil_append]
      rw [show 4 + i = i + 1 + 1 + 1 + 1 by omega]
      rfl
    rw [e]
    unfold frameBytes
    rw [getD_readBytes _ _ _ _ (by simpa [CRSF_FRAME_SIZE] using hi), Nat.zero_add]
  · obtain ⟨r, h, _, a, b⟩ := sendRcChannelsPacketLoop_returns poll fuel self w hp hw hf
    exact ⟨r, h, a, b⟩
  · exact sendRcChannelsPacketLoop_none 7 fuel self stepOverWorld
      (uartSendBitLoop_steps_over fuel false _ (by decide) rfl hfuel)
  · exact sendRcChannelsPacketLoop_none 64 fuel self hangWorld
      (uartSendBitLoop_hangs fuel false _ (by decide) rfl)

/-- C16 on a board just booted at 240 MHz, with 7 cycles between two reads
and 481 reads allowed to each wait: the call returns. -/
theorem sendRcChannelsPacket_completion_witness :
    bootWorld.getCycleCount + (730 * bootWorld.cpuFreqMHz + 330 * (7 - 1)) < 2 ^ 32 ∧
      ∃ r, (CRSFModule.new freshChannels).sendRcChannelsPacketLoop 7 481 bootWorld = some r ∧
        bootWorld.cycles + 730 * bootWorld.cpuFreqMHz ≤ r.2.cycles ∧
        r.2.cycles ≤ bootWorld.cycles + (730 * bootWorld.cpuFreqMHz + 330 * (7 - 1)) :=
  ⟨by decide,
    (sendRcChannelsPacket_completion (CRSFModule.new freshChannels) bootWorld 7 481).2.1
      (by decide) (by decide) (by decide)⟩

/-- C18: atomicity of each byte.  With the wait loops of the source, the
events of a call of `softUartSendByte` that returns are: `noInterrupts`, the
start bit and the eight data bits with their waits, the stop level, the
reads of the completed stop bit wait, the reads of the completed spacing
wait, and only then `interrupts`.  The two waits contain nothing but reads
of the counter and each ends with the read that reached its target.  The
calls are those of the framing of the byte; replayed with interrupts enabled
at entry, all ten line writes happen while interrupts are disabled and
interrupts are enabled at return; `noInterrupts` and `interrupts` occur once
each.  The call returns when the counter does not come near its wrap. -/
theorem softUartSendByteLoop_atomic (poll fuel b : Nat) (w : World) :
    (∀ w2, softUartSendByteLoop poll fuel b w = some w2 →
      ∃ bits waitStop waitGap evs : List Event,
        evs = [Event.noInterrupts] ++ bits ++ [Event.digitalWrite CRSF_TX_PIN false] ++
          waitStop ++ waitGap ++ [Event.interrupts] ∧
        w2.trace = w.trace ++ evs ∧
        isWait (BIT_TIME_US * w.cpuFreqMHz) waitStop = true ∧ calls waitStop = [] ∧
        isWait (BIT_TIME_US / 2 * w.cpuFreqMHz) waitGap = true ∧ calls waitGap = [] ∧
        calls bits = Event.digitalWrite CRSF_TX_PIN true ::
          (List.range 8).map (fun i => Event.digitalWrite CRSF_TX_PIN (!b.testBit i)) ∧
        calls evs = byteEvents b ∧
        lineLevels evs =
          [true, !b.testBit 0, !b.testBit 1, !b.testBit 2, !b.testBit 3, !b.testBit 4,
            !b.testBit 5, !b.testBit 6, !b.testBit 7, false] ∧
        replayMasked true evs = some true ∧
        evs.count Event.noInterrupts = 1 ∧ evs.count Event.interrupts = 1) ∧
      (1 ≤ poll → w.getCycleCount + (21 * w.cpuFreqMHz + 11 * (poll - 1)) < 2 ^ 32 →
        2 * w.cpuFreqMHz < fuel →
        ∃ w2, softUartSendByteLoop poll fuel b w = some w2 ∧
          w.cycles + 21 * w.cpuFreqMHz ≤ w2.cycles) := by
  refine ⟨fun w2 h => ?_, fun hp hw hf => ?_⟩
  · obtain ⟨bits, waitStop, waitGap, t, cb, is, cs, ig, cg, _, _, _⟩ :=
      softUartSendByteLoop_spec poll fuel b w w2 h
    have hc : calls ([Event.noInterrupts] ++ bits ++ [Event.digitalWrite CRSF_TX_PIN false] ++
        waitStop ++ waitGap ++ [Event.interrupts]) = byteEvents b := by
      simp only [calls_append, cb, cs, cg, byteEvents_eq]
      rfl
    refine ⟨bits, waitStop, waitGap, _, rfl, t, is, cs, ig, cg, cb, hc, ?_, ?_, ?_, ?_⟩
    · rw [← lineLevels_calls, hc]
      exact lineLevels_byteEvents b
    · rw [← replayMasked_calls, hc]
      exact replayMasked_byteEvents b
    · rw [← count_calls _ Event.noInterrupts rfl, hc, byteEvents_eq]
      simp [List.count_cons]
    · rw [← count_calls _ Event.interrupts rfl, hc, byteEvents_eq]
      simp [List.count_cons]
  · obtain ⟨w2, h, _, a, _⟩ := softUartSendByteLoop_returns poll fuel b w hp hw hf
    exact ⟨w2, h, a⟩

/-- C18 for the byte 0xA5 on a board just booted at 240 MHz, with 7 cycles
between two reads: the call returns, after at least 5040 cycles. -/
theorem softUartSendByteLoop_atomic_witness :
    bootWorld.getCycleCount + (21 * bootWorld.cpuFreqMHz + 11 * (7 - 1)) < 2 ^ 32 ∧
      ∃ w2, softUartSendByteLoop 7 481 0xA5 bootWorld = some w2 ∧
        bootWorld.cycles + 21 * bootWorld.cpuFreqMHz ≤ w2.cycles :=
  ⟨by decide,
    (softUartSendByteLoop_atomic 7 481 0xA5 bootWorld).2 (by decide) (by decide) (by decide)⟩

end CrossTie
